import Mathlib

/-!
# prototokens: signed-token lifecycle and validation pipeline

A shallow embedding of the Go packages `prototokens` (`prototokens.go`, `tokenopts.go`,
`errors.go`) and `prototokens/managers/ed25519url` (`manager.go`).

* Go byte slices and Go strings are lists of bytes.
* A Go `(value, error)` result, together with the possibility of a panic, is a `Res`.
* Calls that leave the repository (the key accessor, `proto.Marshal`, `proto.Unmarshal`,
  `crypto/ed25519`, `encoding/base64`, `time.Now`, `ksuid.New`) are recorded, in order, in the
  `World` that every operation threads through.
* `crypto/ed25519` is kept abstract (`Ed25519`); `encoding/base64` and the protobuf wire format
  are embedded concretely.
-/

namespace Prototokens

/-! ## Bytes and strings -/

abbrev Byte := Fin 256

abbrev Bytes := List Byte

/-- Truncating conversion `byte(n)`. -/
def byte (n : Nat) : Byte := ⟨n % 256, Nat.mod_lt n (by decide)⟩

/-- The bytes of an ASCII string literal. -/
def ascii (s : String) : Bytes := s.toList.map (fun c => byte c.toNat)

/-! ## Errors (`errors.go`) -/

/-- The package-level error values of `errors.go`. -/
inductive Sentinel
  | ErrMarshal
  | ErrUnmarshal
  | ErrNotValid
  | ErrNotValidForUsage
  | ErrNotYetValid
  | ErrNoLongerValid
  | ErrSign
  | ErrInvalidSignature
  | ErrTamper
  | ErrEncode
  | ErrDecode
  | ErrKeyData
  | ErrOverwrite
  | ErrUnimplemented
  | ErrTokenRevoked
  deriving DecidableEq, Repr

/-- A Go error value: a package-level sentinel, an error made outside the repository or by
`fmt.Errorf` without a wrapping verb (`lib`), `fmt.Errorf("%w: <text>", inner)` (`wrap1`), or
`fmt.Errorf("%w: %w", outer, inner)` (`wrap2`). -/
inductive GoError
  | sentinel (s : Sentinel)
  | lib (msg : String)
  | wrap1 (inner : GoError) (text : String)
  | wrap2 (outer inner : GoError)
  deriving DecidableEq, Repr

/-- The test `errors.Is(err, target)` for a sentinel target: the sentinel occurs in the tree of
wrapped errors. -/
def GoError.Is : GoError → Sentinel → Bool
  | .sentinel s, t => decide (s = t)
  | .lib _, _ => false
  | .wrap1 inner _, t => inner.Is t
  | .wrap2 outer inner, t => outer.Is t || inner.Is t

/-- The texts of the package-level error values of `errors.go`. -/
def Sentinel.Error : Sentinel → String
  | .ErrMarshal => "error marshalling"
  | .ErrUnmarshal => "error unmarshalling"
  | .ErrNotValid => "token is invalid"
  | .ErrNotValidForUsage => "token is not valid for provided usages"
  | .ErrNotYetValid => "token is not yet valid"
  | .ErrNoLongerValid => "token is no longer valid"
  | .ErrSign => "unable to sign token"
  | .ErrInvalidSignature => "signature is invalid"
  | .ErrTamper => "token appears to be tampered with"
  | .ErrEncode => "unable to encode signed token"
  | .ErrDecode => "unable to decode signed token"
  | .ErrKeyData => "key data is invalid"
  | .ErrOverwrite => "attempted overwrite of field"
  | .ErrUnimplemented => "functionality not yet implemented"
  | .ErrTokenRevoked => "token has been revoked"

/-- The method `Error()`: the message of the error. `fmt.Errorf` puts the message of a wrapped
error where its `%w` verb stands. -/
def GoError.Error : GoError → String
  | .sentinel s => s.Error
  | .lib msg => msg
  | .wrap1 inner text => inner.Error ++ ": " ++ text
  | .wrap2 outer inner => outer.Error ++ ": " ++ inner.Error

/-- Outcome of a Go call returning `(value, error)`: a value with a nil error, a non-nil error
(with no value), or a panic. -/
inductive Res (α : Type)
  | ok (a : α)
  | error (e : GoError)
  | panic (msg : String)
  deriving DecidableEq, Repr

/-- The call returns normally: it hands back a value or an error, and does not panic. -/
def Res.returns {α : Type} : Res α → Bool
  | .ok _ => true
  | .error _ => true
  | .panic _ => false

/-! ## The outside world -/

/-- Calls that leave the repository. -/
inductive Call
  | TimeNow
  | KsuidNew
  | KeyData
  | ProtoMarshal
  | ProtoUnmarshal
  | Ed25519Sign
  | Ed25519Verify
  | Base64Encode
  | Base64Decode
  deriving DecidableEq, Repr

/-- What an operation can observe and change outside itself: how many times the key accessor has
been called so far, and the log of outside calls made, oldest first. -/
structure World where
  keyCalls : Nat
  log : List Call
  deriving DecidableEq, Repr

def World.record (w : World) (c : Call) : World :=
  { w with log := w.log ++ [c] }

/-! ## `encoding/base64`, `RawURLEncoding` -/

namespace Base64

/-- The alphabet `encodeURL`: `A`-`Z`, `a`-`z`, `0`-`9`, `-`, `_`. -/
def encodeURL (i : Nat) : Byte :=
  if i < 26 then byte (65 + i)
  else if i < 52 then byte (97 + (i - 26))
  else if i < 62 then byte (48 + (i - 52))
  else if i = 62 then byte 45
  else byte 95

/-- The table `decodeMap` built from `encodeURL`; `none` stands for the entry `0xff`. -/
def decodeMap (c : Byte) : Option Nat :=
  if 65 ≤ c.val ∧ c.val ≤ 90 then some (c.val - 65)
  else if 97 ≤ c.val ∧ c.val ≤ 122 then some (c.val - 71)
  else if 48 ≤ c.val ∧ c.val ≤ 57 then some (c.val + 4)
  else if c.val = 45 then some 62
  else if c.val = 95 then some 63
  else none

/-- The encoder `EncodeToString` without padding: three bytes give four characters, a remainder
of one byte gives two characters and a remainder of two bytes gives three. -/
def EncodeToString : Bytes → Bytes
  | a :: b :: c :: rest =>
    let val := a.val * 65536 + b.val * 256 + c.val
    encodeURL (val / 262144 % 64) :: encodeURL (val / 4096 % 64) ::
      encodeURL (val / 64 % 64) :: encodeURL (val % 64) :: EncodeToString rest
  | [a, b] =>
    let val := a.val * 65536 + b.val * 256
    [encodeURL (val / 262144 % 64), encodeURL (val / 4096 % 64), encodeURL (val / 64 % 64)]
  | [a] =>
    let val := a.val * 65536
    [encodeURL (val / 262144 % 64), encodeURL (val / 4096 % 64)]
  | [] => []

/-- The loop of `Decode` over `decodeQuantum` (non-strict, no padding character). `dbuf` holds
the values of the quantum being read. A character of the alphabet is added to the quantum, which
is written out when it has four values; `\n` (10) and `\r` (13) are skipped; every other
character is a `CorruptInputError`. At the end of the input an empty quantum is fine, a quantum of
one value is a `CorruptInputError`, and a quantum of two or three values gives one or two bytes. -/
def decodeQuantum (dbuf : List Nat) : Bytes → Option Bytes
  | [] =>
    match dbuf with
    | [] => some []
    | [d0, d1] =>
      let val := d0 * 262144 + d1 * 4096
      some [byte (val / 65536)]
    | [d0, d1, d2] =>
      let val := d0 * 262144 + d1 * 4096 + d2 * 64
      some [byte (val / 65536), byte (val / 256)]
    | _ => none
  | c :: src =>
    match decodeMap c with
    | some out =>
      match dbuf with
      | [d0, d1, d2] =>
        let val := d0 * 262144 + d1 * 4096 + d2 * 64 + out
        match decodeQuantum [] src with
        | some dst => some (byte (val / 65536) :: byte (val / 256) :: byte val :: dst)
        | none => none
      | _ => decodeQuantum (dbuf ++ [out]) src
    | none =>
      if c.val = 10 ∨ c.val = 13 then decodeQuantum dbuf src
      else none

/-- The decoder `DecodeString`. -/
def DecodeString (s : Bytes) : Res Bytes :=
  match decodeQuantum [] s with
  | some b => .ok b
  | none => .error (.lib "illegal base64 data")

/-- The character is one of the 64 of the alphabet. -/
def isAlphabet (c : Byte) : Bool := (decodeMap c).isSome

/-- The character is `\n` or `\r`. -/
def isLineBreak (c : Byte) : Bool := decide (c.val = 10 ∨ c.val = 13)

/-- The text is not unpadded URL-safe base64 once line breaks are left out: it has a character
that is neither of the alphabet nor `\n` or `\r` (the padding character `=` is such a
character), or its characters of the alphabet cannot be a whole number of quanta followed by two
or three characters (their count is 1 modulo 4). -/
def Illegal (s : Bytes) : Prop :=
  (∃ c ∈ s, isAlphabet c = false ∧ isLineBreak c = false)
    ∨ (s.filter isAlphabet).length % 4 = 1

instance (s : Bytes) : Decidable (Illegal s) := by
  unfold Illegal
  exact inferInstance

end Base64

/-! ## `unicode/utf8` -/

/-- Continuation byte `0x80`-`0xBF`. -/
def utf8Cont (b : Byte) : Bool := decide (128 ≤ b.val ∧ b.val ≤ 191)

/-- The check `utf8.Valid`: well-formed UTF-8, with no overlong forms, no surrogates and nothing
above U+10FFFF. -/
def utf8Valid : Bytes → Bool
  | [] => true
  | b0 :: rest =>
    if b0.val < 128 then utf8Valid rest
    else if 194 ≤ b0.val ∧ b0.val ≤ 223 then
      match rest with
      | b1 :: rest1 => utf8Cont b1 && utf8Valid rest1
      | _ => false
    else if 224 ≤ b0.val ∧ b0.val ≤ 239 then
      match rest with
      | b1 :: b2 :: rest2 =>
        decide ((if b0.val = 224 then 160 else 128) ≤ b1.val
          ∧ b1.val ≤ (if b0.val = 237 then 159 else 191))
          && utf8Cont b2 && utf8Valid rest2
      | _ => false
    else if 240 ≤ b0.val ∧ b0.val ≤ 244 then
      match rest with
      | b1 :: b2 :: b3 :: rest3 =>
        decide ((if b0.val = 240 then 144 else 128) ≤ b1.val
          ∧ b1.val ≤ (if b0.val = 244 then 143 else 191))
          && utf8Cont b2 && utf8Cont b3 && utf8Valid rest3
      | _ => false
    else false

/-! ## `time` -/

/-- A `time.Time` without monotonic reading, as `UTC()` returns it: `sec` is the field `ext`,
the seconds since January 1 of year 1 (an `int64`), and `nsec` the nanoseconds within the second
(the low 30 bits of the field `wall`). -/
structure Time where
  sec : Int
  nsec : Int
  deriving DecidableEq, Repr

/-- Conversion to `int64`, keeping the low 64 bits. -/
def toInt64 (x : Int) : Int :=
  (x + 9223372036854775808) % 18446744073709551616 - 9223372036854775808

/-- Conversion to `int32`, keeping the low 32 bits. -/
def toInt32 (x : Int) : Int := (x + 2147483648) % 4294967296 - 2147483648

/-- Conversion of a signed integer to `uint64`. -/
def toUint64 (x : Int) : Nat := (x % 18446744073709551616).toNat

/-- The method `Time.Before`. -/
def Time.Before (t u : Time) : Bool :=
  decide (t.sec < u.sec ∨ (t.sec = u.sec ∧ t.nsec < u.nsec))

/-- The method `Time.After`. -/
def Time.After (t u : Time) : Bool :=
  decide (t.sec > u.sec ∨ (t.sec = u.sec ∧ t.nsec > u.nsec))

/-- The constant `unixToInternal`: seconds from year 1 to 1970. -/
def unixToInternal : Int := 62135596800

/-- The function `time.Unix(sec, nsec)` followed by `UTC()`: `nsec` outside `[0, 1e9)` is
carried into `sec`; `int64` arithmetic wraps. -/
def Time.Unix (sec nsec : Int) : Time :=
  if nsec < 0 ∨ nsec ≥ 1000000000 then
    let n := Int.tdiv nsec 1000000000
    let sec1 := toInt64 (sec + n)
    let nsec1 := toInt64 (nsec - toInt64 (n * 1000000000))
    if nsec1 < 0 then
      { sec := toInt64 (toInt64 (sec1 - 1) + unixToInternal), nsec := toInt32 (nsec1 + 1000000000) }
    else
      { sec := toInt64 (sec1 + unixToInternal), nsec := toInt32 nsec1 }
  else
    { sec := toInt64 (sec + unixToInternal), nsec := toInt32 nsec }

/-- The method `Time.Unix()`: seconds since 1970. -/
def Time.unixSeconds (t : Time) : Int := toInt64 (t.sec - unixToInternal)

/-- The method `Time.Add(d)` on a time without monotonic reading; `d` is a `time.Duration` in
nanoseconds. Division truncates toward zero, and `addSec` saturates instead of overflowing. -/
def Time.Add (t : Time) (d : Int) : Time :=
  let dsec := Int.tdiv d 1000000000
  let nsec := toInt32 (t.nsec + toInt32 (Int.tmod d 1000000000))
  let dsec1 :=
    if nsec ≥ 1000000000 then toInt64 (dsec + 1)
    else if nsec < 0 then toInt64 (dsec - 1)
    else dsec
  let nsec1 :=
    if nsec ≥ 1000000000 then nsec - 1000000000
    else if nsec < 0 then nsec + 1000000000
    else nsec
  let sum := toInt64 (t.sec + dsec1)
  let ext :=
    if decide (sum > t.sec) = decide (dsec1 > 0) then sum
    else if dsec1 > 0 then 9223372036854775807
    else -9223372036854775807
  { sec := ext, nsec := nsec1 }

/-- The time is a clock reading: its nanoseconds are within the second and its seconds within
`2^62` of year 1, far from the ends of `int64` (`time.Now` is within centuries of 1970). -/
def Time.isClock (t : Time) : Bool :=
  decide (0 ≤ t.nsec ∧ t.nsec < 1000000000
    ∧ -4611686018427387904 ≤ t.sec ∧ t.sec < 4611686018427387904)

/-! ## `google.golang.org/protobuf/encoding/protowire` -/

namespace protowire

def VarintType : Nat := 0
def Fixed64Type : Nat := 1
def BytesType : Nat := 2
def StartGroupType : Nat := 3
def EndGroupType : Nat := 4
def Fixed32Type : Nat := 5

def MinValidNumber : Nat := 1
def MaxValidNumber : Nat := 536870911
def DefaultRecursionLimit : Int := 10000

/-- Base-128 digits of `v`, low digit first, at most `n` of them. -/
def appendVarintN : Nat → Nat → Bytes
  | 0, _ => []
  | n + 1, v =>
    if v < 128 then [byte v]
    else byte (v % 128 + 128) :: appendVarintN n (v / 128)

/-- The function `AppendVarint` for a `uint64`: one to ten bytes. -/
def AppendVarint (v : Nat) : Bytes := appendVarintN 10 (v % 18446744073709551616)

/-- Reads a varint of at most `n` bytes, the last allowed byte being the tenth of `ConsumeVarint`,
which must be 0 or 1. `none` is truncation or overflow. -/
def consumeVarintN : Nat → Bytes → Option (Nat × Bytes)
  | 0, _ => none
  | _ + 1, [] => none
  | n + 1, y :: b =>
    if y.val < 128 then
      if n = 0 ∧ 2 ≤ y.val then none else some (y.val, b)
    else if n = 0 then none
    else
      match consumeVarintN n b with
      | some (v, rest) => some (y.val - 128 + 128 * v, rest)
      | none => none

/-- The function `ConsumeVarint`: the value and the bytes that follow it. -/
def ConsumeVarint (b : Bytes) : Option (Nat × Bytes) := consumeVarintN 10 b

/-- The function `AppendTag`. -/
def AppendTag (num typ : Nat) : Bytes := AppendVarint (num * 8 + typ)

/-- The function `ConsumeTag`: field number, wire type and the bytes that follow. -/
def ConsumeTag (b : Bytes) : Option (Nat × Nat × Bytes) :=
  match ConsumeVarint b with
  | none => none
  | some (v, rest) =>
    if v / 8 > 2147483647 ∨ v / 8 < MinValidNumber then none
    else some (v / 8, v % 8, rest)

/-- The function `AppendBytes`: length, then the bytes. -/
def AppendBytes (v : Bytes) : Bytes := AppendVarint v.length ++ v

/-- The function `ConsumeBytes`: the value and the bytes that follow it. -/
def ConsumeBytes (b : Bytes) : Option (Bytes × Bytes) :=
  match ConsumeVarint b with
  | none => none
  | some (m, rest) => if m > rest.length then none else some (rest.take m, rest.drop m)

/-- Skips a value that is not a group (`consumeFieldValueD`, the cases other than
`StartGroupType`). -/
def consumeScalar (typ : Nat) (b : Bytes) : Option Bytes :=
  if typ = VarintType then (ConsumeVarint b).map Prod.snd
  else if typ = Fixed32Type then (if b.length < 4 then none else some (b.drop 4))
  else if typ = Fixed64Type then (if b.length < 8 then none else some (b.drop 8))
  else if typ = BytesType then (ConsumeBytes b).map Prod.snd
  else none

/-- Skips the body of group `num` up to and including its end tag (`consumeFieldValueD`, the case
`StartGroupType`). Every round reads a tag, so `fuel` above the length of `b` is never used up. -/
def consumeGroup : Nat → Nat → Int → Bytes → Option Bytes
  | 0, _, _, _ => none
  | fuel + 1, num, depth, b =>
    if depth < 0 then none
    else
      match ConsumeTag b with
      | none => none
      | some (num2, typ2, b1) =>
        if typ2 = EndGroupType then (if num ≠ num2 then none else some b1)
        else if typ2 = StartGroupType then
          match consumeGroup fuel num2 (depth - 1) b1 with
          | none => none
          | some b2 => consumeGroup fuel num depth b2
        else
          match consumeScalar typ2 b1 with
          | none => none
          | some b2 => consumeGroup fuel num depth b2

/-- The function `ConsumeFieldValue`: the bytes that follow the value. -/
def ConsumeFieldValue (num typ : Nat) (b : Bytes) : Option Bytes :=
  if typ = StartGroupType then consumeGroup (b.length + 1) num DefaultRecursionLimit b
  else consumeScalar typ b

end protowire

/-! ## Messages (`proto/gen/go/prototokens/v1`, `timestamppb`) -/

/-- The message `google.protobuf.Timestamp`: `seconds` (field 1, `int64`) and `nanos` (field 2,
`int32`). -/
structure Timestamp where
  Seconds : Int
  Nanos : Int
  deriving DecidableEq, Repr

/-- Modelled from the spec: the message `Timestamps` of the generated package
`proto/gen/go/prototokens/v1`, which is not among the sources. Its two fields are the ones the
sources read (`GetNotValidBefore`, `GetNotValidAfter`), pointers that may be nil, numbered in the
order in which the spec lists them (not-valid-before 1, not-valid-after 2). -/
structure Timestamps where
  NotValidBefore : Option Timestamp
  NotValidAfter : Option Timestamp
  deriving DecidableEq, Repr

/-- The enum `TokenUsages`, an `int32`. -/
abbrev TokenUsages := Int

/-- Modelled from the spec: the message `ProtoToken` of the generated package
`proto/gen/go/prototokens/v1`, which is not among the sources. The fields and their Go types are
the ones the sources use (`Id` and `Sid` strings, `Vendor` a byte slice, `Usages` a slice of
`TokenUsages`, `Timestamps` a pointer); a nil slice or pointer is `none`. The fields are numbered
in the order in which the spec lists them: identity 1, session id 2, vendor data 3, usages 4,
validity window 5. -/
structure ProtoToken where
  Id : Bytes
  Sid : Bytes
  Vendor : Option Bytes
  Usages : Option (List TokenUsages)
  Timestamps : Option Timestamps
  deriving DecidableEq, Repr

/-- Modelled from the spec: the message `SignedToken` of the generated package
`proto/gen/go/prototokens/v1`, which is not among the sources: the pair of signature bytes
(field 1) and serialized-credential bytes (field 2). A nil slice is the empty list. -/
structure SignedToken where
  Signature : Bytes
  Prototoken : Bytes
  deriving DecidableEq, Repr

def Timestamp.zero : Timestamp := { Seconds := 0, Nanos := 0 }

def Timestamps.zero : Timestamps := { NotValidBefore := none, NotValidAfter := none }

def ProtoToken.zero : ProtoToken :=
  { Id := [], Sid := [], Vendor := none, Usages := none, Timestamps := none }

def SignedToken.zero : SignedToken := { Signature := [], Prototoken := [] }

def ProtoToken.GetId (x : ProtoToken) : Bytes := x.Id

def ProtoToken.GetSid (x : ProtoToken) : Bytes := x.Sid

def ProtoToken.GetVendor (x : ProtoToken) : Bytes := x.Vendor.getD []

def ProtoToken.GetUsages (x : ProtoToken) : List TokenUsages := x.Usages.getD []

def ProtoToken.GetTimestamps (x : ProtoToken) : Option Prototokens.Timestamps := x.Timestamps

/-- Getter on a possibly nil `*Timestamps`. -/
def GetNotValidBefore (x : Option Timestamps) : Option Timestamp :=
  x.bind (fun t => t.NotValidBefore)

/-- Getter on a possibly nil `*Timestamps`. -/
def GetNotValidAfter (x : Option Timestamps) : Option Timestamp :=
  x.bind (fun t => t.NotValidAfter)

/-- The method `AsTime` on a possibly nil `*timestamppb.Timestamp`, followed by `UTC()`: the
getters of a nil timestamp return zero. -/
def AsTime (x : Option Timestamp) : Time :=
  Time.Unix (x.getD Timestamp.zero).Seconds (x.getD Timestamp.zero).Nanos

/-- The constructor `timestamppb.New`. -/
def timestamppbNew (t : Time) : Timestamp :=
  { Seconds := t.unixSeconds, Nanos := toInt32 t.nsec }

/-- The value is an `int32`. -/
def isInt32 (x : Int) : Bool := decide (-2147483648 ≤ x ∧ x < 2147483648)

/-- The value is an `int64`. -/
def isInt64 (x : Int) : Bool := decide (-9223372036854775808 ≤ x ∧ x < 9223372036854775808)

/-- The fields of the timestamp hold values of their Go types, `int64` and `int32`. -/
def Timestamp.typed (t : Timestamp) : Bool := isInt64 t.Seconds && isInt32 t.Nanos

/-- Both timestamps, where present, hold values of their Go types. -/
def Timestamps.typed (t : Timestamps) : Bool :=
  t.NotValidBefore.all Timestamp.typed && t.NotValidAfter.all Timestamp.typed

/-- The credential is a Go value: its usage tags are `int32` values and so are the fields of its
timestamps. -/
def ProtoToken.typed (x : ProtoToken) : Bool :=
  x.GetUsages.all isInt32 && x.Timestamps.all Timestamps.typed

/-- The credential with its nil-or-empty slices made nil: what the decoder gives back for the
serialization of `x`. The getters do not tell it from `x`. -/
def ProtoToken.canonical (x : ProtoToken) : ProtoToken :=
  { Id := x.Id
    Sid := x.Sid
    Vendor := if x.GetVendor.length = 0 then none else some x.GetVendor
    Usages := if x.GetUsages.length = 0 then none else some x.GetUsages
    Timestamps := x.Timestamps }

def SignedToken.GetSignature (x : SignedToken) : Bytes := x.Signature

def SignedToken.GetPrototoken (x : SignedToken) : Bytes := x.Prototoken

/-! ## `google.golang.org/protobuf/proto` on these messages -/

namespace proto

open protowire

/-- Result of the decoder of one known field: the wire type is not the field's (`errUnknown`,
the value is skipped as an unknown field), a decoding error, or the updated message and the bytes
that follow the value. -/
inductive FieldOut (σ : Type)
  | unknown
  | fail
  | ok (msg : σ) (rest : Bytes)

/-- The loop of `MessageInfo.unmarshalPointer` for a message that is not a group: read a tag,
reject field numbers outside `[1, 2^29 - 1]` and a stray end-group tag, give the value to the
field's decoder, and skip values of unknown fields with `ConsumeFieldValue`. Every round reads a
tag, so `fuel` above the length of `b` is never used up. `none` is an error. -/
def unmarshalPointer {σ : Type} (coder : σ → Nat → Nat → Bytes → FieldOut σ) :
    Nat → σ → Bytes → Option σ
  | 0, _, _ => none
  | fuel + 1, msg, b =>
    if b.length = 0 then some msg
    else
      match ConsumeVarint b with
      | none => none
      | some (tag, b1) =>
        if tag / 8 < MinValidNumber ∨ tag / 8 > MaxValidNumber then none
        else if tag % 8 = EndGroupType then none
        else
          match coder msg (tag / 8) (tag % 8) b1 with
          | .ok msg1 rest => unmarshalPointer coder fuel msg1 rest
          | .fail => none
          | .unknown =>
            match ConsumeFieldValue (tag / 8) (tag % 8) b1 with
            | none => none
            | some rest => unmarshalPointer coder fuel msg rest

/-- The input `b` decodes from `msg` to `r`, whatever fuel above the length of `b` the loop is
given. -/
def Decodes {σ : Type} (coder : σ → Nat → Nat → Bytes → FieldOut σ) (msg : σ) (b : Bytes)
    (r : σ) : Prop :=
  ∀ fuel, b.length < fuel → unmarshalPointer coder fuel msg b = some r

/-- The field decoder leaves no more bytes than it was given. -/
def Shrinks {σ : Type} (coder : σ → Nat → Nat → Bytes → FieldOut σ) : Prop :=
  ∀ msg num wtyp b msg1 rest, coder msg num wtyp b = .ok msg1 rest → rest.length ≤ b.length

/-- Field decoders of `Timestamp`: `consumeInt64` and `consumeInt32`. -/
def timestampCoder (x : Timestamp) (num wtyp : Nat) (b : Bytes) : FieldOut Timestamp :=
  if num = 1 then
    if wtyp ≠ VarintType then .unknown
    else
      match ConsumeVarint b with
      | none => .fail
      | some (v, rest) => .ok { x with Seconds := toInt64 v } rest
  else if num = 2 then
    if wtyp ≠ VarintType then .unknown
    else
      match ConsumeVarint b with
      | none => .fail
      | some (v, rest) => .ok { x with Nanos := toInt32 v } rest
  else .unknown

def unmarshalTimestamp (x : Timestamp) (b : Bytes) : Option Timestamp :=
  unmarshalPointer timestampCoder (b.length + 1) x b

/-- Decoder of a field of type `*Timestamp` (`consumeMessageInfo`): the value is merged into the
message already there, or into a new one. -/
def consumeTimestamp (old : Option Timestamp) (wtyp : Nat) (b : Bytes) :
    Option (Option (Timestamp × Bytes)) :=
  if wtyp ≠ BytesType then none
  else
    match ConsumeBytes b with
    | none => some none
    | some (v, rest) =>
      match unmarshalTimestamp (old.getD Timestamp.zero) v with
      | none => some none
      | some t => some (some (t, rest))

/-- Field decoders of `Timestamps`. -/
def timestampsCoder (x : Timestamps) (num wtyp : Nat) (b : Bytes) : FieldOut Timestamps :=
  if num = 1 then
    match consumeTimestamp x.NotValidBefore wtyp b with
    | none => .unknown
    | some none => .fail
    | some (some (t, rest)) => .ok { x with NotValidBefore := some t } rest
  else if num = 2 then
    match consumeTimestamp x.NotValidAfter wtyp b with
    | none => .unknown
    | some none => .fail
    | some (some (t, rest)) => .ok { x with NotValidAfter := some t } rest
  else .unknown

def unmarshalTimestamps (x : Timestamps) (b : Bytes) : Option Timestamps :=
  unmarshalPointer timestampsCoder (b.length + 1) x b

/-- The values of a packed repeated enum field, each converted to `int32`. `none` is a varint
that cannot be read. -/
def consumePackedEnums : Nat → Bytes → Option (List TokenUsages)
  | 0, _ => none
  | fuel + 1, b =>
    if b.length = 0 then some []
    else
      match ConsumeVarint b with
      | none => none
      | some (v, rest) =>
        match consumePackedEnums fuel rest with
        | none => none
        | some vs => some (toInt32 v :: vs)

/-- Appending to a Go slice that may be nil: nothing appended leaves it as it is. -/
def appendSlice (s : Option (List TokenUsages)) (vs : List TokenUsages) :
    Option (List TokenUsages) :=
  if vs.length = 0 then s else some (s.getD [] ++ vs)

/-- Field decoders of `ProtoToken`: `consumeStringValidateUTF8` for `id` and `sid` (proto3 strings
must be valid UTF-8), `consumeBytesNoZero` for `vendor`, `consumeEnumSlice` for `usages` (packed or
not) and `consumeMessageInfo` for `timestamps`. -/
def protoTokenCoder (x : ProtoToken) (num wtyp : Nat) (b : Bytes) : FieldOut ProtoToken :=
  if num = 1 then
    if wtyp ≠ BytesType then .unknown
    else
      match ConsumeBytes b with
      | none => .fail
      | some (v, rest) => if utf8Valid v then .ok { x with Id := v } rest else .fail
  else if num = 2 then
    if wtyp ≠ BytesType then .unknown
    else
      match ConsumeBytes b with
      | none => .fail
      | some (v, rest) => if utf8Valid v then .ok { x with Sid := v } rest else .fail
  else if num = 3 then
    if wtyp ≠ BytesType then .unknown
    else
      match ConsumeBytes b with
      | none => .fail
      | some (v, rest) => .ok { x with Vendor := if v.length = 0 then none else some v } rest
  else if num = 4 then
    if wtyp = BytesType then
      match ConsumeBytes b with
      | none => .fail
      | some (v, rest) =>
        match consumePackedEnums (v.length + 1) v with
        | none => .fail
        | some vs => .ok { x with Usages := appendSlice x.Usages vs } rest
    else if wtyp = VarintType then
      match ConsumeVarint b with
      | none => .fail
      | some (v, rest) => .ok { x with Usages := some (x.Usages.getD [] ++ [toInt32 v]) } rest
    else .unknown
  else if num = 5 then
    if wtyp ≠ BytesType then .unknown
    else
      match ConsumeBytes b with
      | none => .fail
      | some (v, rest) =>
        match unmarshalTimestamps (x.Timestamps.getD Timestamps.zero) v with
        | none => .fail
        | some t => .ok { x with Timestamps := some t } rest
  else .unknown

/-- Field decoders of `SignedToken`: `consumeBytesNoZero` for both fields. -/
def signedTokenCoder (x : SignedToken) (num wtyp : Nat) (b : Bytes) : FieldOut SignedToken :=
  if num = 1 then
    if wtyp ≠ BytesType then .unknown
    else
      match ConsumeBytes b with
      | none => .fail
      | some (v, rest) => .ok { x with Signature := v } rest
  else if num = 2 then
    if wtyp ≠ BytesType then .unknown
    else
      match ConsumeBytes b with
      | none => .fail
      | some (v, rest) => .ok { x with Prototoken := v } rest
  else .unknown

/-- The call `proto.Unmarshal(b, &tokenpb.ProtoToken{})`. -/
def UnmarshalProtoToken (b : Bytes) : Res ProtoToken :=
  match unmarshalPointer protoTokenCoder (b.length + 1) ProtoToken.zero b with
  | some x => .ok x
  | none => .error (.lib "proto: cannot parse invalid wire-format data")

/-- The call `proto.Unmarshal(b, &tokenpb.SignedToken{})`. -/
def UnmarshalSignedToken (b : Bytes) : Res SignedToken :=
  match unmarshalPointer signedTokenCoder (b.length + 1) SignedToken.zero b with
  | some x => .ok x
  | none => .error (.lib "proto: cannot parse invalid wire-format data")

/-- Encoding of a `Timestamp`: fields with the zero value are left out. -/
def marshalTimestamp (x : Timestamp) : Bytes :=
  (if x.Seconds = 0 then [] else AppendTag 1 VarintType ++ AppendVarint (toUint64 x.Seconds)) ++
  (if x.Nanos = 0 then [] else AppendTag 2 VarintType ++ AppendVarint (toUint64 x.Nanos))

/-- Encoding of a field of type `*Timestamp`: a nil pointer is left out. -/
def marshalTimestampField (num : Nat) (x : Option Timestamp) : Bytes :=
  match x with
  | none => []
  | some t => AppendTag num BytesType ++ AppendBytes (marshalTimestamp t)

/-- Encoding of a `Timestamps`. -/
def marshalTimestamps (x : Timestamps) : Bytes :=
  marshalTimestampField 1 x.NotValidBefore ++ marshalTimestampField 2 x.NotValidAfter

/-- Encoding of a field of type `*Timestamps`: a nil pointer is left out. -/
def marshalTimestampsField (num : Nat) (x : Option Timestamps) : Bytes :=
  match x with
  | none => []
  | some t => AppendTag num BytesType ++ AppendBytes (marshalTimestamps t)

/-- Encoding of a byte-slice or string field without presence: an empty value is left out. -/
def marshalBytesField (num : Nat) (v : Bytes) : Bytes :=
  if v.length = 0 then [] else AppendTag num BytesType ++ AppendBytes v

/-- Encoding of the packed repeated enum field: an empty slice is left out. -/
def marshalUsages (num : Nat) (vs : List TokenUsages) : Bytes :=
  if vs.length = 0 then []
  else AppendTag num BytesType ++ AppendBytes (vs.flatMap (fun v => AppendVarint (toUint64 v)))

/-- The call `proto.Marshal` on a `ProtoToken`: the fields in the order of their numbers. A string
field that is not valid UTF-8 is an error. -/
def MarshalProtoToken (x : ProtoToken) : Res Bytes :=
  if utf8Valid x.Id && utf8Valid x.Sid then
    .ok (marshalBytesField 1 x.Id ++ marshalBytesField 2 x.Sid ++
      marshalBytesField 3 x.GetVendor ++ marshalUsages 4 x.GetUsages ++
      marshalTimestampsField 5 x.Timestamps)
  else .error (.lib "proto: string field contains invalid UTF-8")

/-- The call `proto.Marshal` on a `SignedToken`; it has no field that can fail to encode. -/
def MarshalSignedToken (x : SignedToken) : Res Bytes :=
  .ok (marshalBytesField 1 x.Signature ++ marshalBytesField 2 x.Prototoken)

end proto

/-! ## The token builder (`prototokens.go`, `tokenopts.go`) -/

/-- A `TokenOpt`: a closure that changes the token under construction or returns an error. -/
abbrev TokenOpt := ProtoToken → Res ProtoToken

/-- The option `WithID`. -/
def WithID (id : Bytes) : TokenOpt := fun pt =>
  if id.length = 0 then .error (.lib "id cannot be empty")
  else if pt.GetId.length ≠ 0 then .error (.wrap1 (.sentinel .ErrOverwrite) "id")
  else .ok { pt with Id := id }

/-- The option `WithUsages`; called without arguments, `usages` is the empty list. -/
def WithUsages (usages : List TokenUsages) : TokenOpt := fun pt =>
  if usages.length = 0 then .error (.lib "at least one usage must be provided")
  else if pt.Usages.isSome then .error (.wrap1 (.sentinel .ErrOverwrite) "usages")
  else .ok { pt with Usages := some usages }

/-- The option `WithSID`. -/
def WithSID (sid : Bytes) : TokenOpt := fun pt =>
  if sid.length = 0 then .error (.wrap1 (.sentinel .ErrOverwrite) "sid")
  else if pt.GetSid.length ≠ 0 then .error (.wrap1 (.sentinel .ErrOverwrite) "sid")
  else .ok { pt with Sid := sid }

/-- The option `WithVendor`; `none` is a nil slice. -/
def WithVendor (data : Option Bytes) : TokenOpt := fun pt =>
  if data.isNone then .error (.lib "data cannot be empty")
  else if pt.Vendor.isSome then .error (.wrap1 (.sentinel .ErrOverwrite) "vendor")
  else .ok { pt with Vendor := data }

/-- The four fields the built-in options set. -/
inductive Field
  | id
  | sid
  | vendor
  | usages
  deriving DecidableEq, Repr

/-- A call of one of the four built-in options, with its argument: `WithID(id)`, `WithSID(sid)`,
`WithVendor(data)` (`none` is a nil slice) or `WithUsages(usages...)`. -/
inductive BuiltinOpt
  | id (v : Bytes)
  | sid (v : Bytes)
  | vendor (v : Option Bytes)
  | usages (v : List TokenUsages)
  deriving DecidableEq, Repr

/-- The `TokenOpt` the call returns. -/
def BuiltinOpt.opt : BuiltinOpt → TokenOpt
  | .id v => WithID v
  | .sid v => WithSID v
  | .vendor v => WithVendor v
  | .usages v => WithUsages v

/-- The field the option sets. -/
def BuiltinOpt.field : BuiltinOpt → Field
  | .id _ => .id
  | .sid _ => .sid
  | .vendor _ => .vendor
  | .usages _ => .usages

/-- The argument is one the option accepts: a non-empty id or sid, a non-nil vendor slice, at
least one usage. -/
def BuiltinOpt.valid : BuiltinOpt → Bool
  | .id v => decide (v.length ≠ 0)
  | .sid v => decide (v.length ≠ 0)
  | .vendor v => v.isSome
  | .usages v => decide (v.length ≠ 0)

/-- The credential with the option's field set to the option's argument. -/
def BuiltinOpt.set (s : BuiltinOpt) (pt : ProtoToken) : ProtoToken :=
  match s with
  | .id v => { pt with Id := v }
  | .sid v => { pt with Sid := v }
  | .vendor v => { pt with Vendor := v }
  | .usages v => { pt with Usages := some v }

/-- The field is not set in the credential, as the overwrite guard of its option reads it. -/
def Field.unset (f : Field) (pt : ProtoToken) : Bool :=
  match f with
  | .id => decide (pt.GetId.length = 0)
  | .sid => decide (pt.GetSid.length = 0)
  | .vendor => pt.Vendor.isNone
  | .usages => pt.Usages.isNone

/-- The option turns Go values into Go values: applied to a credential whose usage tags and
timestamp fields are in the range of their types, it returns one that is so too. -/
def TokenOpt.keepsTyped (opt : TokenOpt) : Prop :=
  ∀ pt pt1, pt.typed = true → opt pt = .ok pt1 → pt1.typed = true

/-- The credential `New` makes before it applies the options: only the validity window is set,
from `now` to `now.Add(duration)`. -/
def initialToken (now : Time) (duration : Int) : ProtoToken :=
  { ProtoToken.zero with
    Timestamps := some
      { NotValidBefore := some (timestamppbNew now)
        NotValidAfter := some (timestamppbNew (now.Add duration)) } }

/-- The options of `opts`, applied in list order from `tok`, each to what the one before it
returned, all succeed and end with `tok1`. -/
inductive AppliedInOrder : List TokenOpt → ProtoToken → ProtoToken → Prop
  | nil (tok : ProtoToken) : AppliedInOrder [] tok tok
  | cons (opt : TokenOpt) (opts : List TokenOpt) (tok tok1 tok2 : ProtoToken) :
    opt tok = .ok tok1 → AppliedInOrder opts tok1 tok2 → AppliedInOrder (opt :: opts) tok tok2

/-- The loop of `New` over the options: the first error (or panic) ends it. -/
def applyOpts : List TokenOpt → ProtoToken → Res ProtoToken
  | [], tok => .ok tok
  | opt :: opts, tok =>
    match opt tok with
    | .ok tok1 => applyOpts opts tok1
    | .error err => .error err
    | .panic msg => .panic msg

/-- The constructor `prototokens.New`. `now` is what `time.Now().UTC()` returns and `ksuid` what
`ksuid.New().String()` returns if it is called; `duration` is a `time.Duration` in nanoseconds. -/
def New (now : Time) (ksuid : Bytes) (duration : Int) (opts : List TokenOpt) (w : World) :
    Res ProtoToken × World :=
  if duration = 0 then (.panic "duration MUST be provided", w)
  else
    let w1 := w.record .TimeNow
    let nvb := now
    let nva := nvb.Add duration
    let tok : ProtoToken :=
      { ProtoToken.zero with
        Timestamps := some
          { NotValidBefore := some (timestamppbNew nvb)
            NotValidAfter := some (timestamppbNew nva) } }
    match applyOpts opts tok with
    | .error err => (.error err, w1)
    | .panic msg => (.panic msg, w1)
    | .ok tok1 =>
      if tok1.GetId.length = 0 then (.ok { tok1 with Id := ksuid }, w1.record .KsuidNew)
      else (.ok tok1, w1)

/-! ## `crypto/ed25519` -/

/-- The package `crypto/ed25519`, kept abstract. `Sign seed message` is
`ed25519.Sign(ed25519.NewKeyFromSeed(seed), message)` and `Verify seed message sig` is
`ed25519.Verify(ed25519.NewKeyFromSeed(seed).Public(), message, sig)`, both for a seed of
`SeedSize` bytes; `NewKeyFromSeed` panics on any other length, which the callers below model. -/
structure Ed25519 where
  Sign : Bytes → Bytes → Bytes
  Verify : Bytes → Bytes → Bytes → Bool

/-- The constant `ed25519.SeedSize`. -/
def SeedSize : Nat := 32

/-! ## The manager (`managers/ed25519url/manager.go`) -/

namespace ed25519url

/-- A `KeyDataFunc`: the bytes the accessor returns on its first, second, ... call. -/
abbrev KeyDataFunc := Nat → Bytes

structure Manager where
  keyDataFunc : KeyDataFunc

/-- One call of the key accessor. -/
def Manager.keyData (skm : Manager) (w : World) : Bytes × World :=
  (skm.keyDataFunc w.keyCalls, { keyCalls := w.keyCalls + 1, log := w.log ++ [Call.KeyData] })

/-- The constructor `ed25519url.New`. -/
def New (keyDataFunc : KeyDataFunc) (w : World) : Res Manager × World :=
  let seed := (Manager.keyData { keyDataFunc := keyDataFunc } w).1
  let w1 := (Manager.keyData { keyDataFunc := keyDataFunc } w).2
  if seed.length ≠ SeedSize then
    (.error (.wrap1 (.sentinel .ErrKeyData)
      ("invalid seed size returned (want: " ++ toString SeedSize ++ " have: "
        ++ toString seed.length ++ ")")), w1)
  else (.ok { keyDataFunc := keyDataFunc }, w1)

/-- The method `Manager.sign`. -/
def Manager.sign (ed : Ed25519) (skm : Manager) (data : Bytes) (w : World) : Res Bytes × World :=
  let seed := (skm.keyData w).1
  let w1 := (skm.keyData w).2
  if seed.length ≠ SeedSize then (.panic "ed25519: bad seed length", w1)
  else (.ok (ed.Sign seed data), w1.record .Ed25519Sign)

/-- The method `Manager.verify`. -/
def Manager.verify (ed : Ed25519) (skm : Manager) (sig data : Bytes) (w : World) :
    Res Unit × World :=
  let seed := (skm.keyData w).1
  let w1 := (skm.keyData w).2
  if seed.length ≠ SeedSize then (.panic "ed25519: bad seed length", w1)
  else if ed.Verify seed data sig then (.ok (), w1.record .Ed25519Verify)
  else (.error (.sentinel .ErrTamper), w1.record .Ed25519Verify)

/-- The method `Manager.Validate`; `now` is what `time.Now().UTC()` returns. -/
def Manager.Validate (ed : Ed25519) (skm : Manager) (now : Time) (st : SignedToken) (w : World) :
    Res Unit × World :=
  let w1 := (w.record .TimeNow).record .ProtoUnmarshal
  match proto.UnmarshalProtoToken st.GetPrototoken with
  | .error err => (.error (.wrap2 (.sentinel .ErrUnmarshal) err), w1)
  | .panic msg => (.panic msg, w1)
  | .ok tok =>
    match (skm.verify ed st.GetSignature st.GetPrototoken w1).1 with
    | .error err =>
      (.error (.wrap2 (.sentinel .ErrInvalidSignature) err),
        (skm.verify ed st.GetSignature st.GetPrototoken w1).2)
    | .panic msg => (.panic msg, (skm.verify ed st.GetSignature st.GetPrototoken w1).2)
    | .ok _ =>
      let w2 := (skm.verify ed st.GetSignature st.GetPrototoken w1).2
      let nvb := AsTime (GetNotValidBefore tok.GetTimestamps)
      if now.Before nvb then (.error (.sentinel .ErrNotYetValid), w2)
      else
        let nva := AsTime (GetNotValidAfter tok.GetTimestamps)
        if now.After nva then (.error (.sentinel .ErrNoLongerValid), w2)
        else (.ok (), w2)

/-- The method `Manager.GetValidatedToken`. -/
def Manager.GetValidatedToken (ed : Ed25519) (skm : Manager) (now : Time) (token : SignedToken)
    (w : World) : Res ProtoToken × World :=
  match (skm.Validate ed now token w).1 with
  | .error err => (.error (.wrap2 (.sentinel .ErrNotValid) err), (skm.Validate ed now token w).2)
  | .panic msg => (.panic msg, (skm.Validate ed now token w).2)
  | .ok _ =>
    let w1 := ((skm.Validate ed now token w).2).record .ProtoUnmarshal
    match proto.UnmarshalProtoToken token.GetPrototoken with
    | .error err => (.error (.wrap2 (.sentinel .ErrUnmarshal) err), w1)
    | .panic msg => (.panic msg, w1)
    | .ok pt => (.ok pt, w1)

/-- The method `Manager.Sign`. -/
def Manager.Sign (ed : Ed25519) (skm : Manager) (pt : ProtoToken) (w : World) :
    Res SignedToken × World :=
  let w1 := w.record .ProtoMarshal
  match proto.MarshalProtoToken pt with
  | .error err => (.error (.wrap2 (.sentinel .ErrMarshal) err), w1)
  | .panic msg => (.panic msg, w1)
  | .ok b =>
    match (skm.sign ed b w1).1 with
    | .error err => (.error (.wrap2 (.sentinel .ErrSign) err), (skm.sign ed b w1).2)
    | .panic msg => (.panic msg, (skm.sign ed b w1).2)
    | .ok sig => (.ok { Signature := sig, Prototoken := b }, (skm.sign ed b w1).2)

/-- The method `Manager.ValidFor`. -/
def Manager.ValidFor (ed : Ed25519) (skm : Manager) (now : Time) (st : SignedToken)
    (usage : TokenUsages) (w : World) : Res Unit × World :=
  match (skm.GetValidatedToken ed now st w).1 with
  | .error err => (.error err, (skm.GetValidatedToken ed now st w).2)
  | .panic msg => (.panic msg, (skm.GetValidatedToken ed now st w).2)
  | .ok tok =>
    if tok.GetUsages.any (fun u => decide (u = usage)) then
      (.ok (), (skm.GetValidatedToken ed now st w).2)
    else (.error (.sentinel .ErrNotValidForUsage), (skm.GetValidatedToken ed now st w).2)

/-- The method `Manager.Encode`. -/
def Manager.Encode (_skm : Manager) (st : SignedToken) (w : World) : Res Bytes × World :=
  let w1 := w.record .ProtoMarshal
  match proto.MarshalSignedToken st with
  | .error err => (.error (.wrap2 (.sentinel .ErrMarshal) err), w1)
  | .panic msg => (.panic msg, w1)
  | .ok b => (.ok (Base64.EncodeToString b), w1.record .Base64Encode)

/-- The method `Manager.Decode`. -/
def Manager.Decode (_skm : Manager) (s : Bytes) (w : World) : Res SignedToken × World :=
  let w1 := w.record .Base64Decode
  match Base64.DecodeString s with
  | .error err => (.error (.wrap2 (.sentinel .ErrDecode) err), w1)
  | .panic msg => (.panic msg, w1)
  | .ok b =>
    let w2 := w1.record .ProtoUnmarshal
    match proto.UnmarshalSignedToken b with
    | .error err => (.error (.wrap2 (.sentinel .ErrUnmarshal) err), w2)
    | .panic msg => (.panic msg, w2)
    | .ok st => (.ok st, w2)

end ed25519url

/-- A stand-in for `crypto/ed25519` used to instantiate statements: the signature of a message is
the seed followed by the message, and verification recomputes and compares. -/
def toyEd25519 : Ed25519 :=
  { Sign := fun seed msg => seed ++ msg
    Verify := fun seed msg sig => decide (sig = seed ++ msg) }

/-- A key accessor that returns 32 zero bytes on every call. -/
def zeroKey : ed25519url.KeyDataFunc := fun _ => List.replicate 32 0

/-- The world before any call. -/
def World.init : World := { keyCalls := 0, log := [] }

/-- The envelope behind a `*tokenpb.SignedToken` that may be nil (`none`), as the manager sees
it: the getters of a nil pointer return nil slices and `proto.Marshal` writes nothing for it, as
for the zero message. -/
def SignedToken.ofPtr (p : Option SignedToken) : SignedToken := p.getD SignedToken.zero

/-- The credential behind a `*tokenpb.ProtoToken` that may be nil (`none`), as the manager sees
it: `proto.Marshal` writes nothing for a nil pointer, as for the zero message. -/
def ProtoToken.ofPtr (p : Option ProtoToken) : ProtoToken := p.getD ProtoToken.zero

/-- The constant `ed25519.SignatureSize`. -/
def SignatureSize : Nat := 64

/-- A stand-in for `crypto/ed25519` with signatures of `SignatureSize` bytes: the signature is
the first 64 bytes of the seed, the message and 64 zero bytes, and verification recomputes and
compares, so that a signature of any other length does not verify. -/
def toyEd25519Sized : Ed25519 :=
  { Sign := fun seed msg => (seed ++ msg ++ List.replicate 64 0).take 64
    Verify := fun seed msg sig => decide (sig = (seed ++ msg ++ List.replicate 64 0).take 64) }

/-- A custom option that panics. -/
def panicOpt : TokenOpt := fun _ => .panic "boom"

/-- The custom option `failingtokenopt` of the tests. -/
def failingtokenopt : TokenOpt := fun _ => .error (.lib "snarf!")

/-! ## Concrete inputs used to instantiate the statements -/

/-- A manager over `zeroKey`. -/
def zeroManager : ed25519url.Manager := { keyDataFunc := zeroKey }

/-- A clock reading: 2023-11-14 22:13:20 UTC and 5 ns. -/
def clock0 : Time := Time.Unix 1700000000 5

/-- The serialized credential with id `a` and nothing else. -/
def payloadA : Bytes := [10, 1, 97]

/-- An envelope over `payloadA` with an empty signature. -/
def unsignedA : SignedToken := { Signature := [], Prototoken := payloadA }

/-- A credential with id `a`, the usage 1 and the window from `clock0` to one hour later. -/
def credB : ProtoToken :=
  { Id := [97], Sid := [], Vendor := none, Usages := some [1],
    Timestamps := some
      { NotValidBefore := some { Seconds := 1700000000, Nanos := 5 }
        NotValidAfter := some { Seconds := 1700003600, Nanos := 5 } } }

/-- The serialization of `credB`. -/
def payloadB : Bytes :=
  [10, 1, 97, 34, 1, 1, 42, 20, 10, 8, 8, 128, 226, 207, 170, 6, 16, 5,
    18, 8, 8, 144, 254, 207, 170, 6, 16, 5]

/-- The envelope `zeroManager` makes for `credB` with `toyEd25519`. -/
def signedB : SignedToken :=
  { Signature := List.replicate 32 0 ++ payloadB, Prototoken := payloadB }

/-- The envelope `signedB` with its signature removed. -/
def unsignedB : SignedToken := { Signature := [], Prototoken := payloadB }

/-- The payload of the test `invalid-token`: the two characters `[]`. -/
def payloadBrackets : Bytes := [91, 93]

/-- The credential `New` returns at `clock0` for one hour and the single option `WithID` of the
one-byte string `0xff`, which is not valid UTF-8. -/
def credBadId : ProtoToken :=
  { Id := [255], Sid := [], Vendor := none, Usages := none,
    Timestamps := some
      { NotValidBefore := some { Seconds := 1700000000, Nanos := 5 }
        NotValidAfter := some { Seconds := 1700003600, Nanos := 5 } } }

/-- The credential `New` returns at `clock0` for minus one hour and no option, the generator
returning `k`: its window ends one hour before it begins. -/
def credBornExpired : ProtoToken :=
  { Id := [107], Sid := [], Vendor := none, Usages := none,
    Timestamps := some
      { NotValidBefore := some { Seconds := 1700000000, Nanos := 5 }
        NotValidAfter := some { Seconds := 1699996400, Nanos := 5 } } }

/-- A credential with id `a` whose window has no not-valid-before; its not-valid-after is one hour
after `clock0`. -/
def credNoNotBefore : ProtoToken :=
  { Id := [97], Sid := [], Vendor := none, Usages := none,
    Timestamps := some
      { NotValidBefore := none
        NotValidAfter := some { Seconds := 1700003600, Nanos := 5 } } }

/-- The envelope `zeroManager` makes for `credNoNotBefore` with `toyEd25519`. -/
def signedNoNotBefore : SignedToken :=
  { Signature := List.replicate 32 0 ++ [10, 1, 97, 42, 10, 18, 8, 8, 144, 254, 207, 170, 6, 16, 5]
    Prototoken := [10, 1, 97, 42, 10, 18, 8, 8, 144, 254, 207, 170, 6, 16, 5] }

/-- A credential with id `a` whose window has no not-valid-after; its not-valid-before is one hour
after `clock0`. -/
def credNoNotAfter : ProtoToken :=
  { Id := [97], Sid := [], Vendor := none, Usages := none,
    Timestamps := some
      { NotValidBefore := some { Seconds := 1700003600, Nanos := 5 }
        NotValidAfter := none } }

/-- The envelope `zeroManager` makes for `credNoNotAfter` with `toyEd25519`. -/
def signedNoNotAfter : SignedToken :=
  { Signature := List.replicate 32 0 ++ [10, 1, 97, 42, 10, 10, 8, 8, 144, 254, 207, 170, 6, 16, 5]
    Prototoken := [10, 1, 97, 42, 10, 10, 8, 8, 144, 254, 207, 170, 6, 16, 5] }

/-- The envelope `zeroManager` makes with `toyEd25519` for the credential with id `a` and no
timestamps, whose serialization is `payloadA`. -/
def signedNoWindow : SignedToken :=
  { Signature := List.replicate 32 0 ++ payloadA, Prototoken := payloadA }

/-- One hour, as a `time.Duration`. -/
def oneHour : Int := 3600000000000

/-! # Theorems -/

namespace Base64

/-! ## `encoding/base64` -/

/-- Reading back a character of the alphabet gives its index. -/
theorem decodeMap_encodeURL (i : Nat) (h : i < 64) : decodeMap (encodeURL i) = some i := by
  interval_cases i <;> rfl

/-- A full quantum read back: four characters give the three bytes they were made from. -/
theorem decodeQuantum_full (a b c : Byte) (src : Bytes) :
    decodeQuantum []
        (encodeURL ((a.val * 65536 + b.val * 256 + c.val) / 262144 % 64) ::
          encodeURL ((a.val * 65536 + b.val * 256 + c.val) / 4096 % 64) ::
          encodeURL ((a.val * 65536 + b.val * 256 + c.val) / 64 % 64) ::
          encodeURL ((a.val * 65536 + b.val * 256 + c.val) % 64) :: src)
      = (decodeQuantum [] src).map (fun dst => a :: b :: c :: dst) := by
  have ha := a.isLt
  have hb := b.isLt
  have hc := c.isLt
  simp only [decodeQuantum, decodeMap_encodeURL _ (Nat.mod_lt _ (by decide : 0 < 64)),
    List.nil_append, List.cons_append]
  have e1 : byte ((((a.val * 65536 + b.val * 256 + c.val) / 262144 % 64) * 262144
      + ((a.val * 65536 + b.val * 256 + c.val) / 4096 % 64) * 4096
      + ((a.val * 65536 + b.val * 256 + c.val) / 64 % 64) * 64
      + (a.val * 65536 + b.val * 256 + c.val) % 64) / 65536) = a := by
    apply Fin.ext; simp only [byte]; omega
  have e2 : byte ((((a.val * 65536 + b.val * 256 + c.val) / 262144 % 64) * 262144
      + ((a.val * 65536 + b.val * 256 + c.val) / 4096 % 64) * 4096
      + ((a.val * 65536 + b.val * 256 + c.val) / 64 % 64) * 64
      + (a.val * 65536 + b.val * 256 + c.val) % 64) / 256) = b := by
    apply Fin.ext; simp only [byte]; omega
  have e3 : byte (((a.val * 65536 + b.val * 256 + c.val) / 262144 % 64) * 262144
      + ((a.val * 65536 + b.val * 256 + c.val) / 4096 % 64) * 4096
      + ((a.val * 65536 + b.val * 256 + c.val) / 64 % 64) * 64
      + (a.val * 65536 + b.val * 256 + c.val) % 64) = c := by
    apply Fin.ext; simp only [byte]; omega
  rw [e1, e2, e3]
  cases decodeQuantum [] src <;> rfl

/-- Decoding undoes encoding. -/
theorem decodeQuantum_encodeToString : ∀ src : Bytes,
    decodeQuantum [] (EncodeToString src) = some src
  | [] => by simp [EncodeToString, decodeQuantum]
  | [a] => by
    have ha := a.isLt
    simp only [EncodeToString, decodeQuantum,
      decodeMap_encodeURL _ (Nat.mod_lt _ (by decide : 0 < 64)), List.nil_append,
      List.cons_append, Option.some.injEq, List.cons.injEq, and_true]
    apply Fin.ext; simp only [byte]; omega
  | [a, b] => by
    have ha := a.isLt
    have hb := b.isLt
    simp only [EncodeToString, decodeQuantum,
      decodeMap_encodeURL _ (Nat.mod_lt _ (by decide : 0 < 64)), List.nil_append,
      List.cons_append, Option.some.injEq, List.cons.injEq, and_true]
    constructor <;> (apply Fin.ext; simp only [byte]; omega)
  | a :: b :: c :: rest => by
    rw [EncodeToString, decodeQuantum_full, decodeQuantum_encodeToString rest]
    rfl

/-- The decoder `DecodeString` undoes `EncodeToString`. -/
theorem decodeString_encodeToString (src : Bytes) :
    DecodeString (EncodeToString src) = .ok src := by
  simp [DecodeString, decodeQuantum_encodeToString]

/-- When the decoder fails: some character is neither of the alphabet nor a line break, or the
characters of the alphabet, counted with those already in the quantum, leave one over. -/
theorem decodeQuantum_eq_none_iff : ∀ (src : Bytes) (dbuf : List Nat), dbuf.length ≤ 3 →
    (decodeQuantum dbuf src = none ↔
      ((∃ c ∈ src, isAlphabet c = false ∧ isLineBreak c = false)
        ∨ (dbuf.length + (src.filter isAlphabet).length) % 4 = 1))
  | [], dbuf, hlen => by
    match dbuf, hlen with
    | [], _ => simp [decodeQuantum]
    | [_], _ => simp [decodeQuantum]
    | [_, _], _ => simp [decodeQuantum]
    | [_, _, _], _ => simp [decodeQuantum]
    | _ :: _ :: _ :: _ :: _, h => simp at h
  | c :: src, dbuf, hlen => by
    cases hc : decodeMap c with
    | some out =>
      have halpha : isAlphabet c = true := by simp [isAlphabet, hc]
      match dbuf, hlen with
      | [], _ =>
        have ih := decodeQuantum_eq_none_iff src [out] (by simp)
        simp only [decodeQuantum, hc, List.nil_append, ih, List.mem_cons, exists_eq_or_imp, halpha,
          List.filter_cons_of_pos, List.length_cons, List.length_nil,
          Bool.true_eq_false, false_and, false_or]
        exact or_congr Iff.rfl (by constructor <;> intro h <;> omega)
      | [d0], _ =>
        have ih := decodeQuantum_eq_none_iff src [d0, out] (by simp)
        simp only [decodeQuantum, hc, List.cons_append, List.nil_append, ih, List.mem_cons,
          exists_eq_or_imp, halpha, List.filter_cons_of_pos, List.length_cons, List.length_nil,
          Bool.true_eq_false, false_and, false_or]
        exact or_congr Iff.rfl (by constructor <;> intro h <;> omega)
      | [d0, d1], _ =>
        have ih := decodeQuantum_eq_none_iff src [d0, d1, out] (by simp)
        simp only [decodeQuantum, hc, List.cons_append, List.nil_append, ih, List.mem_cons,
          exists_eq_or_imp, halpha, List.filter_cons_of_pos, List.length_cons, List.length_nil,
          Bool.true_eq_false, false_and, false_or]
        exact or_congr Iff.rfl (by constructor <;> intro h <;> omega)
      | [d0, d1, d2], _ =>
        have ih := decodeQuantum_eq_none_iff src [] (by simp)
        simp only [decodeQuantum, hc]
        cases hrec : decodeQuantum [] src with
        | none =>
          simp only [true_iff]
          rw [hrec] at ih
          rcases ih.mp rfl with ⟨c1, hc1, hbad⟩ | hcount
          · exact Or.inl ⟨c1, List.mem_cons_of_mem _ hc1, hbad⟩
          · right
            simp only [List.filter_cons_of_pos halpha, List.length_cons, List.length_nil] at hcount ⊢
            omega
        | some dst =>
          simp only [reduceCtorEq, false_iff, not_or]
          rw [hrec] at ih
          have ih1 := ih.not.mp (by simp)
          simp only [not_or] at ih1
          constructor
          · rintro ⟨c1, hc1, hbad⟩
            rcases List.mem_cons.mp hc1 with h | h
            · subst h; simp [halpha] at hbad
            · exact ih1.1 ⟨c1, h, hbad⟩
          · simp only [List.filter_cons_of_pos halpha, List.length_cons, List.length_nil] at ih1 ⊢
            omega
      | _ :: _ :: _ :: _ :: _, h => simp at h
    | none =>
      have halpha : isAlphabet c = false := by simp [isAlphabet, hc]
      by_cases hnl : c.val = 10 ∨ c.val = 13
      · have hlb : isLineBreak c = true := by simpa [isLineBreak] using hnl
        have ih := decodeQuantum_eq_none_iff src dbuf hlen
        simp only [decodeQuantum, hc, hnl, if_true, ih, List.mem_cons, exists_eq_or_imp, halpha, hlb]
        simp [halpha]
      · have hlb : isLineBreak c = false := by simpa [isLineBreak] using hnl
        simp only [decodeQuantum, hc, hnl, if_false, true_iff]
        exact Or.inl ⟨c, List.mem_cons_self _ _, halpha, hlb⟩

end Base64

/-! ## The wire format -/

namespace protowire

/-- A varint of `n + 1` digits read back, the last digit allowed being the one `ConsumeVarint`
accepts as its tenth. -/
theorem consumeVarintN_appendVarintN (n : Nat) : ∀ (v : Nat) (rest : Bytes),
    v * 64 < 128 ^ (n + 1) →
    consumeVarintN (n + 1) (appendVarintN (n + 1) v ++ rest) = some (v, rest) := by
  induction n with
  | zero =>
    intro v rest h
    have hv : v < 2 := by omega
    have h128 : v < 128 := by omega
    have hb : (byte v).val = v := by simp only [byte]; omega
    simp only [appendVarintN, h128, if_true, List.singleton_append, consumeVarintN, hb, true_and]
    have : ¬ 2 ≤ v := by omega
    simp [this]
  | succ n ih =>
    intro v rest h
    by_cases h128 : v < 128
    · have hb : (byte v).val = v := by simp only [byte]; omega
      simp only [appendVarintN, h128, if_true, List.singleton_append, consumeVarintN, hb]
      simp
    · have hb : (byte (v % 128 + 128)).val = v % 128 + 128 := by simp only [byte]; omega
      have hrec : (v / 128) * 64 < 128 ^ (n + 1) := by
        have hpow : 128 ^ (n + 1 + 1) = 128 ^ (n + 1) * 128 := pow_succ 128 (n + 1)
        rw [hpow] at h
        omega
      have hnot : ¬ (v % 128 + 128 < 128) := by omega
      rw [appendVarintN]
      simp only [h128, if_false, List.cons_append]
      rw [consumeVarintN]
      simp only [hb, hnot, if_false, Nat.add_one_ne_zero, ih (v / 128) rest hrec]
      have : v % 128 + 128 - 128 + 128 * (v / 128) = v := by omega
      rw [this]

/-- A `uint64` written by `AppendVarint` is read back by `ConsumeVarint`. -/
theorem consumeVarint_appendVarint (v : Nat) (rest : Bytes) (h : v < 18446744073709551616) :
    ConsumeVarint (AppendVarint v ++ rest) = some (v, rest) := by
  unfold ConsumeVarint AppendVarint
  rw [Nat.mod_eq_of_lt h]
  exact consumeVarintN_appendVarintN 9 v rest (by norm_num; omega)

/-- A varint has at least one byte. -/
theorem appendVarint_length_pos (v : Nat) : 0 < (AppendVarint v).length := by
  unfold AppendVarint
  rw [appendVarintN]
  split <;> simp

/-- A length-delimited value written by `AppendBytes` is read back by `ConsumeBytes`. -/
theorem consumeBytes_appendBytes (v rest : Bytes) (h : v.length < 18446744073709551616) :
    ConsumeBytes (AppendBytes v ++ rest) = some (v, rest) := by
  unfold ConsumeBytes AppendBytes
  rw [List.append_assoc, consumeVarint_appendVarint _ _ h]
  simp

end protowire

namespace proto

open protowire

/-- The empty input decodes to the message as it stands. -/
theorem decodes_nil {σ : Type} (coder : σ → Nat → Nat → Bytes → FieldOut σ) (msg : σ) :
    Decodes coder msg [] msg := by
  intro fuel hfuel
  cases fuel with
  | zero => simp at hfuel
  | succ fuel => simp [unmarshalPointer]

/-- One known field in front of the input: if its decoder takes the value and leaves `rest`, the
input decodes as `rest` does from the updated message. -/
theorem decodes_field {σ : Type} (coder : σ → Nat → Nat → Bytes → FieldOut σ) (msg msg1 r : σ)
    (num typ : Nat) (b rest : Bytes)
    (hnum : MinValidNumber ≤ num ∧ num ≤ MaxValidNumber) (htyp : typ < 8 ∧ typ ≠ EndGroupType)
    (hcoder : coder msg num typ b = .ok msg1 rest) (hrest : rest.length ≤ b.length)
    (hdec : Decodes coder msg1 rest r) :
    Decodes coder msg (AppendTag num typ ++ b) r := by
  intro fuel hfuel
  have hpos := appendVarint_length_pos (num * 8 + typ)
  have hlen : (AppendTag num typ ++ b).length = (AppendVarint (num * 8 + typ)).length + b.length := by
    simp [AppendTag]
  cases fuel with
  | zero => simp at hfuel
  | succ fuel =>
    have hM : MaxValidNumber = 536870911 := rfl
    have hm : MinValidNumber = 1 := rfl
    have hE : EndGroupType = 4 := rfl
    have htag : ConsumeVarint (AppendTag num typ ++ b) = some (num * 8 + typ, b) :=
      consumeVarint_appendVarint _ _ (by omega)
    have hdiv : (num * 8 + typ) / 8 = num := by omega
    have hmod : (num * 8 + typ) % 8 = typ := by omega
    rw [unmarshalPointer]
    have hne : ¬ (AppendTag num typ ++ b).length = 0 := by omega
    simp only [hne, if_false, htag, hdiv, hmod, hcoder]
    have h1 : ¬ (num < MinValidNumber ∨ num > MaxValidNumber) := by omega
    have h2 : ¬ typ = EndGroupType := htyp.2
    simp only [h1, h2, if_false]
    exact hdec fuel (by omega)

/-- The decoder of `SignedToken` on what `MarshalSignedToken` writes. -/
theorem decodes_marshalSignedToken (x : SignedToken)
    (hsig : x.Signature.length < 9223372036854775808)
    (hpayload : x.Prototoken.length < 9223372036854775808) :
    Decodes signedTokenCoder SignedToken.zero
      (marshalBytesField 1 x.Signature ++ marshalBytesField 2 x.Prototoken) x := by
  have hM : MinValidNumber ≤ 1 ∧ 1 ≤ MaxValidNumber := by decide
  have hM2 : MinValidNumber ≤ 2 ∧ 2 ≤ MaxValidNumber := by decide
  have hT : BytesType < 8 ∧ BytesType ≠ EndGroupType := by decide
  obtain ⟨sig, payload⟩ := x
  simp only at hsig hpayload
  have second : ∀ msg : SignedToken,
      Decodes signedTokenCoder msg (marshalBytesField 2 payload)
        { msg with Prototoken := if payload.length = 0 then msg.Prototoken else payload } := by
    intro msg
    unfold marshalBytesField
    by_cases h0 : payload.length = 0
    · simp only [h0, if_true]
      exact decodes_nil _ _
    · simp only [h0, if_false]
      have := decodes_field signedTokenCoder msg { msg with Prototoken := payload }
        { msg with Prototoken := payload } 2 BytesType (AppendBytes payload) [] hM2 hT
        (by
          have hc := consumeBytes_appendBytes payload [] (by omega)
          rw [List.append_nil] at hc
          simp [signedTokenCoder, hc])
        (by simp) (decodes_nil _ _)
      exact this
  have second1 : ∀ s1 : Bytes,
      Decodes signedTokenCoder { Signature := s1, Prototoken := [] } (marshalBytesField 2 payload)
        { Signature := s1, Prototoken := payload } := by
    intro s1
    have := second { Signature := s1, Prototoken := [] }
    by_cases h1 : payload.length = 0
    · have hp : payload = [] := List.length_eq_zero.mp h1
      subst hp
      simpa using this
    · simpa [h1] using this
  by_cases h0 : sig.length = 0
  · have hs : sig = [] := List.length_eq_zero.mp h0
    subst hs
    simpa [marshalBytesField, SignedToken.zero] using second1 []
  · have hfirst : marshalBytesField 1 sig = AppendTag 1 BytesType ++ AppendBytes sig := by
      simp [marshalBytesField, h0]
    rw [hfirst, List.append_assoc]
    exact decodes_field signedTokenCoder SignedToken.zero
      { Signature := sig, Prototoken := [] } { Signature := sig, Prototoken := payload }
      1 BytesType (AppendBytes sig ++ marshalBytesField 2 payload) (marshalBytesField 2 payload)
      hM hT
      (by
        have hc := consumeBytes_appendBytes sig (marshalBytesField 2 payload) (by omega)
        simp only [signedTokenCoder, hc]
        simp [SignedToken.zero])
      (by simp) (second1 sig)

/-- The call `proto.Unmarshal` undoes `proto.Marshal` on a `SignedToken`. -/
theorem unmarshal_marshalSignedToken (x : SignedToken)
    (hsig : x.Signature.length < 9223372036854775808)
    (hpayload : x.Prototoken.length < 9223372036854775808) :
    ∃ b, MarshalSignedToken x = .ok b ∧ UnmarshalSignedToken b = .ok x := by
  refine ⟨_, rfl, ?_⟩
  unfold UnmarshalSignedToken
  rw [decodes_marshalSignedToken x hsig hpayload _ (Nat.lt_succ_self _)]

end proto

namespace proto

open protowire

/-! ## The credential on the wire -/

theorem toUint64_lt (x : Int) : toUint64 x < 18446744073709551616 := by
  unfold toUint64; omega

theorem toInt64_toUint64 (x : Int) (h : isInt64 x = true) : toInt64 (toUint64 x) = x := by
  simp only [isInt64, decide_eq_true_eq] at h
  unfold toInt64 toUint64; omega

theorem toInt32_toUint64 (x : Int) (h : isInt32 x = true) : toInt32 (toUint64 x) = x := by
  simp only [isInt32, decide_eq_true_eq] at h
  unfold toInt32 toUint64; omega

/-- A varint of at most `n` digits has at most `n` bytes. -/
theorem appendVarintN_length_le (n : Nat) : ∀ v, (appendVarintN n v).length ≤ n := by
  induction n with
  | zero => intro v; simp [appendVarintN]
  | succ n ih =>
    intro v
    rw [appendVarintN]
    split
    · simp
    · have := ih (v / 128)
      simp only [List.length_cons]; omega

theorem appendVarint_length_le (v : Nat) : (AppendVarint v).length ≤ 10 :=
  appendVarintN_length_le 10 _

/-- A one-byte tag. -/
theorem appendTag_length_le (num typ : Nat) : (AppendTag num typ).length ≤ 10 :=
  appendVarint_length_le _

/-- The second field of a `Timestamp`, read into any message. -/
theorem decodes_nanos (msg : Timestamp) (n : Int) (hn : isInt32 n = true) :
    Decodes timestampCoder msg
      (if n = 0 then [] else AppendTag 2 VarintType ++ AppendVarint (toUint64 n))
      { Seconds := msg.Seconds, Nanos := if n = 0 then msg.Nanos else n } := by
  by_cases h0 : n = 0
  · simp only [h0, if_true]
    exact decodes_nil _ _
  · simp only [h0, if_false]
    have hc : timestampCoder msg 2 VarintType (AppendVarint (toUint64 n))
        = .ok { Seconds := msg.Seconds, Nanos := n } [] := by
      have hv := consumeVarint_appendVarint (toUint64 n) [] (toUint64_lt n)
      rw [List.append_nil] at hv
      simp [timestampCoder, hv, toInt32_toUint64 n hn]
    exact decodes_field timestampCoder msg _ _ 2 VarintType _ [] (by decide) (by decide) hc
      (by simp) (decodes_nil _ _)

/-- The decoder of `Timestamp` on what `marshalTimestamp` writes. -/
theorem decodes_marshalTimestamp (t : Timestamp) (ht : t.typed = true) :
    Decodes timestampCoder Timestamp.zero (marshalTimestamp t) t := by
  obtain ⟨s, n⟩ := t
  simp only [Timestamp.typed, Bool.and_eq_true] at ht
  unfold marshalTimestamp
  simp only
  by_cases h0 : s = 0
  · subst h0
    simp only [if_true, List.nil_append]
    have := decodes_nanos Timestamp.zero n ht.2
    by_cases hn : n = 0
    · subst hn; simpa [Timestamp.zero] using this
    · simpa [Timestamp.zero, hn] using this
  · simp only [h0, if_false]
    rw [List.append_assoc]
    have hc : timestampCoder Timestamp.zero 1 VarintType
        (AppendVarint (toUint64 s)
          ++ (if n = 0 then [] else AppendTag 2 VarintType ++ AppendVarint (toUint64 n)))
        = .ok { Seconds := s, Nanos := 0 }
          (if n = 0 then [] else AppendTag 2 VarintType ++ AppendVarint (toUint64 n)) := by
      have hv := consumeVarint_appendVarint (toUint64 s)
        (if n = 0 then [] else AppendTag 2 VarintType ++ AppendVarint (toUint64 n)) (toUint64_lt s)
      simp [timestampCoder, hv, toInt64_toUint64 s ht.1, Timestamp.zero]
    have hsecond := decodes_nanos { Seconds := s, Nanos := 0 } n ht.2
    have hres : ({ Seconds := s, Nanos := if n = 0 then 0 else n } : Timestamp)
        = { Seconds := s, Nanos := n } := by
      by_cases hn : n = 0
      · subst hn; simp
      · simp [hn]
    simp only [hres] at hsecond
    exact decodes_field timestampCoder Timestamp.zero _ _ 1 VarintType _ _ (by decide) (by decide)
      hc (by simp) hsecond

/-- A serialized `Timestamp` has at most 22 bytes. -/
theorem marshalTimestamp_length_le (t : Timestamp) : (marshalTimestamp t).length ≤ 22 := by
  unfold marshalTimestamp
  have h1 := appendTag_length_le 1 VarintType
  have h2 := appendTag_length_le 2 VarintType
  have h3 := appendVarint_length_le (toUint64 t.Seconds)
  have h4 := appendVarint_length_le (toUint64 t.Nanos)
  have e1 : (AppendTag 1 VarintType).length = 1 := by decide
  have e2 : (AppendTag 2 VarintType).length = 1 := by decide
  split <;> split <;> simp only [List.length_append, List.length_nil] <;> omega

/-- The decoder of a field of type `*Timestamp` that is still nil, on what
`marshalTimestampField` writes for a non-nil pointer. -/
theorem consumeTimestamp_marshal (t : Timestamp) (ht : t.typed = true) (rest : Bytes) :
    consumeTimestamp none BytesType (AppendBytes (marshalTimestamp t) ++ rest)
      = some (some (t, rest)) := by
  have hlen := marshalTimestamp_length_le t
  have hb := consumeBytes_appendBytes (marshalTimestamp t) rest (by omega)
  have hd := decodes_marshalTimestamp t ht _ (Nat.lt_succ_self _)
  simp [consumeTimestamp, hb, unmarshalTimestamp, hd]

/-- The second field of a `Timestamps`, read into a message where it is still nil. -/
theorem decodes_notValidAfter (nvb nva : Option Timestamp) (hnva : nva.all Timestamp.typed = true) :
    Decodes timestampsCoder { NotValidBefore := nvb, NotValidAfter := none }
      (marshalTimestampField 2 nva) { NotValidBefore := nvb, NotValidAfter := nva } := by
  cases nva with
  | none => exact decodes_nil _ _
  | some t =>
    simp only [Option.all_some] at hnva
    have hc : timestampsCoder { NotValidBefore := nvb, NotValidAfter := none } 2 BytesType
        (AppendBytes (marshalTimestamp t)) = .ok { NotValidBefore := nvb, NotValidAfter := some t } [] := by
      have h := consumeTimestamp_marshal t hnva []
      rw [List.append_nil] at h
      simp [timestampsCoder, h]
    exact decodes_field timestampsCoder _ _ _ 2 BytesType _ [] (by decide) (by decide) hc
      (by simp) (decodes_nil _ _)

/-- The decoder of `Timestamps` on what `marshalTimestamps` writes. -/
theorem decodes_marshalTimestamps (t : Timestamps) (ht : t.typed = true) :
    Decodes timestampsCoder Timestamps.zero (marshalTimestamps t) t := by
  obtain ⟨nvb, nva⟩ := t
  simp only [Timestamps.typed, Bool.and_eq_true] at ht
  unfold marshalTimestamps
  simp only
  cases nvb with
  | none =>
    simpa [marshalTimestampField, Timestamps.zero] using decodes_notValidAfter none nva ht.2
  | some t1 =>
    have ht1 : t1.typed = true := by simpa using ht.1
    have hc : timestampsCoder Timestamps.zero 1 BytesType
        (AppendBytes (marshalTimestamp t1) ++ marshalTimestampField 2 nva)
        = .ok { NotValidBefore := some t1, NotValidAfter := none } (marshalTimestampField 2 nva) := by
      have h := consumeTimestamp_marshal t1 ht1 (marshalTimestampField 2 nva)
      simp [timestampsCoder, Timestamps.zero, h]
    have := decodes_field timestampsCoder Timestamps.zero _ _ 1 BytesType _ _ (by decide) (by decide)
      hc (by simp) (decodes_notValidAfter (some t1) nva ht.2)
    simpa [marshalTimestampField, List.append_assoc] using this

/-- A serialized `Timestamps` has at most 66 bytes. -/
theorem marshalTimestamps_length_le (t : Timestamps) : (marshalTimestamps t).length ≤ 66 := by
  have hfield : ∀ (num : Nat) (x : Option Timestamp), num = 1 ∨ num = 2 →
      (marshalTimestampField num x).length ≤ 33 := by
    intro num x hnum
    cases x with
    | none => simp [marshalTimestampField]
    | some t1 =>
      have h1 := marshalTimestamp_length_le t1
      have h2 := appendVarint_length_le (marshalTimestamp t1).length
      have h3 : (AppendTag num BytesType).length = 1 := by
        rcases hnum with h | h <;> subst h <;> decide
      simp only [marshalTimestampField, AppendBytes, List.length_append]
      omega
  have h1 := hfield 1 t.NotValidBefore (Or.inl rfl)
  have h2 := hfield 2 t.NotValidAfter (Or.inr rfl)
  simp only [marshalTimestamps, List.length_append]
  omega

/-- The values of a packed enum field read back. -/
theorem consumePackedEnums_marshal : ∀ (vs : List TokenUsages), vs.all isInt32 = true →
    ∀ fuel, (vs.flatMap (fun v => AppendVarint (toUint64 v))).length < fuel →
    consumePackedEnums fuel (vs.flatMap (fun v => AppendVarint (toUint64 v))) = some vs
  | [], _, fuel, hfuel => by
    cases fuel with
    | zero => simp at hfuel
    | succ fuel => simp [consumePackedEnums]
  | v :: vs, hvs, fuel, hfuel => by
    simp only [List.all_cons, Bool.and_eq_true] at hvs
    cases fuel with
    | zero => simp at hfuel
    | succ fuel =>
      have hpos := appendVarint_length_pos (toUint64 v)
      simp only [List.flatMap_cons, List.length_append] at hfuel
      have ih := consumePackedEnums_marshal vs hvs.2 fuel (by omega)
      have hv := consumeVarint_appendVarint (toUint64 v)
        (vs.flatMap (fun v => AppendVarint (toUint64 v))) (toUint64_lt v)
      have hne : ¬ (AppendVarint (toUint64 v)
          ++ vs.flatMap (fun v => AppendVarint (toUint64 v))).length = 0 := by
        simp only [List.length_append]; omega
      simp only [List.flatMap_cons, consumePackedEnums, hne, if_false, hv, ih,
        toInt32_toUint64 v hvs.1]

end proto

namespace proto

open protowire

/-- The field `id`, read into any message. -/
theorem decodes_id (msg r : ProtoToken) (v rest : Bytes) (hutf : utf8Valid v = true)
    (hlen : v.length < 18446744073709551616)
    (hdec : Decodes protoTokenCoder { msg with Id := if v.length = 0 then msg.Id else v } rest r) :
    Decodes protoTokenCoder msg (marshalBytesField 1 v ++ rest) r := by
  unfold marshalBytesField
  by_cases h0 : v.length = 0
  · simp only [h0, if_true, List.nil_append] at hdec ⊢
    exact hdec
  · simp only [h0, if_false] at hdec ⊢
    rw [List.append_assoc]
    have hc : protoTokenCoder msg 1 BytesType (AppendBytes v ++ rest)
        = .ok { msg with Id := v } rest := by
      simp [protoTokenCoder, consumeBytes_appendBytes v rest hlen, hutf]
    exact decodes_field protoTokenCoder msg _ r 1 BytesType _ rest (by decide) (by decide) hc
      (by simp) hdec

/-- The field `sid`, read into any message. -/
theorem decodes_sid (msg r : ProtoToken) (v rest : Bytes) (hutf : utf8Valid v = true)
    (hlen : v.length < 18446744073709551616)
    (hdec : Decodes protoTokenCoder { msg with Sid := if v.length = 0 then msg.Sid else v } rest r) :
    Decodes protoTokenCoder msg (marshalBytesField 2 v ++ rest) r := by
  unfold marshalBytesField
  by_cases h0 : v.length = 0
  · simp only [h0, if_true, List.nil_append] at hdec ⊢
    exact hdec
  · simp only [h0, if_false] at hdec ⊢
    rw [List.append_assoc]
    have hc : protoTokenCoder msg 2 BytesType (AppendBytes v ++ rest)
        = .ok { msg with Sid := v } rest := by
      simp [protoTokenCoder, consumeBytes_appendBytes v rest hlen, hutf]
    exact decodes_field protoTokenCoder msg _ r 2 BytesType _ rest (by decide) (by decide) hc
      (by simp) hdec

/-- The field `vendor`, read into a message where it is still nil. -/
theorem decodes_vendor (msg r : ProtoToken) (v rest : Bytes) (hnil : msg.Vendor = none)
    (hlen : v.length < 18446744073709551616)
    (hdec : Decodes protoTokenCoder
      { msg with Vendor := if v.length = 0 then none else some v } rest r) :
    Decodes protoTokenCoder msg (marshalBytesField 3 v ++ rest) r := by
  unfold marshalBytesField
  by_cases h0 : v.length = 0
  · simp only [h0, if_true, List.nil_append] at hdec ⊢
    rw [← hnil] at hdec
    exact hdec
  · simp only [h0, if_false] at hdec ⊢
    rw [List.append_assoc]
    have hc : protoTokenCoder msg 3 BytesType (AppendBytes v ++ rest)
        = .ok { msg with Vendor := some v } rest := by
      simp only [protoTokenCoder, consumeBytes_appendBytes v rest hlen, h0, if_false]
      simp
    exact decodes_field protoTokenCoder msg _ r 3 BytesType _ rest (by decide) (by decide) hc
      (by simp) hdec

/-- The field `usages`, read into a message where it is still nil. -/
theorem decodes_usages (msg r : ProtoToken) (vs : List TokenUsages) (rest : Bytes)
    (hnil : msg.Usages = none) (hvs : vs.all isInt32 = true)
    (hlen : (vs.flatMap (fun v => AppendVarint (toUint64 v))).length < 18446744073709551616)
    (hdec : Decodes protoTokenCoder
      { msg with Usages := if vs.length = 0 then none else some vs } rest r) :
    Decodes protoTokenCoder msg (marshalUsages 4 vs ++ rest) r := by
  unfold marshalUsages
  by_cases h0 : vs.length = 0
  · simp only [h0, if_true, List.nil_append] at hdec ⊢
    rw [← hnil] at hdec
    exact hdec
  · simp only [h0, if_false] at hdec ⊢
    rw [List.append_assoc]
    have hc : protoTokenCoder msg 4 BytesType
        (AppendBytes (vs.flatMap (fun v => AppendVarint (toUint64 v))) ++ rest)
        = .ok { msg with Usages := some vs } rest := by
      have hp := consumePackedEnums_marshal vs hvs _ (Nat.lt_succ_self _)
      simp only [protoTokenCoder, consumeBytes_appendBytes _ rest hlen, hp, appendSlice, hnil, h0,
        if_false]
      simp
    exact decodes_field protoTokenCoder msg _ r 4 BytesType _ rest (by decide) (by decide) hc
      (by simp) hdec

/-- The field `timestamps`, read into a message where it is still nil. -/
theorem decodes_timestamps (msg : ProtoToken) (ts : Option Timestamps) (hnil : msg.Timestamps = none)
    (hts : ts.all Timestamps.typed = true) :
    Decodes protoTokenCoder msg (marshalTimestampsField 5 ts) { msg with Timestamps := ts } := by
  cases ts with
  | none =>
    simp only [marshalTimestampsField]
    rw [← hnil]
    exact decodes_nil _ _
  | some t =>
    simp only [Option.all_some] at hts
    have hlen := marshalTimestamps_length_le t
    have hb := consumeBytes_appendBytes (marshalTimestamps t) [] (by omega)
    rw [List.append_nil] at hb
    have hd := decodes_marshalTimestamps t hts _ (Nat.lt_succ_self _)
    have hc : protoTokenCoder msg 5 BytesType (AppendBytes (marshalTimestamps t))
        = .ok { msg with Timestamps := some t } [] := by
      simp [protoTokenCoder, hb, unmarshalTimestamps, hnil, hd]
    simp only [marshalTimestampsField]
    exact decodes_field protoTokenCoder msg _ _ 5 BytesType _ [] (by decide) (by decide) hc
      (by simp) (decodes_nil _ _)

/-- The call `proto.Unmarshal` undoes `proto.Marshal` on a credential whose strings are valid
UTF-8, up to the difference between nil and empty slices. -/
theorem unmarshal_marshalProtoToken (x : ProtoToken) (b : Bytes) (htyped : x.typed = true)
    (hmarshal : MarshalProtoToken x = .ok b) (hlen : b.length < 9223372036854775808) :
    UnmarshalProtoToken b = .ok x.canonical := by
  unfold MarshalProtoToken at hmarshal
  by_cases hutf : (utf8Valid x.Id && utf8Valid x.Sid) = true
  · simp only [hutf, if_true, Res.ok.injEq] at hmarshal
    simp only [Bool.and_eq_true] at hutf
    simp only [ProtoToken.typed, Bool.and_eq_true] at htyped
    have hsize := hlen
    rw [← hmarshal] at hsize
    simp only [List.length_append, marshalBytesField, marshalUsages, AppendBytes] at hsize
    have h1 : x.Id.length < 18446744073709551616 := by
      by_cases h : x.Id.length = 0
      · omega
      · simp only [h, if_false, List.length_append] at hsize; omega
    have h2 : x.Sid.length < 18446744073709551616 := by
      by_cases h : x.Sid.length = 0
      · omega
      · simp only [h, if_false, List.length_append] at hsize; omega
    have h3 : x.GetVendor.length < 18446744073709551616 := by
      by_cases h : x.GetVendor.length = 0
      · omega
      · simp only [h, if_false, List.length_append] at hsize; omega
    have h4 : (x.GetUsages.flatMap (fun v => AppendVarint (toUint64 v))).length
        < 18446744073709551616 := by
      by_cases h : x.GetUsages.length = 0
      · have : x.GetUsages = [] := List.length_eq_zero.mp h
        rw [this]; simp
      · simp only [h, if_false, List.length_append] at hsize; omega
    have hdec : Decodes protoTokenCoder ProtoToken.zero b x.canonical := by
      rw [← hmarshal]
      simp only [List.append_assoc]
      refine decodes_id _ _ _ _ hutf.1 h1 ?_
      refine decodes_sid _ _ _ _ hutf.2 h2 ?_
      refine decodes_vendor _ _ _ _ rfl h3 ?_
      refine decodes_usages _ _ _ _ rfl htyped.1 h4 ?_
      have h5 := decodes_timestamps
        { Id := if x.Id.length = 0 then [] else x.Id
          Sid := if x.Sid.length = 0 then [] else x.Sid
          Vendor := if x.GetVendor.length = 0 then none else some x.GetVendor
          Usages := if x.GetUsages.length = 0 then none else some x.GetUsages
          Timestamps := none } x.Timestamps rfl htyped.2
      have e1 : (if x.Id.length = 0 then [] else x.Id) = x.Id := by
        by_cases h : x.Id.length = 0
        · simp [List.length_eq_zero.mp h]
        · simp [h]
      have e2 : (if x.Sid.length = 0 then [] else x.Sid) = x.Sid := by
        by_cases h : x.Sid.length = 0
        · simp [List.length_eq_zero.mp h]
        · simp [h]
      simp only [e1, e2] at h5
      simpa only [ProtoToken.zero, ProtoToken.canonical, e1, e2] using h5
    unfold UnmarshalProtoToken
    rw [hdec _ (Nat.lt_succ_self _)]
  · simp only [hutf] at hmarshal
    cases hmarshal

end proto

/-! ## The fuel of the decoding loops is never used up -/

namespace protowire

/-- Reading a varint takes at least one byte. -/
theorem consumeVarintN_shrinks (n : Nat) : ∀ (b rest : Bytes) (v : Nat),
    consumeVarintN n b = some (v, rest) → rest.length < b.length := by
  induction n with
  | zero => intro b rest v h; simp [consumeVarintN] at h
  | succ n ih =>
    intro b rest v h
    cases b with
    | nil => simp [consumeVarintN] at h
    | cons y b =>
      rw [consumeVarintN] at h
      split at h
      · split at h
        · cases h
        · simp only [Option.some.injEq, Prod.mk.injEq] at h
          rw [← h.2]; simp
      · split at h
        · cases h
        · cases hrec : consumeVarintN n b with
          | none => simp [hrec] at h
          | some p =>
            obtain ⟨v1, rest1⟩ := p
            simp only [hrec, Option.some.injEq, Prod.mk.injEq] at h
            have := ih b rest1 v1 hrec
            rw [← h.2]
            simp only [List.length_cons]; omega

theorem consumeVarint_shrinks (b rest : Bytes) (v : Nat) (h : ConsumeVarint b = some (v, rest)) :
    rest.length < b.length :=
  consumeVarintN_shrinks 10 b rest v h

theorem consumeTag_shrinks (b rest : Bytes) (num typ : Nat)
    (h : ConsumeTag b = some (num, typ, rest)) : rest.length < b.length := by
  unfold ConsumeTag at h
  cases hv : ConsumeVarint b with
  | none => simp [hv] at h
  | some p =>
    obtain ⟨v, rest1⟩ := p
    simp only [hv] at h
    split at h
    · cases h
    · simp only [Option.some.injEq, Prod.mk.injEq] at h
      rw [← h.2.2]
      exact consumeVarint_shrinks b rest1 v hv

theorem consumeBytes_shrinks (b v rest : Bytes) (h : ConsumeBytes b = some (v, rest)) :
    rest.length < b.length := by
  unfold ConsumeBytes at h
  cases hv : ConsumeVarint b with
  | none => simp [hv] at h
  | some p =>
    obtain ⟨m, rest1⟩ := p
    simp only [hv] at h
    split at h
    · cases h
    · simp only [Option.some.injEq, Prod.mk.injEq] at h
      have := consumeVarint_shrinks b rest1 m hv
      rw [← h.2]
      simp only [List.length_drop]; omega

theorem consumeScalar_shrinks (typ : Nat) (b rest : Bytes) (h : consumeScalar typ b = some rest) :
    rest.length ≤ b.length := by
  unfold consumeScalar at h
  split at h
  · cases hv : ConsumeVarint b with
    | none => simp [hv] at h
    | some p =>
      obtain ⟨v, rest1⟩ := p
      simp only [hv, Option.map_some', Option.some.injEq] at h
      rw [← h]
      exact Nat.le_of_lt (consumeVarint_shrinks b rest1 v hv)
  · split at h
    · split at h
      · cases h
      · simp only [Option.some.injEq] at h
        rw [← h]; simp
    · split at h
      · split at h
        · cases h
        · simp only [Option.some.injEq] at h
          rw [← h]; simp
      · split at h
        · cases hv : ConsumeBytes b with
          | none => simp [hv] at h
          | some p =>
            obtain ⟨v, rest1⟩ := p
            simp only [hv, Option.map_some', Option.some.injEq] at h
            rw [← h]
            exact Nat.le_of_lt (consumeBytes_shrinks b v rest1 hv)
        · cases h

/-- Skipping a group does not depend on the fuel once it is above the length of the input, and
takes at least one byte. -/
theorem consumeGroup_fuel (n : Nat) : ∀ (b : Bytes) (num : Nat) (depth : Int), b.length ≤ n →
    ∀ f1 f2, n < f1 → n < f2 →
      consumeGroup f1 num depth b = consumeGroup f2 num depth b
        ∧ ∀ rest, consumeGroup f1 num depth b = some rest → rest.length < b.length := by
  induction n with
  | zero =>
    intro b num depth hb f1 f2 h1 h2
    have hnil : b = [] := List.length_eq_zero.mp (Nat.le_zero.mp hb)
    subst hnil
    cases f1 with
    | zero => omega
    | succ f1 =>
      cases f2 with
      | zero => omega
      | succ f2 =>
        have ht : ConsumeTag ([] : Bytes) = none := by decide
        simp [consumeGroup, ht]
  | succ n ih =>
    intro b num depth hb f1 f2 h1 h2
    cases f1 with
    | zero => omega
    | succ f1 =>
      cases f2 with
      | zero => omega
      | succ f2 =>
        rw [consumeGroup, consumeGroup]
        by_cases hd : depth < 0
        · simp [hd]
        · simp only [hd, if_false]
          cases ht : ConsumeTag b with
          | none => simp
          | some p =>
            obtain ⟨num2, typ2, b1⟩ := p
            have hb1 := consumeTag_shrinks b b1 num2 typ2 ht
            simp only
            by_cases hE : typ2 = EndGroupType
            · simp only [hE, if_true]
              refine ⟨trivial, ?_⟩
              intro rest hrest
              split at hrest
              · cases hrest
              · simp only [Option.some.injEq] at hrest
                rw [← hrest]; exact hb1
            · simp only [hE, if_false]
              by_cases hS : typ2 = StartGroupType
              · simp only [hS, if_true]
                have ih1 := ih b1 num2 (depth - 1) (by omega) f1 f2 (by omega) (by omega)
                rw [← ih1.1]
                cases hg : consumeGroup f1 num2 (depth - 1) b1 with
                | none => simp
                | some b2 =>
                  have hb2 := ih1.2 b2 hg
                  have ih2 := ih b2 num depth (by omega) f1 f2 (by omega) (by omega)
                  simp only
                  refine ⟨ih2.1, ?_⟩
                  intro rest hrest
                  have := ih2.2 rest hrest
                  omega
              · simp only [hS, if_false]
                cases hc : consumeScalar typ2 b1 with
                | none => simp
                | some b2 =>
                  have hb2 := consumeScalar_shrinks typ2 b1 b2 hc
                  have ih2 := ih b2 num depth (by omega) f1 f2 (by omega) (by omega)
                  simp only
                  refine ⟨ih2.1, ?_⟩
                  intro rest hrest
                  have := ih2.2 rest hrest
                  omega

/-- Skipping a value leaves no more bytes than there were. -/
theorem consumeFieldValue_shrinks (num typ : Nat) (b rest : Bytes)
    (h : ConsumeFieldValue num typ b = some rest) : rest.length ≤ b.length := by
  unfold ConsumeFieldValue at h
  split at h
  · exact Nat.le_of_lt
      ((consumeGroup_fuel b.length b num DefaultRecursionLimit (Nat.le_refl _) _ _
        (Nat.lt_succ_self _) (Nat.lt_succ_self _)).2 rest h)
  · exact consumeScalar_shrinks typ b rest h

end protowire

namespace proto

open protowire

/-- The loop of `unmarshalPointer` does not depend on the fuel once it is above the length of the
input, for field decoders that leave no more bytes than they were given. -/
theorem unmarshalPointer_fuel {σ : Type} (coder : σ → Nat → Nat → Bytes → FieldOut σ)
    (hcoder : Shrinks coder) (n : Nat) : ∀ (b : Bytes) (msg : σ), b.length ≤ n →
    ∀ f1 f2, n < f1 → n < f2 →
      unmarshalPointer coder f1 msg b = unmarshalPointer coder f2 msg b := by
  induction n with
  | zero =>
    intro b msg hb f1 f2 h1 h2
    have hnil : b = [] := List.length_eq_zero.mp (Nat.le_zero.mp hb)
    subst hnil
    cases f1 with
    | zero => omega
    | succ f1 =>
      cases f2 with
      | zero => omega
      | succ f2 => simp [unmarshalPointer]
  | succ n ih =>
    intro b msg hb f1 f2 h1 h2
    cases f1 with
    | zero => omega
    | succ f1 =>
      cases f2 with
      | zero => omega
      | succ f2 =>
        rw [unmarshalPointer, unmarshalPointer]
        by_cases h0 : b.length = 0
        · simp [h0]
        · simp only [h0, if_false]
          cases hv : ConsumeVarint b with
          | none => rfl
          | some p =>
            obtain ⟨tag, b1⟩ := p
            have hb1 := consumeVarint_shrinks b b1 tag hv
            simp only
            split
            · rfl
            · split
              · rfl
              · cases hc : coder msg (tag / 8) (tag % 8) b1 with
                | ok msg1 rest =>
                  have := hcoder msg (tag / 8) (tag % 8) b1 msg1 rest hc
                  exact ih rest msg1 (by omega) f1 f2 (by omega) (by omega)
                | fail => rfl
                | unknown =>
                  simp only
                  cases hf : ConsumeFieldValue (tag / 8) (tag % 8) b1 with
                  | none => rfl
                  | some rest =>
                    have := consumeFieldValue_shrinks _ _ b1 rest hf
                    exact ih rest msg (by omega) f1 f2 (by omega) (by omega)

theorem timestampCoder_shrinks : Shrinks timestampCoder := by
  intro msg num wtyp b msg1 rest h
  unfold timestampCoder at h
  split at h
  · split at h
    · cases h
    · cases hv : ConsumeVarint b with
      | none => simp [hv] at h
      | some p =>
        obtain ⟨v, r⟩ := p
        simp only [hv, FieldOut.ok.injEq] at h
        rw [← h.2]; exact Nat.le_of_lt (consumeVarint_shrinks b r v hv)
  · split at h
    · split at h
      · cases h
      · cases hv : ConsumeVarint b with
        | none => simp [hv] at h
        | some p =>
          obtain ⟨v, r⟩ := p
          simp only [hv, FieldOut.ok.injEq] at h
          rw [← h.2]; exact Nat.le_of_lt (consumeVarint_shrinks b r v hv)
    · cases h

theorem consumeTimestamp_shrinks (old : Option Timestamp) (wtyp : Nat) (b rest : Bytes)
    (t : Timestamp) (h : consumeTimestamp old wtyp b = some (some (t, rest))) :
    rest.length ≤ b.length := by
  unfold consumeTimestamp at h
  split at h
  · cases h
  · cases hv : ConsumeBytes b with
    | none => simp [hv] at h
    | some p =>
      obtain ⟨v, r⟩ := p
      simp only [hv] at h
      split at h
      · cases h
      · simp only [Option.some.injEq, Prod.mk.injEq] at h
        rw [← h.2]; exact Nat.le_of_lt (consumeBytes_shrinks b v r hv)

theorem timestampsCoder_shrinks : Shrinks timestampsCoder := by
  intro msg num wtyp b msg1 rest h
  unfold timestampsCoder at h
  split at h
  · split at h
    · cases h
    · cases h
    · rename_i t r hct
      simp only [FieldOut.ok.injEq] at h
      rw [← h.2]; exact consumeTimestamp_shrinks _ _ _ _ _ hct
  · split at h
    · split at h
      · cases h
      · cases h
      · rename_i t r hct
        simp only [FieldOut.ok.injEq] at h
        rw [← h.2]; exact consumeTimestamp_shrinks _ _ _ _ _ hct
    · cases h

theorem signedTokenCoder_shrinks : Shrinks signedTokenCoder := by
  intro msg num wtyp b msg1 rest h
  unfold signedTokenCoder at h
  split at h
  · split at h
    · cases h
    · cases hv : ConsumeBytes b with
      | none => simp [hv] at h
      | some p =>
        obtain ⟨v, r⟩ := p
        simp only [hv, FieldOut.ok.injEq] at h
        rw [← h.2]; exact Nat.le_of_lt (consumeBytes_shrinks b v r hv)
  · split at h
    · split at h
      · cases h
      · cases hv : ConsumeBytes b with
        | none => simp [hv] at h
        | some p =>
          obtain ⟨v, r⟩ := p
          simp only [hv, FieldOut.ok.injEq] at h
          rw [← h.2]; exact Nat.le_of_lt (consumeBytes_shrinks b v r hv)
    · cases h

theorem protoTokenCoder_shrinks : Shrinks protoTokenCoder := by
  intro msg num wtyp b msg1 rest h
  have hbytes : ∀ (f : Bytes → Bytes → FieldOut ProtoToken),
      (∀ v r m1 r1, f v r = .ok m1 r1 → r1 = r) →
      (match ConsumeBytes b with
        | none => FieldOut.fail
        | some (v, r) => f v r) = .ok msg1 rest → rest.length ≤ b.length := by
    intro f hf h1
    cases hv : ConsumeBytes b with
    | none => simp [hv] at h1
    | some p =>
      obtain ⟨v, r⟩ := p
      simp only [hv] at h1
      rw [hf v r msg1 rest h1]
      exact Nat.le_of_lt (consumeBytes_shrinks b v r hv)
  unfold protoTokenCoder at h
  split at h
  · split at h
    · cases h
    · refine hbytes (fun v r => if utf8Valid v then .ok { msg with Id := v } r else .fail) ?_ h
      intro v r m1 r1 h1
      beta_reduce at h1
      split at h1
      · simp only [FieldOut.ok.injEq] at h1; exact h1.2.symm
      · cases h1
  · split at h
    · split at h
      · cases h
      · refine hbytes (fun v r => if utf8Valid v then .ok { msg with Sid := v } r else .fail) ?_ h
        intro v r m1 r1 h1
        beta_reduce at h1
        split at h1
        · simp only [FieldOut.ok.injEq] at h1; exact h1.2.symm
        · cases h1
    · split at h
      · split at h
        · cases h
        · refine hbytes
            (fun v r => .ok { msg with Vendor := if v.length = 0 then none else some v } r) ?_ h
          intro v r m1 r1 h1
          beta_reduce at h1
          simp only [FieldOut.ok.injEq] at h1; exact h1.2.symm
      · split at h
        · split at h
          · refine hbytes
              (fun v r =>
                match consumePackedEnums (v.length + 1) v with
                | none => .fail
                | some vs => .ok { msg with Usages := appendSlice msg.Usages vs } r) ?_ h
            intro v r m1 r1 h1
            beta_reduce at h1
            split at h1
            · cases h1
            · simp only [FieldOut.ok.injEq] at h1; exact h1.2.symm
          · split at h
            · cases hv : ConsumeVarint b with
              | none => simp [hv] at h
              | some p =>
                obtain ⟨v, r⟩ := p
                simp only [hv, FieldOut.ok.injEq] at h
                rw [← h.2]; exact Nat.le_of_lt (consumeVarint_shrinks b r v hv)
            · cases h
        · split at h
          · split at h
            · cases h
            · refine hbytes
                (fun v r =>
                  match unmarshalTimestamps (msg.Timestamps.getD Timestamps.zero) v with
                  | none => .fail
                  | some t => .ok { msg with Timestamps := some t } r) ?_ h
              intro v r m1 r1 h1
              beta_reduce at h1
              split at h1
              · cases h1
              · simp only [FieldOut.ok.injEq] at h1; exact h1.2.symm
          · cases h

/-- The values of a packed field are read the same way with any fuel above the length of the
input. -/
theorem consumePackedEnums_fuel (n : Nat) : ∀ (b : Bytes), b.length ≤ n →
    ∀ f1 f2, n < f1 → n < f2 → consumePackedEnums f1 b = consumePackedEnums f2 b := by
  induction n with
  | zero =>
    intro b hb f1 f2 h1 h2
    have hnil : b = [] := List.length_eq_zero.mp (Nat.le_zero.mp hb)
    subst hnil
    cases f1 with
    | zero => omega
    | succ f1 =>
      cases f2 with
      | zero => omega
      | succ f2 => simp [consumePackedEnums]
  | succ n ih =>
    intro b hb f1 f2 h1 h2
    cases f1 with
    | zero => omega
    | succ f1 =>
      cases f2 with
      | zero => omega
      | succ f2 =>
        rw [consumePackedEnums, consumePackedEnums]
        by_cases h0 : b.length = 0
        · simp [h0]
        · simp only [h0, if_false]
          cases hv : ConsumeVarint b with
          | none => rfl
          | some p =>
            obtain ⟨v, rest⟩ := p
            have := consumeVarint_shrinks b rest v hv
            simp only
            rw [ih rest (by omega) f1 f2 (by omega) (by omega)]

/-- The decoder of `ProtoToken` never uses up the fuel `proto.Unmarshal` is modelled with: any
fuel above the length of the input gives the same result. -/
theorem unmarshalProtoToken_fuel (b : Bytes) (fuel : Nat) (h : b.length < fuel) :
    unmarshalPointer protoTokenCoder fuel ProtoToken.zero b
      = unmarshalPointer protoTokenCoder (b.length + 1) ProtoToken.zero b :=
  unmarshalPointer_fuel protoTokenCoder protoTokenCoder_shrinks b.length b _ (Nat.le_refl _) _ _ h
    (Nat.lt_succ_self _)

/-- The decoder of `SignedToken` never uses up the fuel `proto.Unmarshal` is modelled with. -/
theorem unmarshalSignedToken_fuel (b : Bytes) (fuel : Nat) (h : b.length < fuel) :
    unmarshalPointer signedTokenCoder fuel SignedToken.zero b
      = unmarshalPointer signedTokenCoder (b.length + 1) SignedToken.zero b :=
  unmarshalPointer_fuel signedTokenCoder signedTokenCoder_shrinks b.length b _ (Nat.le_refl _) _ _ h
    (Nat.lt_succ_self _)

/-- The decoders of `Timestamps` and `Timestamp` never use up their fuel either. -/
theorem unmarshalTimestamps_fuel (x : Timestamps) (y : Timestamp) (b : Bytes) (fuel : Nat)
    (h : b.length < fuel) :
    unmarshalPointer timestampsCoder fuel x b = unmarshalTimestamps x b
      ∧ unmarshalPointer timestampCoder fuel y b = unmarshalTimestamp y b :=
  ⟨unmarshalPointer_fuel timestampsCoder timestampsCoder_shrinks b.length b _ (Nat.le_refl _) _ _ h
      (Nat.lt_succ_self _),
    unmarshalPointer_fuel timestampCoder timestampCoder_shrinks b.length b _ (Nat.le_refl _) _ _ h
      (Nat.lt_succ_self _)⟩

end proto

/-! ## The builder returns Go values -/

theorem isInt64_toInt64 (x : Int) : isInt64 (toInt64 x) = true := by
  simp only [isInt64, toInt64, decide_eq_true_eq]; omega

theorem isInt32_toInt32 (x : Int) : isInt32 (toInt32 x) = true := by
  simp only [isInt32, toInt32, decide_eq_true_eq]; omega

theorem timestamppbNew_typed (t : Time) : (timestamppbNew t).typed = true := by
  simp [timestamppbNew, Timestamp.typed, Time.unixSeconds, isInt64_toInt64, isInt32_toInt32]

theorem withID_keepsTyped (id : Bytes) : TokenOpt.keepsTyped (WithID id) := by
  intro pt pt1 hpt h
  unfold WithID at h
  split at h
  · cases h
  · split at h
    · cases h
    · simp only [Res.ok.injEq] at h
      rw [← h]; exact hpt

theorem withSID_keepsTyped (sid : Bytes) : TokenOpt.keepsTyped (WithSID sid) := by
  intro pt pt1 hpt h
  unfold WithSID at h
  split at h
  · cases h
  · split at h
    · cases h
    · simp only [Res.ok.injEq] at h
      rw [← h]; exact hpt

theorem withVendor_keepsTyped (data : Option Bytes) : TokenOpt.keepsTyped (WithVendor data) := by
  intro pt pt1 hpt h
  unfold WithVendor at h
  split at h
  · cases h
  · split at h
    · cases h
    · simp only [Res.ok.injEq] at h
      rw [← h]; exact hpt

theorem withUsages_keepsTyped (usages : List TokenUsages) (husages : usages.all isInt32 = true) :
    TokenOpt.keepsTyped (WithUsages usages) := by
  intro pt pt1 hpt h
  unfold WithUsages at h
  split at h
  · cases h
  · split at h
    · cases h
    · simp only [Res.ok.injEq] at h
      rw [← h]
      simp only [ProtoToken.typed, ProtoToken.GetUsages, Bool.and_eq_true] at hpt ⊢
      exact ⟨by simpa using husages, hpt.2⟩

/-- The loop over the options keeps the credential a Go value when every option does. -/
theorem applyOpts_typed : ∀ (opts : List TokenOpt) (tok tok1 : ProtoToken),
    (∀ opt ∈ opts, TokenOpt.keepsTyped opt) → tok.typed = true →
    applyOpts opts tok = .ok tok1 → tok1.typed = true
  | [], tok, tok1, _, htok, h => by
    simp only [applyOpts, Res.ok.injEq] at h
    rw [← h]; exact htok
  | opt :: opts, tok, tok1, hopts, htok, h => by
    rw [applyOpts] at h
    cases hopt : opt tok with
    | ok tok2 =>
      simp only [hopt] at h
      exact applyOpts_typed opts tok2 tok1 (fun o ho => hopts o (List.mem_cons_of_mem _ ho))
        (hopts opt (List.mem_cons_self _ _) tok tok2 htok hopt) h
    | error err => simp [hopt] at h
    | panic msg => simp [hopt] at h

/-- A credential returned by `New` is a Go value when every option keeps it one. -/
theorem new_typed (now : Time) (ksuid : Bytes) (duration : Int) (opts : List TokenOpt) (w : World)
    (C : ProtoToken) (hopts : ∀ opt ∈ opts, TokenOpt.keepsTyped opt)
    (hnew : (New now ksuid duration opts w).1 = .ok C) : C.typed = true := by
  unfold New at hnew
  split at hnew
  · cases hnew
  · have h0 : ProtoToken.typed
        { ProtoToken.zero with
          Timestamps := some
            { NotValidBefore := some (timestamppbNew now)
              NotValidAfter := some (timestamppbNew (now.Add duration)) } } = true := by
      simp [ProtoToken.typed, ProtoToken.GetUsages, ProtoToken.zero, Timestamps.typed,
        timestamppbNew_typed]
    simp only at hnew
    split at hnew
    · cases hnew
    · cases hnew
    · rename_i tok1 happly
      have h1 := applyOpts_typed opts _ tok1 hopts h0 happly
      split at hnew
      · simp only [Res.ok.injEq] at hnew
        rw [← hnew]; exact h1
      · simp only [Res.ok.injEq] at hnew
        rw [← hnew]; exact h1

/-! ## Clock readings -/

/-- Quotient and remainder of the truncating division of a duration by a second. -/
theorem tdiv_tmod_second (d : Int) :
    1000000000 * d.tdiv 1000000000 + d.tmod 1000000000 = d
      ∧ (0 ≤ d → 0 ≤ d.tmod 1000000000 ∧ d.tmod 1000000000 < 1000000000)
      ∧ (d ≤ 0 → -1000000000 < d.tmod 1000000000 ∧ d.tmod 1000000000 ≤ 0) := by
  have h0 := Int.tdiv_add_tmod d 1000000000
  refine ⟨h0, ?_, ?_⟩
  · intro hd
    exact ⟨Int.tmod_nonneg _ hd, Int.tmod_lt_of_pos _ (by norm_num)⟩
  · intro hd
    have h1 := Int.tdiv_add_tmod (-d) 1000000000
    have h2 := Int.neg_tdiv d 1000000000
    have h3 := Int.tmod_nonneg (a := -d) 1000000000 (by omega)
    have h4 := Int.tmod_lt_of_pos (-d) (b := 1000000000) (by norm_num)
    rw [h2] at h1
    omega

/-- Adding an `int64` duration to a clock reading is exact: no carry is lost and nothing
saturates. -/
theorem add_exact (t : Time) (d : Int) (ht : t.isClock = true) (hd : isInt64 d = true) :
    (t.Add d).sec * 1000000000 + (t.Add d).nsec = t.sec * 1000000000 + t.nsec + d
      ∧ 0 ≤ (t.Add d).nsec ∧ (t.Add d).nsec < 1000000000
      ∧ -4611686028000000000 ≤ (t.Add d).sec ∧ (t.Add d).sec < 4611686028000000000 := by
  simp only [Time.isClock, decide_eq_true_eq] at ht
  simp only [isInt64, decide_eq_true_eq] at hd
  obtain ⟨hq, hpos, hneg⟩ := tdiv_tmod_second d
  simp only [Time.Add]
  generalize d.tdiv 1000000000 = q at hq ⊢
  generalize d.tmod 1000000000 = r at hq hpos hneg ⊢
  have hrb : -1000000000 < r ∧ r < 1000000000 := by
    rcases le_total 0 d with h | h
    · have := hpos h; omega
    · have := hneg h; omega
  have hr32 : toInt32 r = r := by unfold toInt32; omega
  have hn32 : toInt32 (t.nsec + r) = t.nsec + r := by unfold toInt32; omega
  simp only [hr32, hn32]
  by_cases h1 : t.nsec + r ≥ 1000000000
  · have e1 : toInt64 (q + 1) = q + 1 := by unfold toInt64; omega
    have e2 : toInt64 (t.sec + (q + 1)) = t.sec + (q + 1) := by unfold toInt64; omega
    simp only [h1, if_true, e1, e2]
    by_cases h2 : q + 1 > 0
    · have h3 : t.sec + (q + 1) > t.sec := by omega
      simp only [h2, h3, decide_True, if_true]
      omega
    · have h3 : ¬ t.sec + (q + 1) > t.sec := by omega
      simp only [h2, h3, decide_False, if_true]
      omega
  · by_cases h4 : t.nsec + r < 0
    · have e1 : toInt64 (q - 1) = q - 1 := by unfold toInt64; omega
      have e2 : toInt64 (t.sec + (q - 1)) = t.sec + (q - 1) := by unfold toInt64; omega
      simp only [h1, h4, if_true, if_false, e1, e2]
      by_cases h2 : q - 1 > 0
      · have h3 : t.sec + (q - 1) > t.sec := by omega
        simp only [h2, h3, decide_True, if_true]
        omega
      · have h3 : ¬ t.sec + (q - 1) > t.sec := by omega
        simp only [h2, h3, decide_False, if_true]
        omega
    · have e2 : toInt64 (t.sec + q) = t.sec + q := by unfold toInt64; omega
      simp only [h1, h4, if_false, e2]
      by_cases h2 : q > 0
      · have h3 : t.sec + q > t.sec := by omega
        simp only [h2, h3, decide_True, if_true]
        omega
      · have h3 : ¬ t.sec + q > t.sec := by omega
        simp only [h2, h3, decide_False, if_true]
        omega

/-- A timestamp made from a time that is far from the ends of `int64` reads back as that
time. -/
theorem asTime_timestamppbNew (t : Time) (hn : 0 ≤ t.nsec ∧ t.nsec < 1000000000)
    (hs : -4611686028000000000 ≤ t.sec ∧ t.sec < 4611686028000000000) :
    AsTime (some (timestamppbNew t)) = t := by
  obtain ⟨sec, nsec⟩ := t
  simp only at hn hs
  have e1 : toInt32 nsec = nsec := by unfold toInt32; omega
  have e2 : toInt64 (sec - unixToInternal) = sec - unixToInternal := by
    unfold toInt64 unixToInternal; omega
  have e3 : toInt64 (sec - unixToInternal + unixToInternal) = sec := by
    unfold toInt64 unixToInternal; omega
  have h1 : ¬ (nsec < 0 ∨ nsec ≥ 1000000000) := by omega
  simp only [AsTime, timestamppbNew, Time.unixSeconds, Option.getD_some, Time.Unix, e1, e2, e3,
    h1, if_false]

/-- Between two times with nanoseconds within the second, `Before` compares the nanoseconds
since year 1. -/
theorem before_iff_lt (t u : Time) (ht : 0 ≤ t.nsec ∧ t.nsec < 1000000000)
    (hu : 0 ≤ u.nsec ∧ u.nsec < 1000000000) :
    t.Before u = true ↔ t.sec * 1000000000 + t.nsec < u.sec * 1000000000 + u.nsec := by
  simp only [Time.Before, decide_eq_true_eq]
  constructor
  · rintro (h | ⟨h1, h2⟩) <;> omega
  · intro h
    by_cases h1 : t.sec < u.sec
    · exact Or.inl h1
    · exact Or.inr ⟨by omega, by omega⟩

/-! ## The token builder -/

/-- The run of `New` for a zero duration. -/
theorem new_of_zero (now : Time) (ksuid : Bytes) (opts : List TokenOpt) (w : World) :
    New now ksuid 0 opts w = (.panic "duration MUST be provided", w) := by
  simp [New]

/-- The run of `New` when an option fails. -/
theorem new_of_error (now : Time) (ksuid : Bytes) (duration : Int) (opts : List TokenOpt)
    (w : World) (err : GoError) (hd : duration ≠ 0)
    (h : applyOpts opts (initialToken now duration) = .error err) :
    New now ksuid duration opts w = (.error err, w.record .TimeNow) := by
  unfold initialToken at h
  simp [New, hd, h]

/-- The run of `New` when an option panics. -/
theorem new_of_panic (now : Time) (ksuid : Bytes) (duration : Int) (opts : List TokenOpt)
    (w : World) (msg : String) (hd : duration ≠ 0)
    (h : applyOpts opts (initialToken now duration) = .panic msg) :
    New now ksuid duration opts w = (.panic msg, w.record .TimeNow) := by
  unfold initialToken at h
  simp [New, hd, h]

/-- The run of `New` when every option succeeds. -/
theorem new_of_ok (now : Time) (ksuid : Bytes) (duration : Int) (opts : List TokenOpt)
    (w : World) (tok : ProtoToken) (hd : duration ≠ 0)
    (h : applyOpts opts (initialToken now duration) = .ok tok) :
    New now ksuid duration opts w =
      (if tok.GetId.length = 0 then
        (.ok { tok with Id := ksuid }, (w.record .TimeNow).record .KsuidNew)
      else (.ok tok, w.record .TimeNow)) := by
  unfold initialToken at h
  simp [New, hd, h]

/-- The three outcomes of a run. -/
theorem res_cases {α : Type} (r : Res α) :
    (∃ a, r = .ok a) ∨ (∃ e, r = .error e) ∨ (∃ msg, r = .panic msg) := by
  cases r with
  | ok a => exact Or.inl ⟨a, rfl⟩
  | error e => exact Or.inr (Or.inl ⟨e, rfl⟩)
  | panic msg => exact Or.inr (Or.inr ⟨msg, rfl⟩)

/-- The loop over the options stops at the first one that returns an error: the options before
it have been applied in order, the ones after it are not looked at. -/
theorem applyOpts_first_error : ∀ (pre : List TokenOpt) (opt : TokenOpt) (post : List TokenOpt)
    (tok tok1 : ProtoToken) (err : GoError),
    applyOpts pre tok = .ok tok1 → opt tok1 = .error err →
    applyOpts (pre ++ opt :: post) tok = .error err
  | [], opt, post, tok, tok1, err, hpre, hopt => by
    simp only [applyOpts, Res.ok.injEq] at hpre
    subst hpre
    simp [applyOpts, hopt]
  | o :: pre, opt, post, tok, tok1, err, hpre, hopt => by
    rw [applyOpts] at hpre
    rw [List.cons_append, applyOpts]
    cases ho : o tok with
    | ok tok2 =>
      simp only [ho] at hpre ⊢
      exact applyOpts_first_error pre opt post tok2 tok1 err hpre hopt
    | error e => simp [ho] at hpre
    | panic msg => simp [ho] at hpre

/-- The loop over options that all succeed applies them in order. -/
theorem applyOpts_append_ok : ∀ (pre post : List TokenOpt) (tok tok1 : ProtoToken),
    applyOpts pre tok = .ok tok1 → applyOpts (pre ++ post) tok = applyOpts post tok1
  | [], post, tok, tok1, hpre => by
    simp only [applyOpts, Res.ok.injEq] at hpre
    subst hpre
    rfl
  | o :: pre, post, tok, tok1, hpre => by
    rw [applyOpts] at hpre
    rw [List.cons_append, applyOpts]
    cases ho : o tok with
    | ok tok2 =>
      simp only [ho] at hpre ⊢
      exact applyOpts_append_ok pre post tok2 tok1 hpre
    | error e => simp [ho] at hpre
    | panic msg => simp [ho] at hpre

/-- What a built-in option returns: an error for an argument it does not accept, an overwrite
error when its field is set, and otherwise the credential with the field set. -/
theorem builtinOpt_run (s : BuiltinOpt) (pt : ProtoToken) :
    s.opt pt =
      (if s.valid = false then
        Res.error (match s with
          | .id _ => .lib "id cannot be empty"
          | .sid _ => .wrap1 (.sentinel .ErrOverwrite) "sid"
          | .vendor _ => .lib "data cannot be empty"
          | .usages _ => .lib "at least one usage must be provided")
      else if s.field.unset pt = false then
        Res.error (.wrap1 (.sentinel .ErrOverwrite) (match s.field with
          | .id => "id"
          | .sid => "sid"
          | .vendor => "vendor"
          | .usages => "usages"))
      else Res.ok (s.set pt)) := by
  cases s with
  | id v =>
    by_cases h1 : v.length = 0
    · simp [BuiltinOpt.opt, WithID, BuiltinOpt.valid, h1]
    · by_cases h2 : pt.GetId.length = 0
      · simp [BuiltinOpt.opt, WithID, BuiltinOpt.valid, BuiltinOpt.field, Field.unset,
          BuiltinOpt.set, h1, h2]
      · simp [BuiltinOpt.opt, WithID, BuiltinOpt.valid, BuiltinOpt.field, Field.unset,
          BuiltinOpt.set, h1, h2]
  | sid v =>
    by_cases h1 : v.length = 0
    · simp [BuiltinOpt.opt, WithSID, BuiltinOpt.valid, h1]
    · by_cases h2 : pt.GetSid.length = 0
      · simp [BuiltinOpt.opt, WithSID, BuiltinOpt.valid, BuiltinOpt.field, Field.unset,
          BuiltinOpt.set, h1, h2]
      · simp [BuiltinOpt.opt, WithSID, BuiltinOpt.valid, BuiltinOpt.field, Field.unset,
          BuiltinOpt.set, h1, h2]
  | vendor v =>
    cases v with
    | none => simp [BuiltinOpt.opt, WithVendor, BuiltinOpt.valid]
    | some d =>
      cases h2 : pt.Vendor with
      | none =>
        simp [BuiltinOpt.opt, WithVendor, BuiltinOpt.valid, BuiltinOpt.field, Field.unset,
          BuiltinOpt.set, h2]
      | some d1 =>
        simp [BuiltinOpt.opt, WithVendor, BuiltinOpt.valid, BuiltinOpt.field, Field.unset,
          BuiltinOpt.set, h2]
  | usages v =>
    by_cases h1 : v.length = 0
    · simp [BuiltinOpt.opt, WithUsages, BuiltinOpt.valid, h1]
    · cases h2 : pt.Usages with
      | none =>
        simp [BuiltinOpt.opt, WithUsages, BuiltinOpt.valid, BuiltinOpt.field, Field.unset,
          BuiltinOpt.set, h1, h2]
      | some d1 =>
        simp [BuiltinOpt.opt, WithUsages, BuiltinOpt.valid, BuiltinOpt.field, Field.unset,
          BuiltinOpt.set, h1, h2]

/-- A built-in option that succeeds had an accepted argument and an unset field, and sets it. -/
theorem builtinOpt_ok_inv (s : BuiltinOpt) (pt pt1 : ProtoToken) (h : s.opt pt = .ok pt1) :
    s.valid = true ∧ s.field.unset pt = true ∧ pt1 = s.set pt := by
  rw [builtinOpt_run] at h
  split at h
  · cases h
  · split at h
    · cases h
    · rename_i h1 h2
      simp only [Res.ok.injEq] at h
      exact ⟨by simpa using h1, by simpa using h2, h.symm⟩

/-- A built-in option does not panic. -/
theorem builtinOpt_no_panic (s : BuiltinOpt) (pt : ProtoToken) (msg : String) :
    s.opt pt ≠ .panic msg := by
  rw [builtinOpt_run]
  split
  · simp
  · split <;> simp

/-- The loop over built-in options does not panic. -/
theorem applyOpts_builtin_no_panic : ∀ (specs : List BuiltinOpt) (tok : ProtoToken) (msg : String),
    applyOpts (specs.map BuiltinOpt.opt) tok ≠ .panic msg
  | [], tok, msg => by simp [applyOpts]
  | s :: specs, tok, msg => by
    rw [List.map_cons, applyOpts]
    rcases res_cases (s.opt tok) with ⟨tok1, h⟩ | ⟨e, h⟩ | ⟨m, h⟩
    · simp only [h]
      exact applyOpts_builtin_no_panic specs tok1 msg
    · simp [h]
    · exact absurd h (builtinOpt_no_panic s tok m)

/-- Setting a field leaves the validity window as it is. -/
theorem builtinOpt_set_timestamps (s : BuiltinOpt) (pt : ProtoToken) :
    (s.set pt).Timestamps = pt.Timestamps := by
  cases s <;> rfl

/-- The loop over built-in options leaves the validity window as it is. -/
theorem applyOpts_builtin_timestamps : ∀ (specs : List BuiltinOpt) (tok tok1 : ProtoToken),
    applyOpts (specs.map BuiltinOpt.opt) tok = .ok tok1 → tok1.Timestamps = tok.Timestamps
  | [], tok, tok1, h => by
    simp only [List.map_nil, applyOpts, Res.ok.injEq] at h
    rw [h]
  | s :: specs, tok, tok1, h => by
    rw [List.map_cons, applyOpts] at h
    rcases res_cases (s.opt tok) with ⟨tok2, h2⟩ | ⟨e, h2⟩ | ⟨m, h2⟩
    · simp only [h2] at h
      have ih := applyOpts_builtin_timestamps specs tok2 tok1 h
      rw [ih, (builtinOpt_ok_inv s tok tok2 h2).2.2, builtinOpt_set_timestamps]
    · simp [h2] at h
    · simp [h2] at h

/-- Setting one field does not change whether another one is set. -/
theorem unset_set_of_ne (s : BuiltinOpt) (f : Field) (pt : ProtoToken) (h : f ≠ s.field) :
    f.unset (s.set pt) = f.unset pt := by
  cases s <;> cases f <;> first | rfl | exact absurd rfl h

/-- A field set by an option with an accepted argument is set. -/
theorem unset_set_self (s : BuiltinOpt) (pt : ProtoToken) (h : s.valid = true) :
    s.field.unset (s.set pt) = false := by
  cases s with
  | id v => simpa [BuiltinOpt.valid, BuiltinOpt.field, Field.unset, BuiltinOpt.set,
      ProtoToken.GetId] using h
  | sid v => simpa [BuiltinOpt.valid, BuiltinOpt.field, Field.unset, BuiltinOpt.set,
      ProtoToken.GetSid] using h
  | vendor v =>
    cases v with
    | none => simp [BuiltinOpt.valid] at h
    | some d => rfl
  | usages v => rfl

/-- The loop over built-in options succeeds exactly when every argument is accepted and the
options set pairwise different fields, none of them set before; it then sets the fields one
after the other. -/
theorem applyOpts_builtin_ok_iff : ∀ (specs : List BuiltinOpt) (tok tok1 : ProtoToken),
    applyOpts (specs.map BuiltinOpt.opt) tok = .ok tok1 ↔
      ((∀ s ∈ specs, s.valid = true) ∧ (specs.map BuiltinOpt.field).Nodup
        ∧ (∀ s ∈ specs, s.field.unset tok = true)
        ∧ tok1 = specs.foldl (fun t s => s.set t) tok)
  | [], tok, tok1 => by
    simp only [List.map_nil, applyOpts, Res.ok.injEq, List.not_mem_nil, false_implies,
      implies_true, List.nodup_nil, List.foldl_nil, true_and]
    exact eq_comm
  | s :: specs, tok, tok1 => by
    rw [List.map_cons, applyOpts]
    constructor
    · intro h
      rcases res_cases (s.opt tok) with ⟨tok2, h2⟩ | ⟨e, h2⟩ | ⟨m, h2⟩
      · simp only [h2] at h
        obtain ⟨hv, hu, hset⟩ := builtinOpt_ok_inv s tok tok2 h2
        subst hset
        obtain ⟨ihv, ihn, ihu, ihf⟩ := (applyOpts_builtin_ok_iff specs (s.set tok) tok1).mp h
        have hne : ∀ r ∈ specs, r.field ≠ s.field := by
          intro r hr heq
          have h1 := ihu r hr
          rw [heq, unset_set_self s tok hv] at h1
          cases h1
        refine ⟨?_, ?_, ?_, ?_⟩
        · intro r hr
          rcases List.mem_cons.mp hr with h3 | h3
          · rw [h3]; exact hv
          · exact ihv r h3
        · rw [List.map_cons, List.nodup_cons]
          refine ⟨?_, ihn⟩
          intro hmem
          obtain ⟨r, hr, hrf⟩ := List.mem_map.mp hmem
          exact hne r hr hrf
        · intro r hr
          rcases List.mem_cons.mp hr with h3 | h3
          · rw [h3]; exact hu
          · have h4 := ihu r h3
            rw [unset_set_of_ne s r.field tok (hne r h3)] at h4
            exact h4
        · rw [List.foldl_cons]; exact ihf
      · simp [h2] at h
      · simp [h2] at h
    · rintro ⟨hv, hn, hu, hf⟩
      have hsv := hv s (List.mem_cons_self _ _)
      have hsu := hu s (List.mem_cons_self _ _)
      have h2 : s.opt tok = .ok (s.set tok) := by
        rw [builtinOpt_run]
        simp [hsv, hsu]
      simp only [h2]
      rw [List.map_cons, List.nodup_cons] at hn
      refine (applyOpts_builtin_ok_iff specs (s.set tok) tok1).mpr ⟨?_, hn.2, ?_, ?_⟩
      · intro r hr
        exact hv r (List.mem_cons_of_mem _ hr)
      · intro r hr
        have hne : r.field ≠ s.field := by
          intro heq
          exact hn.1 (List.mem_map.mpr ⟨r, hr, heq⟩)
        rw [unset_set_of_ne s r.field tok hne]
        exact hu r (List.mem_cons_of_mem _ hr)
      · rw [hf, List.foldl_cons]

/-- What a field holds after options for pairwise different fields have set theirs: the
argument of the option for this field, or what it held before if there is no such option. -/
theorem foldl_set_get {α : Type} (f : Field) (g : ProtoToken → α) (val : BuiltinOpt → α)
    (hset : ∀ (s : BuiltinOpt) (pt : ProtoToken), s.field = f → g (s.set pt) = val s)
    (hother : ∀ (s : BuiltinOpt) (pt : ProtoToken), s.field ≠ f → g (s.set pt) = g pt) :
    ∀ (specs : List BuiltinOpt) (tok : ProtoToken), (specs.map BuiltinOpt.field).Nodup →
      (∀ s ∈ specs, s.field = f → g (specs.foldl (fun t s => s.set t) tok) = val s)
        ∧ ((∀ s ∈ specs, s.field ≠ f) → g (specs.foldl (fun t s => s.set t) tok) = g tok)
  | [], tok, _ => by simp
  | s :: specs, tok, hn => by
    rw [List.map_cons, List.nodup_cons] at hn
    obtain ⟨ih1, ih2⟩ := foldl_set_get f g val hset hother specs (s.set tok) hn.2
    rw [List.foldl_cons]
    constructor
    · intro r hr hrf
      rcases List.mem_cons.mp hr with h3 | h3
      · subst h3
        have hnone : ∀ t ∈ specs, t.field ≠ f := by
          intro t ht htf
          exact hn.1 (List.mem_map.mpr ⟨t, ht, by rw [htf, hrf]⟩)
        rw [ih2 hnone]
        exact hset r tok hrf
      · exact ih1 r h3 hrf
    · intro hnone
      rw [ih2 (fun t ht => hnone t (List.mem_cons_of_mem _ ht))]
      exact hother s tok (hnone s (List.mem_cons_self _ _))

/-- Applying the options in list order is what the loop of `New` does. -/
theorem appliedInOrder_iff : ∀ (opts : List TokenOpt) (tok tok1 : ProtoToken),
    AppliedInOrder opts tok tok1 ↔ applyOpts opts tok = .ok tok1
  | [], tok, tok1 => by
    constructor
    · intro h
      cases h
      rfl
    · intro h
      simp only [applyOpts, Res.ok.injEq] at h
      subst h
      exact AppliedInOrder.nil tok
  | opt :: opts, tok, tok1 => by
    constructor
    · intro h
      cases h with
      | cons _ _ _ tok2 _ h1 h2 =>
        rw [applyOpts, h1]
        exact (appliedInOrder_iff opts tok2 tok1).mp h2
    · intro h
      rw [applyOpts] at h
      rcases res_cases (opt tok) with ⟨tok2, h2⟩ | ⟨e, h2⟩ | ⟨m, h2⟩
      · simp only [h2] at h
        exact AppliedInOrder.cons opt opts tok tok2 tok1 h2
          ((appliedInOrder_iff opts tok2 tok1).mpr h)
      · simp [h2] at h
      · simp [h2] at h

/-- An option with an argument it does not accept returns an error on every credential. -/
theorem builtinOpt_invalid_error (s : BuiltinOpt) (pt : ProtoToken) (h : s.valid = false) :
    ∃ e, s.opt pt = .error e := by
  rw [builtinOpt_run]
  simp [h]

/-- A list of options none of which panics, one of them a built-in option with an argument it
does not accept, makes the loop of `New` return an error. -/
theorem applyOpts_error_of_invalid (bad : BuiltinOpt) (hbad : bad.valid = false) :
    ∀ (opts : List TokenOpt) (tok : ProtoToken), bad.opt ∈ opts →
      (∀ opt ∈ opts, ∀ pt msg, opt pt ≠ .panic msg) → ∃ e, applyOpts opts tok = .error e
  | [], _, hmem, _ => by simp at hmem
  | o :: opts, tok, hmem, hnp => by
    rw [applyOpts]
    rcases res_cases (o tok) with ⟨tok1, h⟩ | ⟨e, h⟩ | ⟨m, h⟩
    · simp only [h]
      rcases List.mem_cons.mp hmem with h1 | h1
      · obtain ⟨e, he⟩ := builtinOpt_invalid_error bad tok hbad
        rw [h1, h] at he
        cases he
      · exact applyOpts_error_of_invalid bad hbad opts tok1 h1
          (fun opt hopt => hnp opt (List.mem_cons_of_mem _ hopt))
    · exact ⟨e, by simp [h]⟩
    · exact absurd h (hnp o (List.mem_cons_self _ _) tok m)

/-- The id after options for pairwise different fields have set theirs. -/
theorem foldl_set_id (specs : List BuiltinOpt) (tok : ProtoToken)
    (hn : (specs.map BuiltinOpt.field).Nodup) :
    (∀ v, BuiltinOpt.id v ∈ specs → (specs.foldl (fun t s => s.set t) tok).Id = v)
      ∧ ((∀ v, BuiltinOpt.id v ∉ specs) → (specs.foldl (fun t s => s.set t) tok).Id = tok.Id) := by
  obtain ⟨h1, h2⟩ := foldl_set_get Field.id ProtoToken.Id
    (fun s => match s with
      | .id v => v
      | _ => [])
    (by intro s pt h; cases s <;> first | rfl | cases h)
    (by intro s pt h; cases s <;> first | rfl | exact absurd rfl h) specs tok hn
  refine ⟨fun v hv => h1 _ hv rfl, fun hnone => h2 ?_⟩
  intro s hs hf
  cases s with
  | id v => exact hnone v hs
  | sid v => cases hf
  | vendor v => cases hf
  | usages v => cases hf

/-- The sid after options for pairwise different fields have set theirs. -/
theorem foldl_set_sid (specs : List BuiltinOpt) (tok : ProtoToken)
    (hn : (specs.map BuiltinOpt.field).Nodup) :
    (∀ v, BuiltinOpt.sid v ∈ specs → (specs.foldl (fun t s => s.set t) tok).Sid = v)
      ∧ ((∀ v, BuiltinOpt.sid v ∉ specs) → (specs.foldl (fun t s => s.set t) tok).Sid = tok.Sid) := by
  obtain ⟨h1, h2⟩ := foldl_set_get Field.sid ProtoToken.Sid
    (fun s => match s with
      | .sid v => v
      | _ => [])
    (by intro s pt h; cases s <;> first | rfl | cases h)
    (by intro s pt h; cases s <;> first | rfl | exact absurd rfl h) specs tok hn
  refine ⟨fun v hv => h1 _ hv rfl, fun hnone => h2 ?_⟩
  intro s hs hf
  cases s with
  | id v => cases hf
  | sid v => exact hnone v hs
  | vendor v => cases hf
  | usages v => cases hf

/-- The vendor data after options for pairwise different fields have set theirs. -/
theorem foldl_set_vendor (specs : List BuiltinOpt) (tok : ProtoToken)
    (hn : (specs.map BuiltinOpt.field).Nodup) :
    (∀ v, BuiltinOpt.vendor v ∈ specs → (specs.foldl (fun t s => s.set t) tok).Vendor = v)
      ∧ ((∀ v, BuiltinOpt.vendor v ∉ specs) →
        (specs.foldl (fun t s => s.set t) tok).Vendor = tok.Vendor) := by
  obtain ⟨h1, h2⟩ := foldl_set_get Field.vendor ProtoToken.Vendor
    (fun s => match s with
      | .vendor v => v
      | _ => none)
    (by intro s pt h; cases s <;> first | rfl | cases h)
    (by intro s pt h; cases s <;> first | rfl | exact absurd rfl h) specs tok hn
  refine ⟨fun v hv => h1 _ hv rfl, fun hnone => h2 ?_⟩
  intro s hs hf
  cases s with
  | id v => cases hf
  | sid v => cases hf
  | vendor v => exact hnone v hs
  | usages v => cases hf

/-- The usages after options for pairwise different fields have set theirs. -/
theorem foldl_set_usages (specs : List BuiltinOpt) (tok : ProtoToken)
    (hn : (specs.map BuiltinOpt.field).Nodup) :
    (∀ v, BuiltinOpt.usages v ∈ specs → (specs.foldl (fun t s => s.set t) tok).Usages = some v)
      ∧ ((∀ v, BuiltinOpt.usages v ∉ specs) →
        (specs.foldl (fun t s => s.set t) tok).Usages = tok.Usages) := by
  obtain ⟨h1, h2⟩ := foldl_set_get Field.usages ProtoToken.Usages
    (fun s => match s with
      | .usages v => some v
      | _ => none)
    (by intro s pt h; cases s <;> first | rfl | cases h)
    (by intro s pt h; cases s <;> first | rfl | exact absurd rfl h) specs tok hn
  refine ⟨fun v hv => h1 _ hv rfl, fun hnone => h2 ?_⟩
  intro s hs hf
  cases s with
  | id v => cases hf
  | sid v => cases hf
  | vendor v => cases hf
  | usages v => exact hnone v hs

/-- The validity window after built-in options have set their fields. -/
theorem foldl_set_timestamps : ∀ (specs : List BuiltinOpt) (tok : ProtoToken),
    (specs.foldl (fun t s => s.set t) tok).Timestamps = tok.Timestamps
  | [], _ => rfl
  | s :: specs, tok => by
    rw [List.foldl_cons, foldl_set_timestamps specs (s.set tok), builtinOpt_set_timestamps]

/-- A successful run of `New` on built-in options, read backwards: the duration is not zero, the
arguments are accepted, the options set pairwise different fields, and the credential is the
initial one with these fields set, its id replaced by a generated one if it is still empty. -/
theorem new_builtin_ok_inv (now : Time) (ksuid : Bytes) (duration : Int)
    (specs : List BuiltinOpt) (w w1 : World) (C : ProtoToken)
    (hnew : New now ksuid duration (specs.map BuiltinOpt.opt) w = (.ok C, w1)) :
    duration ≠ 0 ∧ (∀ s ∈ specs, s.valid = true) ∧ (specs.map BuiltinOpt.field).Nodup
      ∧ (.ok C, w1) =
        (if (specs.foldl (fun t s => s.set t) (initialToken now duration)).GetId.length = 0 then
          ((.ok { specs.foldl (fun t s => s.set t) (initialToken now duration) with Id := ksuid },
            (w.record .TimeNow).record .KsuidNew) : Res ProtoToken × World)
        else (.ok (specs.foldl (fun t s => s.set t) (initialToken now duration)),
          w.record .TimeNow)) := by
  have hd : duration ≠ 0 := by
    intro h0
    rw [h0, new_of_zero] at hnew
    cases hnew
  rcases res_cases (applyOpts (specs.map BuiltinOpt.opt) (initialToken now duration)) with
    ⟨tok, h⟩ | ⟨e, h⟩ | ⟨m, h⟩
  · obtain ⟨hv, hn, _, hf⟩ := (applyOpts_builtin_ok_iff specs _ tok).mp h
    rw [new_of_ok now ksuid duration _ w tok hd h] at hnew
    subst hf
    exact ⟨hd, hv, hn, hnew.symm⟩
  · rw [new_of_error now ksuid duration _ w e hd h] at hnew
    cases hnew
  · rw [new_of_panic now ksuid duration _ w m hd h] at hnew
    cases hnew

/-! ## The validation pipeline -/

namespace ed25519url

open proto

/-- What `verify` returns for a seed of the right size. -/
theorem verify_of_seed (ed : Ed25519) (skm : Manager) (sig data : Bytes) (w : World)
    (hseed : (skm.keyDataFunc w.keyCalls).length = SeedSize) :
    skm.verify ed sig data w =
      (if ed.Verify (skm.keyDataFunc w.keyCalls) data sig then Res.ok ()
        else Res.error (.sentinel .ErrTamper),
        { keyCalls := w.keyCalls + 1, log := w.log ++ [Call.KeyData, Call.Ed25519Verify] }) := by
  unfold Manager.verify Manager.keyData World.record
  simp only [hseed, ne_eq, not_true_eq_false, if_false]
  split <;> simp

/-- The decoder of `ProtoToken` does not panic, and its errors wrap no sentinel. -/
theorem unmarshalProtoToken_cases (b : Bytes) :
    (∃ tok, UnmarshalProtoToken b = .ok tok) ∨ (∃ msg, UnmarshalProtoToken b = .error (.lib msg)) := by
  unfold UnmarshalProtoToken
  split
  · exact Or.inl ⟨_, rfl⟩
  · exact Or.inr ⟨_, rfl⟩

/-- The run of `Validate` when the payload does not deserialize. -/
theorem validate_of_unmarshal_error (ed : Ed25519) (skm : Manager) (now : Time) (st : SignedToken)
    (w : World) (err : GoError) (h : UnmarshalProtoToken st.GetPrototoken = .error err) :
    skm.Validate ed now st w =
      (.error (.wrap2 (.sentinel .ErrUnmarshal) err),
        { keyCalls := w.keyCalls, log := w.log ++ [Call.TimeNow, Call.ProtoUnmarshal] }) := by
  simp [Manager.Validate, h, World.record]

/-- The run of `Validate` when the payload deserializes and the seed has the right size. -/
theorem validate_of_unmarshal_ok (ed : Ed25519) (skm : Manager) (now : Time) (st : SignedToken)
    (w : World) (tok : ProtoToken) (h : UnmarshalProtoToken st.GetPrototoken = .ok tok)
    (hseed : (skm.keyDataFunc w.keyCalls).length = SeedSize) :
    skm.Validate ed now st w =
      (if ed.Verify (skm.keyDataFunc w.keyCalls) st.GetPrototoken st.GetSignature then
        (if now.Before (AsTime (GetNotValidBefore tok.GetTimestamps)) then
          Res.error (.sentinel .ErrNotYetValid)
        else if now.After (AsTime (GetNotValidAfter tok.GetTimestamps)) then
          Res.error (.sentinel .ErrNoLongerValid)
        else Res.ok ())
      else Res.error (.wrap2 (.sentinel .ErrInvalidSignature) (.sentinel .ErrTamper)),
      { keyCalls := w.keyCalls + 1,
        log := w.log ++ [Call.TimeNow, Call.ProtoUnmarshal, Call.KeyData, Call.Ed25519Verify] }) := by
  have hseed1 : (skm.keyDataFunc ((w.record .TimeNow).record .ProtoUnmarshal).keyCalls).length
      = SeedSize := by simpa [World.record] using hseed
  simp only [Manager.Validate, h, verify_of_seed ed skm _ _ _ hseed1]
  by_cases hv : ed.Verify (skm.keyDataFunc w.keyCalls) st.GetPrototoken st.GetSignature = true
  · have hv1 : ed.Verify (skm.keyDataFunc ((w.record .TimeNow).record .ProtoUnmarshal).keyCalls)
        st.GetPrototoken st.GetSignature = true := by simpa [World.record] using hv
    simp only [hv, hv1, if_true]
    by_cases h1 : now.Before (AsTime (GetNotValidBefore tok.GetTimestamps)) = true
    · simp [h1, World.record]
    · by_cases h2 : now.After (AsTime (GetNotValidAfter tok.GetTimestamps)) = true
      · simp [h1, h2, World.record]
      · simp [h1, h2, World.record]
  · have hv1 : ¬ ed.Verify (skm.keyDataFunc ((w.record .TimeNow).record .ProtoUnmarshal).keyCalls)
        st.GetPrototoken st.GetSignature = true := by simpa [World.record] using hv
    simp [hv, hv1, World.record]

/-- The run of `Validate` when the payload deserializes and the seed has the wrong size. -/
theorem validate_of_bad_seed (ed : Ed25519) (skm : Manager) (now : Time) (st : SignedToken)
    (w : World) (tok : ProtoToken) (h : UnmarshalProtoToken st.GetPrototoken = .ok tok)
    (hseed : (skm.keyDataFunc w.keyCalls).length ≠ SeedSize) :
    (skm.Validate ed now st w).1 = .panic "ed25519: bad seed length" := by
  have hseed1 : (skm.keyDataFunc ((w.record .TimeNow).record .ProtoUnmarshal).keyCalls).length
      ≠ SeedSize := by simpa [World.record] using hseed
  simp [Manager.Validate, h, Manager.verify, Manager.keyData, hseed1]

/-- An error of `Validate` is one of four. -/
theorem validate_error_cases (ed : Ed25519) (skm : Manager) (now : Time) (st : SignedToken)
    (w : World) (e : GoError) (h : (skm.Validate ed now st w).1 = .error e) :
    (∃ msg, e = .wrap2 (.sentinel .ErrUnmarshal) (.lib msg))
      ∨ e = .wrap2 (.sentinel .ErrInvalidSignature) (.sentinel .ErrTamper)
      ∨ e = .sentinel .ErrNotYetValid
      ∨ e = .sentinel .ErrNoLongerValid := by
  rcases unmarshalProtoToken_cases st.GetPrototoken with ⟨tok, hU⟩ | ⟨msg, hU⟩
  · by_cases hseed : (skm.keyDataFunc w.keyCalls).length = SeedSize
    · rw [validate_of_unmarshal_ok ed skm now st w tok hU hseed] at h
      simp only at h
      split at h
      · split at h
        · right; right; left; injection h with h; exact h.symm
        · split at h
          · right; right; right; injection h with h; exact h.symm
          · cases h
      · right; left; injection h with h; exact h.symm
    · rw [validate_of_bad_seed ed skm now st w tok hU hseed] at h
      cases h
  · rw [validate_of_unmarshal_error ed skm now st w _ hU] at h
    left; exact ⟨msg, by injection h with h; exact h.symm⟩

/-- The run of `GetValidatedToken` after a successful `Validate`: the payload deserializes again,
to the same credential. -/
theorem getValidatedToken_of_validate_ok (ed : Ed25519) (skm : Manager) (now : Time)
    (token : SignedToken) (w : World) (h : (skm.Validate ed now token w).1 = .ok ()) :
    ∃ pt, UnmarshalProtoToken token.GetPrototoken = .ok pt ∧
      skm.GetValidatedToken ed now token w =
        (.ok pt, ((skm.Validate ed now token w).2).record .ProtoUnmarshal) := by
  rcases unmarshalProtoToken_cases token.GetPrototoken with ⟨tok, hU⟩ | ⟨msg, hU⟩
  · exact ⟨tok, hU, by simp [Manager.GetValidatedToken, h, hU]⟩
  · rw [validate_of_unmarshal_error ed skm now token w _ hU] at h
    cases h

/-- The run of `GetValidatedToken` after a failed `Validate`. -/
theorem getValidatedToken_of_validate_error (ed : Ed25519) (skm : Manager) (now : Time)
    (token : SignedToken) (w : World) (e : GoError)
    (h : (skm.Validate ed now token w).1 = .error e) :
    skm.GetValidatedToken ed now token w =
      (.error (.wrap2 (.sentinel .ErrNotValid) e), (skm.Validate ed now token w).2) := by
  simp [Manager.GetValidatedToken, h]

/-- The run of `GetValidatedToken` after a panic in `Validate`. -/
theorem getValidatedToken_of_validate_panic (ed : Ed25519) (skm : Manager) (now : Time)
    (token : SignedToken) (w : World) (msg : String)
    (h : (skm.Validate ed now token w).1 = .panic msg) :
    skm.GetValidatedToken ed now token w = (.panic msg, (skm.Validate ed now token w).2) := by
  simp [Manager.GetValidatedToken, h]

/-- The three outcomes of a `Res Unit`. -/
theorem res_unit_cases (r : Res Unit) : r = .ok () ∨ (∃ e, r = .error e) ∨ (∃ msg, r = .panic msg) := by
  cases r with
  | ok a => exact Or.inl rfl
  | error e => exact Or.inr (Or.inl ⟨e, rfl⟩)
  | panic msg => exact Or.inr (Or.inr ⟨msg, rfl⟩)

/-- Nothing is before itself. -/
theorem before_irrefl (t : Time) : t.Before t = false := by
  simp [Time.Before]

/-- The method `After` is `Before` with the arguments exchanged. -/
theorem after_eq_before (t u : Time) : t.After u = u.Before t := by
  simp only [Time.After, Time.Before, gt_iff_lt, decide_eq_decide]
  constructor
  · rintro (h | ⟨h1, h2⟩)
    · exact Or.inl h
    · exact Or.inr ⟨h1.symm, h2⟩
  · rintro (h | ⟨h1, h2⟩)
    · exact Or.inl h
    · exact Or.inr ⟨h1.symm, h2⟩

/-- The encoder of `ProtoToken` does not panic, and its errors wrap no sentinel. -/
theorem marshalProtoToken_cases (pt : ProtoToken) :
    (∃ b, MarshalProtoToken pt = .ok b) ∨ (∃ msg, MarshalProtoToken pt = .error (.lib msg)) := by
  unfold MarshalProtoToken
  split
  · exact Or.inl ⟨_, rfl⟩
  · exact Or.inr ⟨_, rfl⟩

/-- The run of `Sign` when the credential serializes and the seed has the right size. -/
theorem sign_of_marshal (ed : Ed25519) (skm : Manager) (pt : ProtoToken) (w : World) (b : Bytes)
    (hmarshal : MarshalProtoToken pt = .ok b)
    (hseed : (skm.keyDataFunc w.keyCalls).length = SeedSize) :
    skm.Sign ed pt w =
      (.ok { Signature := ed.Sign (skm.keyDataFunc w.keyCalls) b, Prototoken := b },
        { keyCalls := w.keyCalls + 1,
          log := w.log ++ [Call.ProtoMarshal, Call.KeyData, Call.Ed25519Sign] }) := by
  have hseed1 : (skm.keyDataFunc (w.record .ProtoMarshal).keyCalls).length = SeedSize := by
    simpa [World.record] using hseed
  simp [Manager.Sign, hmarshal, Manager.sign, Manager.keyData, hseed1, hseed, World.record]

/-- An envelope returned by `Sign` holds the serialized credential and its signature. -/
theorem sign_ok_inv (ed : Ed25519) (skm : Manager) (pt : ProtoToken) (w : World) (st : SignedToken)
    (hseed : (skm.keyDataFunc w.keyCalls).length = SeedSize)
    (hsign : (skm.Sign ed pt w).1 = .ok st) :
    ∃ b, MarshalProtoToken pt = .ok b
      ∧ st = { Signature := ed.Sign (skm.keyDataFunc w.keyCalls) b, Prototoken := b } := by
  rcases marshalProtoToken_cases pt with ⟨b, hb⟩ | ⟨msg, hmsg⟩
  · refine ⟨b, hb, ?_⟩
    rw [sign_of_marshal ed skm pt w b hb hseed] at hsign
    simp only [Res.ok.injEq] at hsign
    exact hsign.symm
  · simp [Manager.Sign, hmsg] at hsign

/-- The getters do not tell a credential from its canonical form. -/
theorem canonical_getters (x : ProtoToken) :
    x.canonical.GetId = x.GetId ∧ x.canonical.GetSid = x.GetSid
      ∧ x.canonical.GetVendor = x.GetVendor ∧ x.canonical.GetUsages = x.GetUsages
      ∧ x.canonical.GetTimestamps = x.GetTimestamps := by
  refine ⟨rfl, rfl, ?_, ?_, rfl⟩
  · simp only [ProtoToken.canonical, ProtoToken.GetVendor]
    by_cases h : (x.Vendor.getD []).length = 0
    · simp [h, List.length_eq_zero.mp h]
    · simp [h]
  · simp only [ProtoToken.canonical, ProtoToken.GetUsages]
    by_cases h : (x.Usages.getD []).length = 0
    · simp [h, List.length_eq_zero.mp h]
    · simp [h]

/-- The round trip of a credential that is a Go value and whose id and sid are valid UTF-8,
under a key accessor that returns the same 32-byte key on each call and at a time inside the
validity window: `Sign`, `Encode`, `Decode` and `GetValidatedToken` succeed in turn and give back
the fields of the credential. -/
theorem roundtrip_of_typed (ed : Ed25519) (skm : Manager) (key : Bytes) (C : ProtoToken)
    (now : Time) (w w1 w2 w3 : World)
    (htyped : C.typed = true)
    (hutf8 : utf8Valid C.Id = true ∧ utf8Valid C.Sid = true)
    (hkey : ∀ n, skm.keyDataFunc n = key) (hseed : key.length = SeedSize)
    (hed : ∀ msg, ed.Verify key msg (ed.Sign key msg) = true)
    (hsize : ∀ st, (skm.Sign ed C w).1 = .ok st →
      st.Signature.length < 9223372036854775808 ∧ st.Prototoken.length < 9223372036854775808)
    (hwindow : now.Before (AsTime (GetNotValidBefore C.GetTimestamps)) = false
      ∧ now.After (AsTime (GetNotValidAfter C.GetTimestamps)) = false) :
    ∃ st s, (skm.Sign ed C w).1 = .ok st
      ∧ (skm.Encode st w1).1 = .ok s
      ∧ (skm.Decode s w2).1 = .ok st
      ∧ ∃ C1, (skm.GetValidatedToken ed now st w3).1 = .ok C1
        ∧ C1.GetId = C.GetId ∧ C1.GetSid = C.GetSid ∧ C1.GetVendor = C.GetVendor
        ∧ C1.GetUsages = C.GetUsages ∧ C1.GetTimestamps = C.GetTimestamps := by
  have hseed0 : (skm.keyDataFunc w.keyCalls).length = SeedSize := by rw [hkey]; exact hseed
  have hseed3 : (skm.keyDataFunc w3.keyCalls).length = SeedSize := by rw [hkey]; exact hseed
  have hM : ∃ b, MarshalProtoToken C = .ok b := by
    rcases marshalProtoToken_cases C with h | ⟨msg, h⟩
    · exact h
    · simp [MarshalProtoToken, hutf8.1, hutf8.2] at h
  obtain ⟨b, hb⟩ := hM
  have hS := sign_of_marshal ed skm C w b hb hseed0
  rw [hkey] at hS
  have hsz := hsize _ (by rw [hS])
  simp only at hsz
  obtain ⟨b1, hM1, hU1⟩ := unmarshal_marshalSignedToken
    { Signature := ed.Sign key b, Prototoken := b } hsz.1 hsz.2
  have hE : (skm.Encode { Signature := ed.Sign key b, Prototoken := b } w1).1
      = .ok (Base64.EncodeToString b1) := by
    simp [Manager.Encode, hM1]
  have hD : (skm.Decode (Base64.EncodeToString b1) w2).1
      = .ok { Signature := ed.Sign key b, Prototoken := b } := by
    simp [Manager.Decode, Base64.decodeString_encodeToString, hU1]
  have hU : UnmarshalProtoToken b = .ok C.canonical :=
    unmarshal_marshalProtoToken C b htyped hb hsz.2
  have hV := validate_of_unmarshal_ok ed skm now
    { Signature := ed.Sign key b, Prototoken := b } w3 C.canonical hU hseed3
  have hg := canonical_getters C
  rw [hkey] at hV
  simp only [SignedToken.GetPrototoken, SignedToken.GetSignature, hed b, if_true, hg.2.2.2.2,
    hwindow.1, hwindow.2, Bool.false_eq_true, if_false] at hV
  obtain ⟨pt, hpt, hG⟩ := getValidatedToken_of_validate_ok ed skm now
    { Signature := ed.Sign key b, Prototoken := b } w3 (by rw [hV])
  have hpt1 : pt = C.canonical := by
    simp only [SignedToken.GetPrototoken] at hpt
    rw [hU] at hpt
    simp only [Res.ok.injEq] at hpt
    exact hpt.symm
  subst hpt1
  exact ⟨_, _, by rw [hS], hE, hD, C.canonical, by rw [hG], hg⟩

/-! ## C1 -/

/-- C1: for every signed envelope whose payload deserializes but whose signature does not verify
over the payload bytes under the key the accessor returns, `Validate` fails with the error
`ErrInvalidSignature` wrapping `ErrTamper`, which matches both and neither `ErrNotYetValid` nor
`ErrNoLongerValid`, whatever the deserialized credential and the current time; the payload was
deserialized, the key fetched and the signature checked over the raw payload bytes, in this
order. -/
theorem validate_rejects_bad_signature (ed : Ed25519) (skm : Manager) (now : Time)
    (st : SignedToken) (w : World) (tok : ProtoToken)
    (hpayload : UnmarshalProtoToken st.GetPrototoken = .ok tok)
    (hseed : (skm.keyDataFunc w.keyCalls).length = SeedSize)
    (hsig : ed.Verify (skm.keyDataFunc w.keyCalls) st.GetPrototoken st.GetSignature = false) :
    ∃ e, (skm.Validate ed now st w).1 = .error e
      ∧ e = .wrap2 (.sentinel .ErrInvalidSignature) (.sentinel .ErrTamper)
      ∧ e.Is .ErrInvalidSignature = true ∧ e.Is .ErrTamper = true
      ∧ e.Is .ErrNotYetValid = false ∧ e.Is .ErrNoLongerValid = false
      ∧ (skm.Validate ed now st w).2.log
        = w.log ++ [Call.TimeNow, Call.ProtoUnmarshal, Call.KeyData, Call.Ed25519Verify] := by
  refine ⟨.wrap2 (.sentinel .ErrInvalidSignature) (.sentinel .ErrTamper), ?_, rfl, rfl, rfl, rfl,
    rfl, ?_⟩
  · rw [validate_of_unmarshal_ok ed skm now st w tok hpayload hseed]
    simp [hsig]
  · rw [validate_of_unmarshal_ok ed skm now st w tok hpayload hseed]

/-- C1 at an envelope with an empty signature over the payload `payloadA`. -/
theorem validate_rejects_bad_signature_witness :
    UnmarshalProtoToken unsignedA.GetPrototoken = .ok { ProtoToken.zero with Id := [97] }
    ∧ (zeroManager.keyDataFunc World.init.keyCalls).length = SeedSize
    ∧ toyEd25519.Verify (zeroManager.keyDataFunc World.init.keyCalls) unsignedA.GetPrototoken
        unsignedA.GetSignature = false
    ∧ ∃ e, (zeroManager.Validate toyEd25519 clock0 unsignedA World.init).1 = .error e
      ∧ e = .wrap2 (.sentinel .ErrInvalidSignature) (.sentinel .ErrTamper)
      ∧ e.Is .ErrInvalidSignature = true ∧ e.Is .ErrTamper = true
      ∧ e.Is .ErrNotYetValid = false ∧ e.Is .ErrNoLongerValid = false
      ∧ (zeroManager.Validate toyEd25519 clock0 unsignedA World.init).2.log
        = World.init.log ++ [Call.TimeNow, Call.ProtoUnmarshal, Call.KeyData, Call.Ed25519Verify] :=
  ⟨by decide, by decide, by decide,
    validate_rejects_bad_signature toyEd25519 zeroManager clock0 unsignedA World.init
      { ProtoToken.zero with Id := [97] } (by decide) (by decide) (by decide)⟩

/-! ## C2 -/

/-- C2 as stated fails: `credB` is a credential as `New` returns it and `signedB` the envelope
`Sign` makes for it, under a signature scheme in which a signature verifies over no other bytes.
Changing the one byte at index 1 of the payload (the length of the id, from 1 to 127) makes
`Validate` fail with `ErrUnmarshal`, an error that matches neither `ErrInvalidSignature` nor
`ErrTamper`: the changed payload no longer deserializes, and `Validate` deserializes first. -/
theorem tampered_length_is_unmarshal_error :
    (Prototokens.New clock0 [107] oneHour [WithID [97], WithUsages [1]] World.init).1 = .ok credB
    ∧ (zeroManager.Sign toyEd25519 credB World.init).1 = .ok signedB
    ∧ (∀ msg, toyEd25519.Verify (zeroKey 0) msg signedB.Signature = true → msg = signedB.Prototoken)
    ∧ signedB.Prototoken[1]? = some 1
    ∧ (zeroManager.Validate toyEd25519 clock0
        { Signature := signedB.Signature, Prototoken := signedB.Prototoken.set 1 127 }
        World.init).1
      = .error (.wrap2 (.sentinel .ErrUnmarshal)
          (.lib "proto: cannot parse invalid wire-format data"))
    ∧ (GoError.wrap2 (.sentinel .ErrUnmarshal)
        (.lib "proto: cannot parse invalid wire-format data")).Is .ErrInvalidSignature = false
    ∧ (GoError.wrap2 (.sentinel .ErrUnmarshal)
        (.lib "proto: cannot parse invalid wire-format data")).Is .ErrTamper = false := by
  refine ⟨by decide, by decide, ?_, by decide, by decide, by decide, by decide⟩
  intro msg hmsg
  simp only [toyEd25519, signedB, decide_eq_true_eq] at hmsg
  exact (List.append_cancel_left hmsg).symm

/-- C2, amended: for every envelope `Sign` returns (the key accessor returning the same 32-byte
key on every call, and a signature verifying only over the bytes it was made for) and every
payload obtained by changing one byte of the envelope's payload, `Validate` of the changed payload
under the original signature never succeeds and never reports a time error: it fails with
`ErrUnmarshal` when the changed payload does not deserialize, and otherwise with
`ErrInvalidSignature` wrapping `ErrTamper`. -/
theorem tampered_payload_rejected (ed : Ed25519) (skm : Manager) (key : Bytes) (pt : ProtoToken)
    (st : SignedToken) (now : Time) (w w1 : World) (i : Nat) (b : Byte)
    (hkey : ∀ n, skm.keyDataFunc n = key) (hseed : key.length = SeedSize)
    (hbind : ∀ msg msg1, ed.Verify key msg1 (ed.Sign key msg) = true → msg1 = msg)
    (hsign : (skm.Sign ed pt w).1 = .ok st)
    (hi : i < st.Prototoken.length) (hb : st.Prototoken[i] ≠ b) :
    ((∃ tok, UnmarshalProtoToken (st.Prototoken.set i b) = .ok tok) →
        (skm.Validate ed now { Signature := st.Signature, Prototoken := st.Prototoken.set i b }
          w1).1 = .error (.wrap2 (.sentinel .ErrInvalidSignature) (.sentinel .ErrTamper)))
      ∧ (∀ err, UnmarshalProtoToken (st.Prototoken.set i b) = .error err →
        (skm.Validate ed now { Signature := st.Signature, Prototoken := st.Prototoken.set i b }
          w1).1 = .error (.wrap2 (.sentinel .ErrUnmarshal) err))
      ∧ (skm.Validate ed now { Signature := st.Signature, Prototoken := st.Prototoken.set i b }
          w1).1 ≠ .ok ()
      ∧ (skm.Validate ed now { Signature := st.Signature, Prototoken := st.Prototoken.set i b }
          w1).1 ≠ .error (.sentinel .ErrNotYetValid)
      ∧ (skm.Validate ed now { Signature := st.Signature, Prototoken := st.Prototoken.set i b }
          w1).1 ≠ .error (.sentinel .ErrNoLongerValid) := by
  have hseed0 : (skm.keyDataFunc w.keyCalls).length = SeedSize := by rw [hkey]; exact hseed
  have hseed1 : (skm.keyDataFunc w1.keyCalls).length = SeedSize := by rw [hkey]; exact hseed
  obtain ⟨b0, _, hst⟩ := sign_ok_inv ed skm pt w st hseed0 hsign
  rw [hkey] at hst
  have hne : st.Prototoken.set i b ≠ st.Prototoken := by
    intro h
    have h1 : (st.Prototoken.set i b)[i]? = some b := by simp [hi]
    rw [h] at h1
    simp only [List.getElem?_eq_getElem hi, Option.some.injEq] at h1
    exact hb h1
  have hver : ed.Verify (skm.keyDataFunc w1.keyCalls)
      (SignedToken.GetPrototoken
        { Signature := st.Signature, Prototoken := st.Prototoken.set i b })
      (SignedToken.GetSignature
        { Signature := st.Signature, Prototoken := st.Prototoken.set i b }) = false := by
    rw [hkey]
    simp only [SignedToken.GetPrototoken, SignedToken.GetSignature]
    cases hv : ed.Verify key (st.Prototoken.set i b) st.Signature with
    | false => rfl
    | true =>
      exfalso
      apply hne
      have hsig : st.Signature = ed.Sign key b0 := by rw [hst]
      have hpay : st.Prototoken = b0 := by rw [hst]
      rw [hsig] at hv
      rw [hbind b0 _ hv, hpay]
  rcases unmarshalProtoToken_cases (st.Prototoken.set i b) with ⟨tok, hU⟩ | ⟨msg, hU⟩
  · have hV := validate_of_unmarshal_ok ed skm now
      { Signature := st.Signature, Prototoken := st.Prototoken.set i b } w1 tok hU hseed1
    rw [hver] at hV
    simp only [Bool.false_eq_true, if_false] at hV
    rw [hV]
    refine ⟨fun _ => rfl, ?_, by simp, by simp, by simp⟩
    intro err herr
    rw [hU] at herr; cases herr
  · have hV := validate_of_unmarshal_error ed skm now
      { Signature := st.Signature, Prototoken := st.Prototoken.set i b } w1 _ hU
    rw [hV]
    refine ⟨?_, ?_, by simp, by simp, by simp⟩
    · rintro ⟨tok, htok⟩
      rw [hU] at htok; cases htok
    · intro err herr
      rw [hU] at herr
      simp only [Res.error.injEq] at herr
      rw [herr]

/-- C2, amended, at the envelope `signedB` with the last byte of its payload changed from 5 to 6
(the nanoseconds of not-valid-after): the changed payload deserializes and the signature is
reported invalid. -/
theorem tampered_payload_rejected_witness :
    (∀ n, zeroManager.keyDataFunc n = List.replicate 32 0)
    ∧ (List.replicate 32 (0 : Byte)).length = SeedSize
    ∧ (zeroManager.Sign toyEd25519 credB World.init).1 = .ok signedB
    ∧ (zeroManager.Validate toyEd25519 clock0
        { Signature := signedB.Signature, Prototoken := signedB.Prototoken.set 27 6 }
        World.init).1
      = .error (.wrap2 (.sentinel .ErrInvalidSignature) (.sentinel .ErrTamper)) :=
  ⟨fun _ => rfl, by decide, by decide,
    (tampered_payload_rejected toyEd25519 zeroManager (List.replicate 32 0) credB signedB clock0
      World.init World.init 27 6 (fun _ => rfl) (by decide)
      (fun msg msg1 h => by
        simp only [toyEd25519, decide_eq_true_eq] at h
        exact (List.append_cancel_left h).symm)
      (by decide) (by decide) (by decide)).1
      ⟨{ credB with
          Timestamps := some
            { NotValidBefore := some { Seconds := 1700000000, Nanos := 5 }
              NotValidAfter := some { Seconds := 1700003600, Nanos := 6 } } }, by decide⟩⟩

/-! ## C3 -/

/-- C3: for every envelope whose payload deserializes to a credential with window `(nvb, nva)`
and whose signature verifies over the payload bytes, `Validate` at time `now` returns
`ErrNotYetValid` if `now` is before `nvb`, otherwise `ErrNoLongerValid` if `now` is after `nva`,
otherwise it succeeds. In a window that is not empty both bounds are accepted; in an empty window
a time before `nvb` is reported as not yet valid. -/
theorem validate_window (ed : Ed25519) (skm : Manager) (now : Time) (st : SignedToken)
    (w : World) (tok : ProtoToken)
    (hpayload : UnmarshalProtoToken st.GetPrototoken = .ok tok)
    (hseed : (skm.keyDataFunc w.keyCalls).length = SeedSize)
    (hsig : ed.Verify (skm.keyDataFunc w.keyCalls) st.GetPrototoken st.GetSignature = true) :
    (skm.Validate ed now st w).1 =
        (if now.Before (AsTime (GetNotValidBefore tok.GetTimestamps)) then
          Res.error (.sentinel .ErrNotYetValid)
        else if now.After (AsTime (GetNotValidAfter tok.GetTimestamps)) then
          Res.error (.sentinel .ErrNoLongerValid)
        else Res.ok ())
      ∧ (now = AsTime (GetNotValidBefore tok.GetTimestamps) →
          (AsTime (GetNotValidAfter tok.GetTimestamps)).Before
            (AsTime (GetNotValidBefore tok.GetTimestamps)) = false →
          (skm.Validate ed now st w).1 = .ok ())
      ∧ (now = AsTime (GetNotValidAfter tok.GetTimestamps) →
          (AsTime (GetNotValidAfter tok.GetTimestamps)).Before
            (AsTime (GetNotValidBefore tok.GetTimestamps)) = false →
          (skm.Validate ed now st w).1 = .ok ())
      ∧ ((AsTime (GetNotValidAfter tok.GetTimestamps)).Before
            (AsTime (GetNotValidBefore tok.GetTimestamps)) = true →
          now.Before (AsTime (GetNotValidBefore tok.GetTimestamps)) = true →
          (skm.Validate ed now st w).1 = .error (.sentinel .ErrNotYetValid)) := by
  rw [validate_of_unmarshal_ok ed skm now st w tok hpayload hseed]
  simp only [hsig, if_true]
  refine ⟨trivial, ?_, ?_, ?_⟩
  · intro hnow hwin
    subst hnow
    simp [before_irrefl, after_eq_before, hwin]
  · intro hnow hwin
    subst hnow
    simp [before_irrefl, after_eq_before, hwin]
  · intro _ hnow
    simp [hnow]

/-- C3 at the envelope `signedB`, validated at the first instant of its window. -/
theorem validate_window_witness :
    UnmarshalProtoToken signedB.GetPrototoken = .ok credB
    ∧ (zeroManager.keyDataFunc World.init.keyCalls).length = SeedSize
    ∧ toyEd25519.Verify (zeroManager.keyDataFunc World.init.keyCalls) signedB.GetPrototoken
        signedB.GetSignature = true
    ∧ (zeroManager.Validate toyEd25519 clock0 signedB World.init).1 = .ok () :=
  ⟨by decide, by decide, by decide,
    (validate_window toyEd25519 zeroManager clock0 signedB World.init credB
      (by decide) (by decide) (by decide)).2.1 (by decide) (by decide)⟩

/-! ## C4 -/

/-- C4: `GetValidatedToken` returns a credential exactly when `Validate` succeeds on the
envelope; the credential is then the deserialization of the envelope's payload bytes, and when
`Validate` fails (or panics) `GetValidatedToken` fails (or panics) with no credential. -/
theorem getValidatedToken_iff_validate (ed : Ed25519) (skm : Manager) (now : Time)
    (token : SignedToken) (w : World) :
    ((∃ pt, (skm.GetValidatedToken ed now token w).1 = .ok pt)
        ↔ (skm.Validate ed now token w).1 = .ok ())
      ∧ (∀ pt, (skm.GetValidatedToken ed now token w).1 = .ok pt →
          UnmarshalProtoToken token.GetPrototoken = .ok pt)
      ∧ ((skm.Validate ed now token w).1 = .ok () →
          ∃ pt, UnmarshalProtoToken token.GetPrototoken = .ok pt
            ∧ (skm.GetValidatedToken ed now token w).1 = .ok pt)
      ∧ (∀ e, (skm.Validate ed now token w).1 = .error e →
          (skm.GetValidatedToken ed now token w).1 = .error (.wrap2 (.sentinel .ErrNotValid) e)) := by
  rcases res_unit_cases (skm.Validate ed now token w).1 with h | ⟨e, h⟩ | ⟨msg, h⟩
  · obtain ⟨pt, hU, hG⟩ := getValidatedToken_of_validate_ok ed skm now token w h
    refine ⟨⟨fun _ => h, fun _ => ⟨pt, by rw [hG]⟩⟩, ?_, fun _ => ⟨pt, hU, by rw [hG]⟩, ?_⟩
    · intro pt1 h1
      rw [hG] at h1
      simp only [Res.ok.injEq] at h1
      rw [← h1]; exact hU
    · intro e he
      rw [h] at he; cases he
  · have hG := getValidatedToken_of_validate_error ed skm now token w e h
    refine ⟨⟨?_, ?_⟩, ?_, ?_, ?_⟩
    · rintro ⟨pt, hpt⟩
      rw [hG] at hpt; cases hpt
    · intro h1
      rw [h] at h1; cases h1
    · intro pt hpt
      rw [hG] at hpt; cases hpt
    · intro h1
      rw [h] at h1; cases h1
    · intro e1 he1
      rw [h] at he1
      simp only [Res.error.injEq] at he1
      rw [hG, he1]
  · have hG := getValidatedToken_of_validate_panic ed skm now token w msg h
    refine ⟨⟨?_, ?_⟩, ?_, ?_, ?_⟩
    · rintro ⟨pt, hpt⟩
      rw [hG] at hpt; cases hpt
    · intro h1
      rw [h] at h1; cases h1
    · intro pt hpt
      rw [hG] at hpt; cases hpt
    · intro h1
      rw [h] at h1; cases h1
    · intro e1 he1
      rw [h] at he1; cases he1

/-- C4 at the envelope `signedB`: `Validate` succeeds and `GetValidatedToken` returns `credB`,
the deserialization of the payload. -/
theorem getValidatedToken_iff_validate_witness :
    (zeroManager.Validate toyEd25519 clock0 signedB World.init).1 = .ok ()
    ∧ ∃ pt, UnmarshalProtoToken signedB.GetPrototoken = .ok pt
      ∧ (zeroManager.GetValidatedToken toyEd25519 clock0 signedB World.init).1 = .ok pt :=
  ⟨by decide,
    (getValidatedToken_iff_validate toyEd25519 zeroManager clock0 signedB World.init).2.2.1
      (by decide)⟩

/-! ## C5 -/

/-- C5: for every envelope on which `Validate` succeeds and every usage tag `usage`, `ValidFor`
succeeds exactly when `usage` occurs in the usage list of the credential deserialized from the
payload, and otherwise fails with the error `ErrNotValidForUsage` itself. -/
theorem validFor_iff_usage_listed (ed : Ed25519) (skm : Manager) (now : Time) (st : SignedToken)
    (usage : TokenUsages) (w : World) (hvalid : (skm.Validate ed now st w).1 = .ok ()) :
    ∃ tok, UnmarshalProtoToken st.GetPrototoken = .ok tok
      ∧ ((skm.ValidFor ed now st usage w).1 = .ok () ↔ usage ∈ tok.GetUsages)
      ∧ (usage ∉ tok.GetUsages →
          (skm.ValidFor ed now st usage w).1 = .error (.sentinel .ErrNotValidForUsage)) := by
  obtain ⟨tok, hU, hG⟩ := getValidatedToken_of_validate_ok ed skm now st w hvalid
  refine ⟨tok, hU, ?_, ?_⟩
  · by_cases hmem : usage ∈ tok.GetUsages
    · simp [Manager.ValidFor, hG, hmem]
    · simp [Manager.ValidFor, hG, hmem]
  · intro hmem
    simp [Manager.ValidFor, hG, hmem]

/-- C5 at the envelope `signedB`, whose credential lists the usage 1. -/
theorem validFor_iff_usage_listed_witness :
    (zeroManager.Validate toyEd25519 clock0 signedB World.init).1 = .ok ()
    ∧ ∃ tok, UnmarshalProtoToken signedB.GetPrototoken = .ok tok
      ∧ ((zeroManager.ValidFor toyEd25519 clock0 signedB 1 World.init).1 = .ok ()
          ↔ (1 : TokenUsages) ∈ tok.GetUsages)
      ∧ ((1 : TokenUsages) ∉ tok.GetUsages →
          (zeroManager.ValidFor toyEd25519 clock0 signedB 1 World.init).1
            = .error (.sentinel .ErrNotValidForUsage)) :=
  ⟨by decide, validFor_iff_usage_listed toyEd25519 zeroManager clock0 signedB 1 World.init
    (by decide)⟩

/-! ## C6 -/

/-- C6: for every envelope on which `Validate` fails with an error `e` (one of: payload does not
deserialize, signature does not verify, not yet valid, no longer valid) and every usage tag,
`GetValidatedToken` and `ValidFor` both fail with `ErrNotValid` wrapping `e`: an error that
matches `ErrNotValid` and every kind that `e` matches, and does not match
`ErrNotValidForUsage`. -/
theorem invalid_envelope_never_accepted (ed : Ed25519) (skm : Manager) (now : Time)
    (st : SignedToken) (usage : TokenUsages) (w : World) (e : GoError)
    (hinvalid : (skm.Validate ed now st w).1 = .error e) :
    (skm.GetValidatedToken ed now st w).1 = .error (.wrap2 (.sentinel .ErrNotValid) e)
      ∧ (skm.ValidFor ed now st usage w).1 = .error (.wrap2 (.sentinel .ErrNotValid) e)
      ∧ (GoError.wrap2 (.sentinel .ErrNotValid) e).Is .ErrNotValid = true
      ∧ (∀ k, e.Is k = true → (GoError.wrap2 (.sentinel .ErrNotValid) e).Is k = true)
      ∧ (GoError.wrap2 (.sentinel .ErrNotValid) e).Is .ErrNotValidForUsage = false
      ∧ ((∃ msg, e = .wrap2 (.sentinel .ErrUnmarshal) (.lib msg))
          ∨ e = .wrap2 (.sentinel .ErrInvalidSignature) (.sentinel .ErrTamper)
          ∨ e = .sentinel .ErrNotYetValid
          ∨ e = .sentinel .ErrNoLongerValid) := by
  have hG := getValidatedToken_of_validate_error ed skm now st w e hinvalid
  have hcases := validate_error_cases ed skm now st w e hinvalid
  refine ⟨by rw [hG], by simp [Manager.ValidFor, hG], by simp [GoError.Is], ?_, ?_, hcases⟩
  · intro k hk
    simp [GoError.Is, hk]
  · rcases hcases with ⟨msg, h⟩ | h | h | h <;> subst h <;> simp [GoError.Is]

/-- C6 at the envelope `unsignedB`, whose payload lists the usage 1 but whose signature is
empty. -/
theorem invalid_envelope_never_accepted_witness :
    (zeroManager.Validate toyEd25519 clock0 unsignedB World.init).1
        = .error (.wrap2 (.sentinel .ErrInvalidSignature) (.sentinel .ErrTamper))
    ∧ (zeroManager.ValidFor toyEd25519 clock0 unsignedB 1 World.init).1
        = .error (.wrap2 (.sentinel .ErrNotValid)
            (.wrap2 (.sentinel .ErrInvalidSignature) (.sentinel .ErrTamper))) :=
  ⟨by decide,
    (invalid_envelope_never_accepted toyEd25519 zeroManager clock0 unsignedB 1 World.init
      (.wrap2 (.sentinel .ErrInvalidSignature) (.sentinel .ErrTamper)) (by decide)).2.1⟩

/-! ## C7 -/

/-- C7 as stated fails: `New`, given one hour and the option `WithID` of the one-byte string
`0xff`, returns the credential `credBadId`; at a time inside its window and under a key accessor
that always returns the same 32 bytes, `Sign` of it fails with `ErrMarshal`, because the id is not
valid UTF-8 and cannot be serialized. -/
theorem sign_fails_on_invalid_utf8_id :
    (Prototokens.New clock0 [107] oneHour [WithID [255]] World.init).1 = .ok credBadId
    ∧ 0 < oneHour
    ∧ clock0.Before (AsTime (GetNotValidBefore credBadId.GetTimestamps)) = false
    ∧ clock0.After (AsTime (GetNotValidAfter credBadId.GetTimestamps)) = false
    ∧ (∀ n, zeroManager.keyDataFunc n = List.replicate 32 0)
    ∧ (zeroManager.Sign toyEd25519 credBadId World.init).1
      = .error (.wrap2 (.sentinel .ErrMarshal)
          (.lib "proto: string field contains invalid UTF-8")) :=
  ⟨by decide, by decide, by decide, by decide, fun _ => rfl, by decide⟩

/-- C7, amended: for every credential `C` returned by `New` whose id and sid are valid UTF-8,
every manager whose key accessor returns the same 32-byte key on each call, and every time inside
the validity window of `C`: `Sign` succeeds, `Encode` of the envelope succeeds, `Decode` of the
string succeeds and returns the envelope, and `GetValidatedToken` of it succeeds with a
credential equal to `C` in id, sid, vendor, usages and both timestamps. The options are Go
functions (`keepsTyped`, as the four built-in ones are), the envelope's two byte slices have
lengths a Go `int` can hold, and a signature verifies over the bytes it was made for. -/
theorem sign_encode_decode_validate (ed : Ed25519) (skm : Manager) (key : Bytes)
    (now0 : Time) (ksuid : Bytes) (duration : Int) (opts : List TokenOpt) (w0 : World)
    (C : ProtoToken) (now : Time) (w w1 w2 w3 : World)
    (hopts : ∀ opt ∈ opts, TokenOpt.keepsTyped opt)
    (hnew : (Prototokens.New now0 ksuid duration opts w0).1 = .ok C)
    (hutf8 : utf8Valid C.Id = true ∧ utf8Valid C.Sid = true)
    (hkey : ∀ n, skm.keyDataFunc n = key) (hseed : key.length = SeedSize)
    (hed : ∀ msg, ed.Verify key msg (ed.Sign key msg) = true)
    (hsize : ∀ st, (skm.Sign ed C w).1 = .ok st →
      st.Signature.length < 9223372036854775808 ∧ st.Prototoken.length < 9223372036854775808)
    (hwindow : now.Before (AsTime (GetNotValidBefore C.GetTimestamps)) = false
      ∧ now.After (AsTime (GetNotValidAfter C.GetTimestamps)) = false) :
    ∃ st s, (skm.Sign ed C w).1 = .ok st
      ∧ (skm.Encode st w1).1 = .ok s
      ∧ (skm.Decode s w2).1 = .ok st
      ∧ ∃ C1, (skm.GetValidatedToken ed now st w3).1 = .ok C1
        ∧ C1.GetId = C.GetId ∧ C1.GetSid = C.GetSid ∧ C1.GetVendor = C.GetVendor
        ∧ C1.GetUsages = C.GetUsages ∧ C1.GetTimestamps = C.GetTimestamps := by
  have htyped : C.typed = true := new_typed now0 ksuid duration opts w0 C hopts hnew
  exact roundtrip_of_typed ed skm key C now w w1 w2 w3 htyped hutf8 hkey hseed hed hsize hwindow

/-- C7, amended, at the credential `credB`, which `New` returns for the options `WithID` and
`WithUsages`, signed by `zeroManager` and validated at the first instant of its window. -/
theorem sign_encode_decode_validate_witness :
    (Prototokens.New clock0 [107] oneHour [WithID [97], WithUsages [1]] World.init).1 = .ok credB
    ∧ (utf8Valid credB.Id = true ∧ utf8Valid credB.Sid = true)
    ∧ (List.replicate 32 (0 : Byte)).length = SeedSize
    ∧ (clock0.Before (AsTime (GetNotValidBefore credB.GetTimestamps)) = false
      ∧ clock0.After (AsTime (GetNotValidAfter credB.GetTimestamps)) = false)
    ∧ ∃ st s, (zeroManager.Sign toyEd25519 credB World.init).1 = .ok st
      ∧ (zeroManager.Encode st World.init).1 = .ok s
      ∧ (zeroManager.Decode s World.init).1 = .ok st
      ∧ ∃ C1, (zeroManager.GetValidatedToken toyEd25519 clock0 st World.init).1 = .ok C1
        ∧ C1.GetId = credB.GetId ∧ C1.GetSid = credB.GetSid ∧ C1.GetVendor = credB.GetVendor
        ∧ C1.GetUsages = credB.GetUsages ∧ C1.GetTimestamps = credB.GetTimestamps :=
  ⟨by decide, by decide, by decide, by decide,
    sign_encode_decode_validate toyEd25519 zeroManager (List.replicate 32 0) clock0 [107] oneHour
      [WithID [97], WithUsages [1]] World.init credB clock0
      World.init World.init World.init World.init
      (fun opt hopt => by
        simp only [List.mem_cons, List.mem_singleton, List.not_mem_nil, or_false] at hopt
        rcases hopt with h | h
        · rw [h]; exact withID_keepsTyped _
        · rw [h]; exact withUsages_keepsTyped _ (by decide))
      (by decide) (by decide) (fun _ => rfl)
      (by decide) (fun msg => by simp [toyEd25519])
      (fun st hst => by
        have h : (zeroManager.Sign toyEd25519 credB World.init).1 = .ok signedB := by decide
        rw [h] at hst
        simp only [Res.ok.injEq] at hst
        subst hst
        decide)
      (by decide)⟩

/-! ## C8 -/

/-- C8: for every signed envelope (its two byte slices having lengths a Go `int` can hold),
`Encode` succeeds and `Decode` of the string it returns succeeds with an envelope that has the
same signature bytes and the same payload bytes. -/
theorem decode_encode_envelope (skm : Manager) (st : SignedToken) (w w1 : World)
    (hsig : st.Signature.length < 9223372036854775808)
    (hpayload : st.Prototoken.length < 9223372036854775808) :
    ∃ s, (skm.Encode st w).1 = .ok s ∧ (skm.Decode s w1).1 = .ok st := by
  obtain ⟨b, hM, hU⟩ := unmarshal_marshalSignedToken st hsig hpayload
  refine ⟨Base64.EncodeToString b, by simp [Manager.Encode, hM], ?_⟩
  simp [Manager.Decode, Base64.decodeString_encodeToString, hU]

/-- C8 at the envelope `unsignedA`, which has no signature. -/
theorem decode_encode_envelope_witness :
    unsignedA.Signature.length < 9223372036854775808
    ∧ unsignedA.Prototoken.length < 9223372036854775808
    ∧ ∃ s, (zeroManager.Encode unsignedA World.init).1 = .ok s
      ∧ (zeroManager.Decode s World.init).1 = .ok unsignedA :=
  ⟨by decide, by decide,
    decode_encode_envelope zeroManager unsignedA World.init World.init (by decide) (by decide)⟩

/-! ## C9 -/

/-- C9 as stated fails: the one-character string `\n` has a character outside the alphabet, yet
`Decode` succeeds on it and returns the empty envelope, having gone on to the structural parse. -/
theorem decode_accepts_line_break :
    (∃ c ∈ ([10] : Bytes), Base64.isAlphabet c = false)
    ∧ zeroManager.Decode [10] World.init
      = (.ok SignedToken.zero,
          { keyCalls := 0, log := [Call.Base64Decode, Call.ProtoUnmarshal] }) := by
  decide

/-- C9, amended: for every string that is not unpadded URL-safe base64 text once `\n` and `\r`
are left out (`Base64.Illegal`), `Decode` returns no envelope and the error `ErrDecode` wrapping
the decoder's error; the only outside call is the base64 decoder: no structural parse, no
signature verification, no key access. -/
theorem decode_rejects_illegal_text (skm : Manager) (s : Bytes) (w : World)
    (hillegal : Base64.Illegal s) :
    (skm.Decode s w).1 = .error (.wrap2 (.sentinel .ErrDecode) (.lib "illegal base64 data"))
      ∧ (GoError.wrap2 (.sentinel .ErrDecode) (.lib "illegal base64 data")).Is .ErrDecode = true
      ∧ (skm.Decode s w).2.log = w.log ++ [Call.Base64Decode]
      ∧ (skm.Decode s w).2.keyCalls = w.keyCalls := by
  have hnone : Base64.decodeQuantum [] s = none :=
    (Base64.decodeQuantum_eq_none_iff s [] (by simp)).mpr (by simpa [Base64.Illegal] using hillegal)
  simp [Manager.Decode, Base64.DecodeString, hnone, World.record, GoError.Is]

/-- C9, amended, at the string `QQ=`, which has a padding character. -/
theorem decode_rejects_illegal_text_witness :
    Base64.Illegal [81, 81, 61]
    ∧ (zeroManager.Decode [81, 81, 61] World.init).1
      = .error (.wrap2 (.sentinel .ErrDecode) (.lib "illegal base64 data")) :=
  ⟨by decide, (decode_rejects_illegal_text zeroManager [81, 81, 61] World.init (by decide)).1⟩

/-! ## C10 -/

/-- C10: for every envelope whose payload bytes do not deserialize, `Validate` fails with
`ErrUnmarshal` wrapping the decoder's error, whatever the signature bytes and the current time;
the key accessor is not called (the only outside calls are the clock and the decoder). -/
theorem validate_rejects_malformed_payload (ed : Ed25519) (skm : Manager) (now : Time)
    (st : SignedToken) (w : World) (err : GoError)
    (hpayload : UnmarshalProtoToken st.GetPrototoken = .error err) :
    (skm.Validate ed now st w).1 = .error (.wrap2 (.sentinel .ErrUnmarshal) err)
      ∧ (GoError.wrap2 (.sentinel .ErrUnmarshal) err).Is .ErrUnmarshal = true
      ∧ (skm.Validate ed now st w).2.keyCalls = w.keyCalls
      ∧ (skm.Validate ed now st w).2.log = w.log ++ [Call.TimeNow, Call.ProtoUnmarshal] := by
  rw [validate_of_unmarshal_error ed skm now st w err hpayload]
  exact ⟨rfl, by simp [GoError.Is], rfl, rfl⟩

/-- C10 at the payload of the test `invalid-token`, under a signature that verifies over it. -/
theorem validate_rejects_malformed_payload_witness :
    UnmarshalProtoToken
        (SignedToken.GetPrototoken
          { Signature := List.replicate 32 0 ++ payloadBrackets, Prototoken := payloadBrackets })
        = .error (.lib "proto: cannot parse invalid wire-format data")
    ∧ toyEd25519.Verify (zeroKey 0) payloadBrackets (List.replicate 32 0 ++ payloadBrackets) = true
    ∧ (zeroManager.Validate toyEd25519 clock0
        { Signature := List.replicate 32 0 ++ payloadBrackets, Prototoken := payloadBrackets }
        World.init).1
        = .error (.wrap2 (.sentinel .ErrUnmarshal)
            (.lib "proto: cannot parse invalid wire-format data")) :=
  ⟨by decide, by decide,
    (validate_rejects_malformed_payload toyEd25519 zeroManager clock0
      { Signature := List.replicate 32 0 ++ payloadBrackets, Prototoken := payloadBrackets }
      World.init _ (by decide)).1⟩

end ed25519url

/-! ## C11 -/

/-- C11 as stated fails: with the empty string as argument, `New(d, WithID(""), WithID(""))`
fails at the first option with the error `id cannot be empty`, which is not of kind
`ErrOverwrite`. -/
theorem new_empty_id_twice_not_overwrite :
    oneHour ≠ 0
    ∧ New clock0 [107] oneHour [WithID [], WithID []] World.init
      = (.error (.lib "id cannot be empty"), { keyCalls := 0, log := [Call.TimeNow] })
    ∧ (GoError.lib "id cannot be empty").Is .ErrOverwrite = false := by
  decide

/-- C11, amended: for each of the four built-in options, every argument the option accepts (a
non-empty id, a non-empty sid, a non-nil vendor slice, a non-empty usage list) and every
non-zero duration, `New` given the option twice returns no credential and the error
`ErrOverwrite` wrapped with the name of the field, whose message is
`attempted overwrite of field: ` followed by `id`, `sid`, `vendor` or `usages`. -/
theorem new_same_option_twice (now : Time) (ksuid : Bytes) (duration : Int) (w : World)
    (hd : duration ≠ 0) :
    (∀ id : Bytes, id.length ≠ 0 →
        New now ksuid duration [WithID id, WithID id] w
          = (.error (.wrap1 (.sentinel .ErrOverwrite) "id"), w.record .TimeNow))
      ∧ (∀ sid : Bytes, sid.length ≠ 0 →
        New now ksuid duration [WithSID sid, WithSID sid] w
          = (.error (.wrap1 (.sentinel .ErrOverwrite) "sid"), w.record .TimeNow))
      ∧ (∀ data : Bytes,
        New now ksuid duration [WithVendor (some data), WithVendor (some data)] w
          = (.error (.wrap1 (.sentinel .ErrOverwrite) "vendor"), w.record .TimeNow))
      ∧ (∀ usages : List TokenUsages, usages.length ≠ 0 →
        New now ksuid duration [WithUsages usages, WithUsages usages] w
          = (.error (.wrap1 (.sentinel .ErrOverwrite) "usages"), w.record .TimeNow))
      ∧ (∀ field : String, (GoError.wrap1 (.sentinel .ErrOverwrite) field).Is .ErrOverwrite = true
        ∧ (GoError.wrap1 (.sentinel .ErrOverwrite) field).Error
          = "attempted overwrite of field: " ++ field) := by
  refine ⟨?_, ?_, ?_, ?_, ?_⟩
  · intro id hid
    apply new_of_error _ _ _ _ _ _ hd
    simp [applyOpts, WithID, hid, initialToken, ProtoToken.zero, ProtoToken.GetId]
  · intro sid hsid
    apply new_of_error _ _ _ _ _ _ hd
    simp [applyOpts, WithSID, hsid, initialToken, ProtoToken.zero, ProtoToken.GetSid]
  · intro data
    apply new_of_error _ _ _ _ _ _ hd
    simp [applyOpts, WithVendor, initialToken, ProtoToken.zero]
  · intro usages husages
    apply new_of_error _ _ _ _ _ _ hd
    simp [applyOpts, WithUsages, husages, initialToken, ProtoToken.zero]
  · intro field
    refine ⟨by simp [GoError.Is], ?_⟩
    simp only [GoError.Error, Sentinel.Error]
    rw [String.append_assoc]
    rfl

/-- C11, amended, at the options of the test `TestTokenOptsOverwrite`, here with the id and sid
`a`, the vendor data `v` and the usage 1. -/
theorem new_same_option_twice_witness :
    oneHour ≠ 0
    ∧ New clock0 [107] oneHour [WithID [97], WithID [97]] World.init
      = (.error (.wrap1 (.sentinel .ErrOverwrite) "id"), World.init.record .TimeNow)
    ∧ (GoError.wrap1 (.sentinel .ErrOverwrite) "id").Error = "attempted overwrite of field: id" :=
  ⟨by decide,
    (new_same_option_twice clock0 [107] oneHour World.init (by decide)).1 [97] (by decide),
    by decide⟩

/-! ## C12 -/

/-- C12 as stated fails: the option list of a custom option that panics followed by
`WithID("")` contains `WithID("")`, yet `New` does not return an error: it panics in the first
option. -/
theorem new_panics_before_invalid_option :
    oneHour ≠ 0
    ∧ WithID [] ∈ [panicOpt, WithID []]
    ∧ New clock0 [107] oneHour [panicOpt, WithID []] World.init
      = (.panic "boom", { keyCalls := 0, log := [Call.TimeNow] }) :=
  ⟨by decide, by simp, by decide⟩

/-- C12, amended: for every non-zero duration and every option list none of whose options
panics and that contains `WithID("")`, `WithSID("")`, `WithVendor(nil)` or `WithUsages()` (a
built-in option whose argument is not `valid`), `New` returns an error and no credential, having
generated no identifier; and each of these four options returns an error on every credential,
whether or not its field is set. -/
theorem new_rejects_invalid_option (now : Time) (ksuid : Bytes) (duration : Int)
    (opts : List TokenOpt) (bad : BuiltinOpt) (w : World)
    (hd : duration ≠ 0) (hbad : bad.valid = false) (hmem : bad.opt ∈ opts)
    (hnopanic : ∀ opt ∈ opts, ∀ pt msg, opt pt ≠ .panic msg) :
    (∃ e, New now ksuid duration opts w = (.error e, w.record .TimeNow))
      ∧ (∀ pt, ∃ e, bad.opt pt = .error e)
      ∧ (bad = .id [] ∨ bad = .sid [] ∨ bad = .vendor none ∨ bad = .usages []) := by
  obtain ⟨e, he⟩ := applyOpts_error_of_invalid bad hbad opts (initialToken now duration) hmem
    hnopanic
  refine ⟨⟨e, new_of_error now ksuid duration opts w e hd he⟩,
    fun pt => builtinOpt_invalid_error bad pt hbad, ?_⟩
  cases bad with
  | id v =>
    left
    simp only [BuiltinOpt.valid, ne_eq, decide_not, Bool.not_eq_false', decide_eq_true_eq] at hbad
    rw [List.length_eq_zero.mp hbad]
  | sid v =>
    right; left
    simp only [BuiltinOpt.valid, ne_eq, decide_not, Bool.not_eq_false', decide_eq_true_eq] at hbad
    rw [List.length_eq_zero.mp hbad]
  | vendor v =>
    right; right; left
    cases v with
    | none => rfl
    | some d => simp [BuiltinOpt.valid] at hbad
  | usages v =>
    right; right; right
    simp only [BuiltinOpt.valid, ne_eq, decide_not, Bool.not_eq_false', decide_eq_true_eq] at hbad
    rw [List.length_eq_zero.mp hbad]

/-- C12, amended, at the list of a valid `WithID`, a failing custom option and `WithUsages()`
without usages. -/
theorem new_rejects_invalid_option_witness :
    oneHour ≠ 0
    ∧ (BuiltinOpt.usages []).valid = false
    ∧ (∃ e, New clock0 [107] oneHour [WithID [97], failingtokenopt, WithUsages []] World.init
        = (.error e, World.init.record .TimeNow)) :=
  ⟨by decide, by decide,
    (new_rejects_invalid_option clock0 [107] oneHour [WithID [97], failingtokenopt, WithUsages []]
      (.usages []) World.init (by decide) (by decide) (by simp [BuiltinOpt.opt])
      (by
        intro opt hopt pt msg
        simp only [List.mem_cons, List.mem_singleton, List.not_mem_nil, or_false] at hopt
        rcases hopt with h | h | h
        · rw [h]; exact builtinOpt_no_panic (.id [97]) pt msg
        · rw [h]; simp [failingtokenopt]
        · rw [h]; exact builtinOpt_no_panic (.usages []) pt msg)).1⟩

/-! ## C13 -/

/-- C13: for every non-zero duration and every option list, `New` applies the options in list
order to the credential under construction. If the options of `pre` succeed in turn and the
next option returns an error on what they built, `New` returns exactly this error and no
credential, whatever options follow (they are not applied, even one that would panic), and the
only outside call is the clock: no identifier is generated. If all the options succeed, `New`
returns what they built, with a generated id if the id is still empty. -/
theorem new_stops_at_first_failing_option (now : Time) (ksuid : Bytes) (duration : Int)
    (pre : List TokenOpt) (opt : TokenOpt) (post : List TokenOpt) (tok : ProtoToken)
    (err : GoError) (w : World)
    (hd : duration ≠ 0)
    (hpre : AppliedInOrder pre (initialToken now duration) tok)
    (hopt : opt tok = .error err) :
    New now ksuid duration (pre ++ opt :: post) w
        = (.error err, { keyCalls := w.keyCalls, log := w.log ++ [Call.TimeNow] })
      ∧ (New now ksuid duration pre w).1
        = .ok (if tok.GetId.length = 0 then { tok with Id := ksuid } else tok) := by
  have hpre1 := (appliedInOrder_iff pre _ tok).mp hpre
  constructor
  · rw [new_of_error now ksuid duration _ w err hd
      (applyOpts_first_error pre opt post _ tok err hpre1 hopt)]
    rfl
  · rw [new_of_ok now ksuid duration pre w tok hd hpre1]
    split <;> rfl

/-- C13 at the list of a valid `WithID`, the failing custom option of the tests and a custom
option that panics: `New` returns the error of the second option and the third is not applied. -/
theorem new_stops_at_first_failing_option_witness :
    oneHour ≠ 0
    ∧ AppliedInOrder [WithID [97]] (initialToken clock0 oneHour)
        { initialToken clock0 oneHour with Id := [97] }
    ∧ failingtokenopt { initialToken clock0 oneHour with Id := [97] } = .error (.lib "snarf!")
    ∧ New clock0 [107] oneHour ([WithID [97]] ++ failingtokenopt :: [panicOpt]) World.init
        = (.error (.lib "snarf!"), { keyCalls := 0, log := [Call.TimeNow] }) :=
  ⟨by decide,
    AppliedInOrder.cons _ _ _ _ _ (by decide) (AppliedInOrder.nil _),
    by decide,
    (new_stops_at_first_failing_option clock0 [107] oneHour [WithID [97]] failingtokenopt
      [panicOpt] { initialToken clock0 oneHour with Id := [97] } (.lib "snarf!") World.init
      (by decide) (AppliedInOrder.cons _ _ _ _ _ (by decide) (AppliedInOrder.nil _))
      (by decide)).1⟩


/-! ## C14 -/

/-- C14 as stated fails: for the duration of minus one hour `New` returns a credential, and its
not-valid-after is one hour earlier than its not-valid-before: the window is empty. -/
theorem new_negative_duration_empty_window :
    (New clock0 [107] (-oneHour) [] World.init).1 = .ok credBornExpired
    ∧ clock0.isClock = true
    ∧ (AsTime (GetNotValidAfter credBornExpired.GetTimestamps)).Before
        (AsTime (GetNotValidBefore credBornExpired.GetTimestamps)) = true
    ∧ (AsTime (GetNotValidBefore credBornExpired.GetTimestamps)).Before
        (AsTime (GetNotValidAfter credBornExpired.GetTimestamps)) = false := by
  decide

/-- C14, amended: for every duration (an `int64`), every clock reading and every list of
built-in options, if `New` returns a credential then the duration is not zero and the validity
window is present, from the clock reading to the clock reading plus the duration; its
not-valid-before is strictly earlier than its not-valid-after when the duration is strictly
positive. -/
theorem new_window (now : Time) (ksuid : Bytes) (duration : Int) (specs : List BuiltinOpt)
    (w : World) (C : ProtoToken)
    (hclock : now.isClock = true) (hd64 : isInt64 duration = true)
    (hnew : (New now ksuid duration (specs.map BuiltinOpt.opt) w).1 = .ok C) :
    duration ≠ 0
      ∧ C.GetTimestamps = some
          { NotValidBefore := some (timestamppbNew now)
            NotValidAfter := some (timestamppbNew (now.Add duration)) }
      ∧ (0 < duration →
          (AsTime (GetNotValidBefore C.GetTimestamps)).Before
            (AsTime (GetNotValidAfter C.GetTimestamps)) = true) := by
  obtain ⟨hd, _, _, hC⟩ := new_builtin_ok_inv now ksuid duration specs w
    (New now ksuid duration (specs.map BuiltinOpt.opt) w).2 C (by rw [← hnew])
  have hts : C.GetTimestamps = some
      { NotValidBefore := some (timestamppbNew now)
        NotValidAfter := some (timestamppbNew (now.Add duration)) } := by
    have h0 := foldl_set_timestamps specs (initialToken now duration)
    split at hC
    · simp only [Prod.mk.injEq, Res.ok.injEq] at hC
      rw [hC.1]
      simp only [ProtoToken.GetTimestamps, h0]
      rfl
    · simp only [Prod.mk.injEq, Res.ok.injEq] at hC
      rw [hC.1]
      simp only [ProtoToken.GetTimestamps, h0]
      rfl
  have hc := hclock
  simp only [Time.isClock, decide_eq_true_eq] at hc
  obtain ⟨hsum, hn0, hn1, hs0, hs1⟩ := add_exact now duration hclock hd64
  have hb : AsTime (some (timestamppbNew now)) = now :=
    asTime_timestamppbNew now ⟨hc.1, hc.2.1⟩ ⟨by omega, by omega⟩
  have ha : AsTime (some (timestamppbNew (now.Add duration))) = now.Add duration :=
    asTime_timestamppbNew _ ⟨hn0, hn1⟩ ⟨hs0, hs1⟩
  refine ⟨hd, hts, ?_⟩
  intro hpos
  rw [hts]
  simp only [GetNotValidBefore, GetNotValidAfter, Option.some_bind, hb, ha]
  exact (before_iff_lt now (now.Add duration) ⟨hc.1, hc.2.1⟩ ⟨hn0, hn1⟩).mpr (by omega)

/-- C14, amended, at the credential `credB`, which `New` returns at `clock0` for one hour. -/
theorem new_window_witness :
    clock0.isClock = true ∧ isInt64 oneHour = true
    ∧ (New clock0 [107] oneHour ([.id [97], .usages [1]].map BuiltinOpt.opt) World.init).1
        = .ok credB
    ∧ (AsTime (GetNotValidBefore credB.GetTimestamps)).Before
        (AsTime (GetNotValidAfter credB.GetTimestamps)) = true :=
  ⟨by decide, by decide, by decide,
    (new_window clock0 [107] oneHour [.id [97], .usages [1]] World.init credB (by decide)
      (by decide) (by decide)).2.2 (by decide)⟩

/-! ## C15 -/

/-- C15: for every option list, `New` with duration zero panics with
`duration MUST be provided`: it returns neither a credential nor an error, and no option has
been applied (the outcome is the same for every list, and not even the clock has been read).
For every non-zero duration and every list of built-in options `New` does not panic. -/
theorem new_zero_duration_panics (now : Time) (ksuid : Bytes) (opts : List TokenOpt) (w : World) :
    New now ksuid 0 opts w = (.panic "duration MUST be provided", w)
      ∧ (∀ (duration : Int) (specs : List BuiltinOpt) (msg : String), duration ≠ 0 →
          (New now ksuid duration (specs.map BuiltinOpt.opt) w).1 ≠ .panic msg) := by
  refine ⟨new_of_zero now ksuid opts w, ?_⟩
  intro duration specs msg hd hpanic
  rcases res_cases (applyOpts (specs.map BuiltinOpt.opt) (initialToken now duration)) with
    ⟨tok, h⟩ | ⟨e, h⟩ | ⟨m, h⟩
  · rw [new_of_ok now ksuid duration _ w tok hd h] at hpanic
    split at hpanic <;> cases hpanic
  · rw [new_of_error now ksuid duration _ w e hd h] at hpanic
    cases hpanic
  · exact applyOpts_builtin_no_panic specs _ m h

/-- C15 at an option list whose first option would panic with another message, and at the
built-in option `WithID("")` with one hour. -/
theorem new_zero_duration_panics_witness :
    New clock0 [107] 0 [panicOpt, WithID [97]] World.init
        = (.panic "duration MUST be provided", World.init)
    ∧ (New clock0 [107] oneHour ([BuiltinOpt.id []].map BuiltinOpt.opt) World.init).1
        ≠ .panic "id cannot be empty" :=
  ⟨(new_zero_duration_panics clock0 [107] [panicOpt, WithID [97]] World.init).1,
    (new_zero_duration_panics clock0 [107] [] World.init).2 oneHour [.id []] _ (by decide)⟩

/-! ## C16 -/

/-- C16: for every non-zero duration and every list of built-in options with accepted
arguments that set pairwise different fields, in any order, `New` succeeds. The credential has
the supplied id, sid, vendor data and usages (in the supplied order); without an option the sid
is empty, the vendor data and the usages are nil, and the id is the generated one; its
not-valid-before is the timestamp of the construction time and its not-valid-after the
timestamp of the construction time plus the duration (for a clock reading and an `int64`
duration, these read back as exactly these two times). -/
theorem new_builds_supplied_fields (now : Time) (ksuid : Bytes) (duration : Int)
    (specs : List BuiltinOpt) (w : World)
    (hd : duration ≠ 0) (hvalid : ∀ s ∈ specs, s.valid = true)
    (hfields : (specs.map BuiltinOpt.field).Nodup) :
    ∃ C, (New now ksuid duration (specs.map BuiltinOpt.opt) w).1 = .ok C
      ∧ (∀ v, BuiltinOpt.id v ∈ specs → C.GetId = v)
      ∧ ((∀ v, BuiltinOpt.id v ∉ specs) → C.GetId = ksuid)
      ∧ (∀ v, BuiltinOpt.sid v ∈ specs → C.GetSid = v)
      ∧ ((∀ v, BuiltinOpt.sid v ∉ specs) → C.GetSid = [])
      ∧ (∀ v, BuiltinOpt.vendor v ∈ specs → C.Vendor = v)
      ∧ ((∀ v, BuiltinOpt.vendor v ∉ specs) → C.Vendor = none)
      ∧ (∀ v, BuiltinOpt.usages v ∈ specs → C.Usages = some v)
      ∧ ((∀ v, BuiltinOpt.usages v ∉ specs) → C.Usages = none)
      ∧ C.GetTimestamps = some
          { NotValidBefore := some (timestamppbNew now)
            NotValidAfter := some (timestamppbNew (now.Add duration)) }
      ∧ (now.isClock = true → isInt64 duration = true →
          AsTime (GetNotValidBefore C.GetTimestamps) = now
            ∧ AsTime (GetNotValidAfter C.GetTimestamps) = now.Add duration) := by
  have hunset : ∀ s ∈ specs, s.field.unset (initialToken now duration) = true := by
    intro s _
    cases s <;> rfl
  have happly := (applyOpts_builtin_ok_iff specs (initialToken now duration) _).mpr
    ⟨hvalid, hfields, hunset, rfl⟩
  have hnew := new_of_ok now ksuid duration _ w _ hd happly
  obtain ⟨hid1, hid2⟩ := foldl_set_id specs (initialToken now duration) hfields
  obtain ⟨hsid1, hsid2⟩ := foldl_set_sid specs (initialToken now duration) hfields
  obtain ⟨hven1, hven2⟩ := foldl_set_vendor specs (initialToken now duration) hfields
  obtain ⟨hus1, hus2⟩ := foldl_set_usages specs (initialToken now duration) hfields
  have hts := foldl_set_timestamps specs (initialToken now duration)
  have htimes : ∀ C : ProtoToken, C.GetTimestamps = some
        { NotValidBefore := some (timestamppbNew now)
          NotValidAfter := some (timestamppbNew (now.Add duration)) } →
      now.isClock = true → isInt64 duration = true →
        AsTime (GetNotValidBefore C.GetTimestamps) = now
          ∧ AsTime (GetNotValidAfter C.GetTimestamps) = now.Add duration := by
    intro C hC hclock hd64
    have hc := hclock
    simp only [Time.isClock, decide_eq_true_eq] at hc
    obtain ⟨_, hn0, hn1, hs0, hs1⟩ := add_exact now duration hclock hd64
    rw [hC]
    simp only [GetNotValidBefore, GetNotValidAfter, Option.some_bind]
    exact ⟨asTime_timestamppbNew now ⟨hc.1, hc.2.1⟩ ⟨by omega, by omega⟩,
      asTime_timestamppbNew _ ⟨hn0, hn1⟩ ⟨hs0, hs1⟩⟩
  by_cases hempty :
      (specs.foldl (fun t s => s.set t) (initialToken now duration)).GetId.length = 0
  · rw [if_pos hempty] at hnew
    have hnoid : ∀ v, BuiltinOpt.id v ∉ specs := by
      intro v hv
      have h1 := hid1 v hv
      have h2 := hvalid _ hv
      simp only [BuiltinOpt.valid, ne_eq, decide_not, Bool.not_eq_true', decide_eq_false_iff_not]
        at h2
      simp only [ProtoToken.GetId, h1] at hempty
      exact h2 hempty
    have htsC : ProtoToken.GetTimestamps
        { specs.foldl (fun t s => s.set t) (initialToken now duration) with Id := ksuid }
        = some
          { NotValidBefore := some (timestamppbNew now)
            NotValidAfter := some (timestamppbNew (now.Add duration)) } := by
      simp only [ProtoToken.GetTimestamps, hts]; rfl
    refine ⟨{ specs.foldl (fun t s => s.set t) (initialToken now duration) with Id := ksuid },
      by rw [hnew], ?_, fun _ => rfl, ?_, ?_, ?_, ?_, ?_, ?_, htsC, htimes _ htsC⟩
    · intro v hv
      exact absurd hv (hnoid v)
    · intro v hv; exact hsid1 v hv
    · intro h; rw [ProtoToken.GetSid]; simp only; rw [hsid2 h]; rfl
    · intro v hv; exact hven1 v hv
    · intro h; simp only; rw [hven2 h]; rfl
    · intro v hv; exact hus1 v hv
    · intro h; simp only; rw [hus2 h]; rfl
  · rw [if_neg hempty] at hnew
    have htsC : ProtoToken.GetTimestamps
        (specs.foldl (fun t s => s.set t) (initialToken now duration))
        = some
          { NotValidBefore := some (timestamppbNew now)
            NotValidAfter := some (timestamppbNew (now.Add duration)) } := by
      simp only [ProtoToken.GetTimestamps, hts]; rfl
    refine ⟨specs.foldl (fun t s => s.set t) (initialToken now duration),
      by rw [hnew], ?_, ?_, ?_, ?_, ?_, ?_, ?_, ?_, htsC, htimes _ htsC⟩
    · intro v hv; exact hid1 v hv
    · intro h
      exfalso
      apply hempty
      rw [ProtoToken.GetId, hid2 h]
      rfl
    · intro v hv; exact hsid1 v hv
    · intro h; rw [ProtoToken.GetSid, hsid2 h]; rfl
    · intro v hv; exact hven1 v hv
    · intro h; rw [hven2 h]; rfl
    · intro v hv; exact hus1 v hv
    · intro h; rw [hus2 h]; rfl

/-- C16 at the options of the test `all-opts`, in its order: id, usages, sid, vendor. -/
theorem new_builds_supplied_fields_witness :
    oneHour ≠ 0
    ∧ (∀ s ∈ [BuiltinOpt.id [97], .usages [1, 3], .sid [98], .vendor (some [118])],
        s.valid = true)
    ∧ ([BuiltinOpt.id [97], .usages [1, 3], .sid [98], .vendor (some [118])].map
        BuiltinOpt.field).Nodup
    ∧ ∃ C, (New clock0 [107] oneHour
          ([BuiltinOpt.id [97], .usages [1, 3], .sid [98], .vendor (some [118])].map
            BuiltinOpt.opt) World.init).1 = .ok C
        ∧ C.GetId = [97] ∧ C.GetSid = [98] ∧ C.Vendor = some [118] ∧ C.Usages = some [1, 3] :=
  ⟨by decide, by decide, by decide,
    (new_builds_supplied_fields clock0 [107] oneHour
      [.id [97], .usages [1, 3], .sid [98], .vendor (some [118])] World.init
      (by decide) (by decide) (by decide)).imp
      (fun _ h => ⟨h.1, h.2.1 _ (by decide), h.2.2.2.1 _ (by decide),
        h.2.2.2.2.2.1 _ (by decide), h.2.2.2.2.2.2.2.1 _ (by decide)⟩)⟩

/-! ## C17 -/

/-- C17: for every successful call of `New` with built-in options: if no `WithID` option is in
the list, the id of the credential is the generated identifier, and the generator has been
called once, after the clock; if `WithID(x)` is in the list, the id is `x`, the generator has
not been called, and the call returns the same whatever the generator would have returned. In
both cases the id is not empty when the generated identifier is not. -/
theorem new_id (now : Time) (ksuid : Bytes) (duration : Int) (specs : List BuiltinOpt)
    (w w1 : World) (C : ProtoToken)
    (hnew : New now ksuid duration (specs.map BuiltinOpt.opt) w = (.ok C, w1)) :
    ((∀ v, BuiltinOpt.id v ∉ specs) →
        C.GetId = ksuid ∧ w1.log = w.log ++ [Call.TimeNow, Call.KsuidNew])
      ∧ (∀ x, BuiltinOpt.id x ∈ specs →
        C.GetId = x ∧ w1.log = w.log ++ [Call.TimeNow]
          ∧ ∀ other : Bytes,
            New now other duration (specs.map BuiltinOpt.opt) w = (.ok C, w1))
      ∧ (ksuid.length ≠ 0 → C.GetId.length ≠ 0) := by
  obtain ⟨hd, hvalid, hfields, hC⟩ := new_builtin_ok_inv now ksuid duration specs w w1 C hnew
  obtain ⟨hid1, hid2⟩ := foldl_set_id specs (initialToken now duration) hfields
  have hunset : ∀ s ∈ specs, s.field.unset (initialToken now duration) = true := by
    intro s _
    cases s <;> rfl
  have happly := (applyOpts_builtin_ok_iff specs (initialToken now duration) _).mpr
    ⟨hvalid, hfields, hunset, rfl⟩
  by_cases hempty :
      (specs.foldl (fun t s => s.set t) (initialToken now duration)).GetId.length = 0
  · rw [if_pos hempty] at hC
    simp only [Prod.mk.injEq, Res.ok.injEq] at hC
    obtain ⟨hC1, hC2⟩ := hC
    have hnoid : ∀ v, BuiltinOpt.id v ∉ specs := by
      intro v hv
      have h1 := hid1 v hv
      have h2 := hvalid _ hv
      simp only [BuiltinOpt.valid, ne_eq, decide_not, Bool.not_eq_true', decide_eq_false_iff_not]
        at h2
      simp only [ProtoToken.GetId, h1] at hempty
      exact h2 hempty
    refine ⟨fun _ => ⟨by rw [hC1]; rfl, by rw [hC2]; simp [World.record]⟩, ?_, ?_⟩
    · intro x hx
      exact absurd hx (hnoid x)
    · intro hk
      rw [hC1]
      exact hk
  · rw [if_neg hempty] at hC
    simp only [Prod.mk.injEq, Res.ok.injEq] at hC
    obtain ⟨hC1, hC2⟩ := hC
    refine ⟨?_, ?_, ?_⟩
    · intro hnone
      exfalso
      apply hempty
      rw [ProtoToken.GetId, hid2 hnone]
      rfl
    · intro x hx
      refine ⟨by rw [hC1]; exact hid1 x hx, by rw [hC2]; simp [World.record], ?_⟩
      intro other
      rw [new_of_ok now other duration _ w _ hd happly, if_neg hempty, hC1, hC2]
    · intro _
      rw [hC1]
      exact hempty

/-- C17 at the credential `credB`, built with `WithID` of the string `a`. -/
theorem new_id_witness :
    New clock0 [107] oneHour ([.id [97], .usages [1]].map BuiltinOpt.opt) World.init
        = (.ok credB, { keyCalls := 0, log := [Call.TimeNow] })
    ∧ credB.GetId = [97] :=
  ⟨by decide,
    ((new_id clock0 [107] oneHour [.id [97], .usages [1]] World.init
      { keyCalls := 0, log := [Call.TimeNow] } credB (by decide)).2.1 [97] (by decide)).1⟩


namespace ed25519url

open proto

/-! ## The manager does not panic -/

/-- Every character `EncodeToString` writes is a character of the alphabet `encodeURL`. -/
theorem encodeURL_range (i : Nat) :
    (65 ≤ (Base64.encodeURL i).val ∧ (Base64.encodeURL i).val ≤ 90)
      ∨ (97 ≤ (Base64.encodeURL i).val ∧ (Base64.encodeURL i).val ≤ 122)
      ∨ (48 ≤ (Base64.encodeURL i).val ∧ (Base64.encodeURL i).val ≤ 57)
      ∨ (Base64.encodeURL i).val = 45 ∨ (Base64.encodeURL i).val = 95 := by
  unfold Base64.encodeURL byte
  split_ifs <;> dsimp only <;> omega

/-- Every character of an encoded text is a character of the alphabet `encodeURL`. -/
theorem encodeToString_range : ∀ (src : Bytes) (c : Byte), c ∈ Base64.EncodeToString src →
    (65 ≤ c.val ∧ c.val ≤ 90) ∨ (97 ≤ c.val ∧ c.val ≤ 122) ∨ (48 ≤ c.val ∧ c.val ≤ 57)
      ∨ c.val = 45 ∨ c.val = 95
  | [], c, h => by simp [Base64.EncodeToString] at h
  | [a], c, h => by
    simp only [Base64.EncodeToString, List.mem_cons, List.mem_singleton, List.not_mem_nil,
      or_false] at h
    rcases h with h | h <;> subst h <;> exact encodeURL_range _
  | [a, b], c, h => by
    simp only [Base64.EncodeToString, List.mem_cons, List.mem_singleton, List.not_mem_nil,
      or_false] at h
    rcases h with h | h | h <;> subst h <;> exact encodeURL_range _
  | a :: b :: d :: rest, c, h => by
    rw [Base64.EncodeToString] at h
    simp only [List.mem_cons] at h
    rcases h with h | h | h | h | h
    · subst h; exact encodeURL_range _
    · subst h; exact encodeURL_range _
    · subst h; exact encodeURL_range _
    · subst h; exact encodeURL_range _
    · exact encodeToString_range rest c h

/-- With a seed of the right size `Validate` returns normally. -/
theorem validate_returns (ed : Ed25519) (skm : Manager) (now : Time) (st : SignedToken)
    (w : World) (hseed : (skm.keyDataFunc w.keyCalls).length = SeedSize) :
    (skm.Validate ed now st w).1.returns = true := by
  rcases unmarshalProtoToken_cases st.GetPrototoken with ⟨tok, hU⟩ | ⟨msg, hU⟩
  · rw [validate_of_unmarshal_ok ed skm now st w tok hU hseed]
    simp only
    split
    · split
      · rfl
      · split <;> rfl
    · rfl
  · rw [validate_of_unmarshal_error ed skm now st w _ hU]
    rfl

/-- With a seed of the right size `GetValidatedToken` returns normally. -/
theorem getValidatedToken_returns (ed : Ed25519) (skm : Manager) (now : Time) (st : SignedToken)
    (w : World) (hseed : (skm.keyDataFunc w.keyCalls).length = SeedSize) :
    (skm.GetValidatedToken ed now st w).1.returns = true := by
  have hV := validate_returns ed skm now st w hseed
  rcases res_unit_cases (skm.Validate ed now st w).1 with h | ⟨e, h⟩ | ⟨msg, h⟩
  · obtain ⟨pt, _, hG⟩ := getValidatedToken_of_validate_ok ed skm now st w h
    rw [hG]
    rfl
  · rw [getValidatedToken_of_validate_error ed skm now st w e h]
    rfl
  · rw [h] at hV
    cases hV

/-- With a seed of the right size `ValidFor` returns normally. -/
theorem validFor_returns (ed : Ed25519) (skm : Manager) (now : Time) (st : SignedToken)
    (usage : TokenUsages) (w : World)
    (hseed : (skm.keyDataFunc w.keyCalls).length = SeedSize) :
    (skm.ValidFor ed now st usage w).1.returns = true := by
  have hG := getValidatedToken_returns ed skm now st w hseed
  rcases res_cases (skm.GetValidatedToken ed now st w).1 with ⟨tok, h⟩ | ⟨e, h⟩ | ⟨msg, h⟩
  · simp only [Manager.ValidFor, h]
    split <;> rfl
  · simp only [Manager.ValidFor, h]
    rfl
  · rw [h] at hG
    cases hG

/-- With a seed of the right size `Sign` returns normally. -/
theorem sign_returns (ed : Ed25519) (skm : Manager) (pt : ProtoToken) (w : World)
    (hseed : (skm.keyDataFunc w.keyCalls).length = SeedSize) :
    (skm.Sign ed pt w).1.returns = true := by
  rcases marshalProtoToken_cases pt with ⟨b, h⟩ | ⟨msg, h⟩
  · rw [sign_of_marshal ed skm pt w b h hseed]
    rfl
  · simp only [Manager.Sign, h]
    rfl

/-- The method `Decode` returns normally. -/
theorem decode_returns (skm : Manager) (s : Bytes) (w : World) :
    (skm.Decode s w).1.returns = true := by
  unfold Manager.Decode Base64.DecodeString
  cases Base64.decodeQuantum [] s with
  | none => rfl
  | some b =>
    simp only [UnmarshalSignedToken]
    cases unmarshalPointer signedTokenCoder (b.length + 1) SignedToken.zero b <;> rfl

/-! ## C18 -/

/-- C18: for every key accessor the constructor `New` calls it once and returns a manager (over
this accessor) and no error exactly when the bytes returned have length 32, the seed size of
ed25519; for every other length, the empty (or nil) key included, it returns no manager and an
error that matches `ErrKeyData`. -/
theorem new_manager_iff_seed_size (f : KeyDataFunc) (w : World) :
    SeedSize = 32
      ∧ ((∃ m, (New f w).1 = .ok m) ↔ (f w.keyCalls).length = 32)
      ∧ ((f w.keyCalls).length = 32 → (New f w).1 = .ok { keyDataFunc := f })
      ∧ ((f w.keyCalls).length ≠ 32 →
          ∃ e, (New f w).1 = .error e ∧ e.Is .ErrKeyData = true)
      ∧ (f w.keyCalls = [] → ∃ e, (New f w).1 = .error e ∧ e.Is .ErrKeyData = true)
      ∧ (New f w).2 = { keyCalls := w.keyCalls + 1, log := w.log ++ [Call.KeyData] } := by
  have hok : (f w.keyCalls).length = 32 → (New f w).1 = .ok { keyDataFunc := f } := by
    intro h
    simp [New, Manager.keyData, SeedSize, h]
  have herr : (f w.keyCalls).length ≠ 32 →
      ∃ e, (New f w).1 = .error e ∧ e.Is .ErrKeyData = true := by
    intro h
    refine ⟨.wrap1 (.sentinel .ErrKeyData)
      ("invalid seed size returned (want: " ++ toString SeedSize ++ " have: "
        ++ toString (f w.keyCalls).length ++ ")"), ?_, rfl⟩
    simp [New, Manager.keyData, SeedSize, h]
  refine ⟨rfl, ⟨?_, fun h => ⟨_, hok h⟩⟩, hok, herr, ?_, ?_⟩
  · rintro ⟨m, hm⟩
    by_contra h
    obtain ⟨e, he, _⟩ := herr h
    rw [he] at hm
    cases hm
  · intro h
    exact herr (by rw [h]; decide)
  · simp only [New, Manager.keyData]
    split <;> rfl

/-- C18 at the accessor of 32 zero bytes, and at an accessor that returns no bytes. -/
theorem new_manager_iff_seed_size_witness :
    (New zeroKey World.init).1 = .ok zeroManager
    ∧ ∃ e, (New (fun _ => []) World.init).1 = .error e ∧ e.Is .ErrKeyData = true :=
  ⟨(new_manager_iff_seed_size zeroKey World.init).2.2.1 (by decide),
    (new_manager_iff_seed_size (fun _ => []) World.init).2.2.2.2.1 rfl⟩

/-! ## C19 -/

/-- C19: for every signed envelope `Encode` returns a string, every character of which is one of
the URL-safe base64 alphabet (`A`-`Z`, `a`-`z`, `0`-`9`, `-`, `_`); none is the padding character
`=`, none `+` and none `/`. -/
theorem encode_is_transport_safe (skm : Manager) (st : SignedToken) (w : World) :
    ∃ s, (skm.Encode st w).1 = .ok s
      ∧ ∀ c ∈ s,
        ((65 ≤ c.val ∧ c.val ≤ 90) ∨ (97 ≤ c.val ∧ c.val ≤ 122) ∨ (48 ≤ c.val ∧ c.val ≤ 57)
          ∨ c.val = 45 ∨ c.val = 95)
        ∧ c.val ≠ 61 ∧ c.val ≠ 43 ∧ c.val ≠ 47 := by
  refine ⟨Base64.EncodeToString
    (marshalBytesField 1 st.Signature ++ marshalBytesField 2 st.Prototoken), by
      simp [Manager.Encode, MarshalSignedToken], ?_⟩
  intro c hc
  have h := encodeToString_range _ c hc
  refine ⟨h, ?_, ?_, ?_⟩ <;> omega

/-- C19 at the envelope `signedB`: the first character of its encoded form is of the
alphabet. -/
theorem encode_is_transport_safe_witness :
    ∃ s, (zeroManager.Encode signedB World.init).1 = .ok s
      ∧ ∀ c ∈ s.head?, c.val ≠ 61 ∧ c.val ≠ 43 ∧ c.val ≠ 47 :=
  (encode_is_transport_safe zeroManager signedB World.init).imp
    (fun _ h => ⟨h.1, fun c hc => (h.2 c (List.mem_of_mem_head? hc)).2⟩)

/-! ## C20 -/

/-- C20: for every manager whose key accessor returns the same 32-byte key on every call (and a
signature check that, as that of `crypto/ed25519`, turns down every signature that is not 64
bytes long), `Sign`, `Validate`, `GetValidatedToken`, `ValidFor`, `Encode` and `Decode` return a
value or an error on every input and do not panic: on a nil or any other credential, on a nil or
any other envelope (so also with an empty payload or an empty signature), and on every text. A
signature of the wrong length, the empty one included, fails the check with `ErrTamper`, which
`Validate` reports as `ErrInvalidSignature` whenever the payload deserializes, as the empty
payload of the nil envelope does. -/
theorem manager_returns_normally (ed : Ed25519) (skm : Manager) (key : Bytes) (now : Time)
    (w : World)
    (hkey : ∀ n, skm.keyDataFunc n = key) (hlen : key.length = 32)
    (hsize : ∀ seed msg sig, sig.length ≠ SignatureSize → ed.Verify seed msg sig = false) :
    (∀ pt : Option ProtoToken, (skm.Sign ed (ProtoToken.ofPtr pt) w).1.returns = true)
      ∧ (∀ st : Option SignedToken,
          (skm.Validate ed now (SignedToken.ofPtr st) w).1.returns = true
          ∧ (skm.GetValidatedToken ed now (SignedToken.ofPtr st) w).1.returns = true
          ∧ (∀ usage, (skm.ValidFor ed now (SignedToken.ofPtr st) usage w).1.returns = true)
          ∧ (skm.Encode (SignedToken.ofPtr st) w).1.returns = true)
      ∧ (∀ s : Bytes, (skm.Decode s w).1.returns = true)
      ∧ (∀ st : SignedToken, st.GetSignature.length ≠ SignatureSize →
          (skm.verify ed st.GetSignature st.GetPrototoken w).1 = .error (.sentinel .ErrTamper)
          ∧ ∀ tok, UnmarshalProtoToken st.GetPrototoken = .ok tok →
            (skm.Validate ed now st w).1
              = .error (.wrap2 (.sentinel .ErrInvalidSignature) (.sentinel .ErrTamper)))
      ∧ (skm.Validate ed now (SignedToken.ofPtr none) w).1
          = .error (.wrap2 (.sentinel .ErrInvalidSignature) (.sentinel .ErrTamper)) := by
  have hseed : (skm.keyDataFunc w.keyCalls).length = SeedSize := by
    rw [hkey, hlen]; rfl
  have hwrong : ∀ st : SignedToken, st.GetSignature.length ≠ SignatureSize →
      (skm.verify ed st.GetSignature st.GetPrototoken w).1 = .error (.sentinel .ErrTamper)
      ∧ ∀ tok, UnmarshalProtoToken st.GetPrototoken = .ok tok →
        (skm.Validate ed now st w).1
          = .error (.wrap2 (.sentinel .ErrInvalidSignature) (.sentinel .ErrTamper)) := by
    intro st hst
    refine ⟨?_, ?_⟩
    · rw [verify_of_seed ed skm _ _ w hseed, hsize _ _ _ hst]
      rfl
    · intro tok hU
      rw [validate_of_unmarshal_ok ed skm now st w tok hU hseed, hsize _ _ _ hst]
      rfl
  refine ⟨fun pt => sign_returns ed skm _ w hseed, ?_, fun s => decode_returns skm s w, hwrong,
    ?_⟩
  · intro st
    refine ⟨validate_returns ed skm now _ w hseed, getValidatedToken_returns ed skm now _ w hseed,
      fun usage => validFor_returns ed skm now _ usage w hseed, ?_⟩
    simp [Manager.Encode, MarshalSignedToken, Res.returns]
  · exact (hwrong (SignedToken.ofPtr none) (by decide)).2 ProtoToken.zero (by decide)

/-- C20 at the manager over 32 zero bytes, on the nil credential, the nil envelope and the
envelope `unsignedB`, which has an empty signature. -/
theorem manager_returns_normally_witness :
    (∀ n, zeroManager.keyDataFunc n = List.replicate 32 0)
    ∧ (List.replicate 32 (0 : Byte)).length = 32
    ∧ (∀ seed msg sig, sig.length ≠ SignatureSize → toyEd25519Sized.Verify seed msg sig = false)
    ∧ (zeroManager.Sign toyEd25519Sized (ProtoToken.ofPtr none) World.init).1.returns = true
    ∧ (zeroManager.Validate toyEd25519Sized clock0 (SignedToken.ofPtr none) World.init).1.returns
        = true
    ∧ (zeroManager.Validate toyEd25519Sized clock0 unsignedB World.init).1
        = .error (.wrap2 (.sentinel .ErrInvalidSignature) (.sentinel .ErrTamper)) :=
  have hsize : ∀ (seed msg sig : Bytes), sig.length ≠ SignatureSize →
      toyEd25519Sized.Verify seed msg sig = false := by
    intro seed msg sig hsig
    simp only [toyEd25519Sized, decide_eq_false_iff_not]
    intro h
    apply hsig
    rw [h]
    simp only [SignatureSize, List.length_take, List.length_append, List.length_replicate]
    omega
  have h := manager_returns_normally toyEd25519Sized zeroManager (List.replicate 32 0) clock0
    World.init (fun _ => rfl) (by decide) hsize
  ⟨fun _ => rfl, by decide, hsize, h.1 none, (h.2.1 none).1,
    (h.2.2.2.1 unsignedB (by decide)).2 credB (by decide)⟩

end ed25519url

namespace ed25519url

open proto

/-! ## The three outcomes of the window check -/

/-- When `Validate` succeeds. -/
theorem validate_ok_iff (ed : Ed25519) (skm : Manager) (now : Time) (st : SignedToken)
    (w : World) :
    (skm.Validate ed now st w).1 = .ok () ↔
      ∃ tok, UnmarshalProtoToken st.GetPrototoken = .ok tok
        ∧ (skm.keyDataFunc w.keyCalls).length = SeedSize
        ∧ ed.Verify (skm.keyDataFunc w.keyCalls) st.GetPrototoken st.GetSignature = true
        ∧ now.Before (AsTime (GetNotValidBefore tok.GetTimestamps)) = false
        ∧ now.After (AsTime (GetNotValidAfter tok.GetTimestamps)) = false := by
  rcases unmarshalProtoToken_cases st.GetPrototoken with ⟨tok, hU⟩ | ⟨msg, hU⟩
  · by_cases hseed : (skm.keyDataFunc w.keyCalls).length = SeedSize
    · rw [validate_of_unmarshal_ok ed skm now st w tok hU hseed]
      constructor
      · intro h
        refine ⟨tok, hU, hseed, ?_⟩
        simp only at h
        split at h
        · rename_i hv
          split at h
          · cases h
          · rename_i hb
            split at h
            · cases h
            · rename_i ha
              exact ⟨hv, by simpa using hb, by simpa using ha⟩
        · cases h
      · rintro ⟨tok1, hU1, _, hv, hb, ha⟩
        rw [hU] at hU1
        cases hU1
        simp [hv, hb, ha]
    · rw [validate_of_bad_seed ed skm now st w tok hU hseed]
      constructor
      · intro h; cases h
      · rintro ⟨_, _, h, _⟩; exact absurd h hseed
  · rw [validate_of_unmarshal_error ed skm now st w _ hU]
    constructor
    · intro h; cases h
    · rintro ⟨tok1, hU1, _⟩
      rw [hU] at hU1
      cases hU1

/-- When `Validate` returns `ErrNotYetValid`. -/
theorem validate_notYetValid_iff (ed : Ed25519) (skm : Manager) (now : Time) (st : SignedToken)
    (w : World) :
    (skm.Validate ed now st w).1 = .error (.sentinel .ErrNotYetValid) ↔
      ∃ tok, UnmarshalProtoToken st.GetPrototoken = .ok tok
        ∧ (skm.keyDataFunc w.keyCalls).length = SeedSize
        ∧ ed.Verify (skm.keyDataFunc w.keyCalls) st.GetPrototoken st.GetSignature = true
        ∧ now.Before (AsTime (GetNotValidBefore tok.GetTimestamps)) = true := by
  rcases unmarshalProtoToken_cases st.GetPrototoken with ⟨tok, hU⟩ | ⟨msg, hU⟩
  · by_cases hseed : (skm.keyDataFunc w.keyCalls).length = SeedSize
    · rw [validate_of_unmarshal_ok ed skm now st w tok hU hseed]
      constructor
      · intro h
        refine ⟨tok, hU, hseed, ?_⟩
        simp only at h
        split at h
        · rename_i hv
          split at h
          · rename_i hb
            exact ⟨hv, hb⟩
          · split at h <;> cases h
        · cases h
      · rintro ⟨tok1, hU1, _, hv, hb⟩
        rw [hU] at hU1
        cases hU1
        simp [hv, hb]
    · rw [validate_of_bad_seed ed skm now st w tok hU hseed]
      constructor
      · intro h; cases h
      · rintro ⟨_, _, h, _⟩; exact absurd h hseed
  · rw [validate_of_unmarshal_error ed skm now st w _ hU]
    constructor
    · intro h; cases h
    · rintro ⟨tok1, hU1, _⟩
      rw [hU] at hU1
      cases hU1

/-- When `Validate` returns `ErrNoLongerValid`. -/
theorem validate_noLongerValid_iff (ed : Ed25519) (skm : Manager) (now : Time) (st : SignedToken)
    (w : World) :
    (skm.Validate ed now st w).1 = .error (.sentinel .ErrNoLongerValid) ↔
      ∃ tok, UnmarshalProtoToken st.GetPrototoken = .ok tok
        ∧ (skm.keyDataFunc w.keyCalls).length = SeedSize
        ∧ ed.Verify (skm.keyDataFunc w.keyCalls) st.GetPrototoken st.GetSignature = true
        ∧ now.Before (AsTime (GetNotValidBefore tok.GetTimestamps)) = false
        ∧ now.After (AsTime (GetNotValidAfter tok.GetTimestamps)) = true := by
  rcases unmarshalProtoToken_cases st.GetPrototoken with ⟨tok, hU⟩ | ⟨msg, hU⟩
  · by_cases hseed : (skm.keyDataFunc w.keyCalls).length = SeedSize
    · rw [validate_of_unmarshal_ok ed skm now st w tok hU hseed]
      constructor
      · intro h
        refine ⟨tok, hU, hseed, ?_⟩
        simp only at h
        split at h
        · rename_i hv
          split at h
          · cases h
          · rename_i hb
            split at h
            · rename_i ha
              exact ⟨hv, by simpa using hb, ha⟩
            · cases h
        · cases h
      · rintro ⟨tok1, hU1, _, hv, hb, ha⟩
        rw [hU] at hU1
        cases hU1
        simp [hv, hb, ha]
    · rw [validate_of_bad_seed ed skm now st w tok hU hseed]
      constructor
      · intro h; cases h
      · rintro ⟨_, _, h, _⟩; exact absurd h hseed
  · rw [validate_of_unmarshal_error ed skm now st w _ hU]
    constructor
    · intro h; cases h
    · rintro ⟨tok1, hU1, _⟩
      rw [hU] at hU1
      cases hU1

/-- The result of `Validate` depends on the world only through the key the accessor returns. -/
theorem validate_congr (ed : Ed25519) (skm skm1 : Manager) (now : Time) (st : SignedToken)
    (w w1 : World) (hkey : skm1.keyDataFunc w1.keyCalls = skm.keyDataFunc w.keyCalls) :
    (skm1.Validate ed now st w1).1 = (skm.Validate ed now st w).1 := by
  rcases unmarshalProtoToken_cases st.GetPrototoken with ⟨tok, hU⟩ | ⟨msg, hU⟩
  · by_cases hseed : (skm.keyDataFunc w.keyCalls).length = SeedSize
    · rw [validate_of_unmarshal_ok ed skm now st w tok hU hseed,
        validate_of_unmarshal_ok ed skm1 now st w1 tok hU (by rw [hkey]; exact hseed), hkey]
    · rw [validate_of_bad_seed ed skm now st w tok hU hseed,
        validate_of_bad_seed ed skm1 now st w1 tok hU (by rw [hkey]; exact hseed)]
  · rw [validate_of_unmarshal_error ed skm now st w _ hU,
      validate_of_unmarshal_error ed skm1 now st w1 _ hU]

end ed25519url

namespace ed25519url

open proto

/-! ## Order of clock readings -/

/-- A time not before `u`, with `u` not before `v`, is not before `v`. -/
theorem not_before_trans (t u v : Time) (h1 : t.Before u = false) (h2 : u.Before v = false) :
    t.Before v = false := by
  simp only [Time.Before, decide_eq_false_iff_not] at *
  omega

/-- A time not after `u`, with `u` not after `v`, is not after `v`. -/
theorem not_after_trans (t u v : Time) (h1 : t.After u = false) (h2 : u.After v = false) :
    t.After v = false := by
  simp only [Time.After, decide_eq_false_iff_not] at *
  omega

/-- A time not before one that is after `v` is after `v`. -/
theorem after_of_not_before (t u v : Time) (h1 : t.Before u = false) (h2 : u.After v = true) :
    t.After v = true := by
  simp only [Time.Before, Time.After, decide_eq_false_iff_not, decide_eq_true_eq] at *
  omega

/-- A time not after one that is before `v` is before `v`. -/
theorem before_of_not_after (t u v : Time) (h1 : t.After u = false) (h2 : u.Before v = true) :
    t.Before v = true := by
  simp only [Time.Before, Time.After, decide_eq_false_iff_not, decide_eq_true_eq] at *
  omega

/-- A nil timestamp reads as the Unix epoch. -/
theorem asTime_nil : AsTime none = Time.Unix 0 0 := rfl

/-! ## C21 -/

/-- C21: for every manager whose key accessor returns the same key on every call, every envelope
and every clock reading, a second `Validate` of the envelope, run after the first, returns what
the first returned, and so does `Validate` from any other state of the outside world, hence
after any number of calls. The result is a function of the key, the two byte fields of the
envelope and the clock reading only: any manager that gets this key, on any envelope with the
same signature and the same payload, at the same clock reading, returns the same. `Validate`
reads the envelope through its getters and returns no envelope; all it does besides is call the
clock, the deserializer, the key accessor and the signature check. -/
theorem validate_idempotent (ed : Ed25519) (skm : Manager) (key : Bytes) (now : Time)
    (st : SignedToken) (w : World) (hkey : ∀ n, skm.keyDataFunc n = key) :
    (skm.Validate ed now st (skm.Validate ed now st w).2).1 = (skm.Validate ed now st w).1
      ∧ (∀ w1 : World, (skm.Validate ed now st w1).1 = (skm.Validate ed now st w).1)
      ∧ (∀ (skm1 : Manager) (st1 : SignedToken) (w1 : World),
          skm1.keyDataFunc w1.keyCalls = key →
          st1.GetSignature = st.GetSignature → st1.GetPrototoken = st.GetPrototoken →
          (skm1.Validate ed now st1 w1).1 = (skm.Validate ed now st w).1)
      ∧ (∃ calls, (skm.Validate ed now st w).2.log = w.log ++ calls
          ∧ ∀ c ∈ calls, c = Call.TimeNow ∨ c = Call.ProtoUnmarshal ∨ c = Call.KeyData
              ∨ c = Call.Ed25519Verify) := by
  refine ⟨validate_congr ed skm skm now st w _ (by rw [hkey, hkey]),
    fun w1 => validate_congr ed skm skm now st w w1 (by rw [hkey, hkey]), ?_, ?_⟩
  · intro skm1 st1 w1 hk hs hp
    have hst : st1 = st := by
      cases st
      cases st1
      simp only [SignedToken.GetSignature, SignedToken.GetPrototoken] at hs hp
      rw [hs, hp]
    rw [hst]
    exact validate_congr ed skm skm1 now st w w1 (by rw [hk, hkey])
  · rcases unmarshalProtoToken_cases st.GetPrototoken with ⟨tok, hU⟩ | ⟨msg, hU⟩
    · by_cases hseed : (skm.keyDataFunc w.keyCalls).length = SeedSize
      · rw [validate_of_unmarshal_ok ed skm now st w tok hU hseed]
        exact ⟨[Call.TimeNow, Call.ProtoUnmarshal, Call.KeyData, Call.Ed25519Verify], rfl,
          by simp⟩
      · refine ⟨[Call.TimeNow, Call.ProtoUnmarshal, Call.KeyData], ?_, by simp⟩
        have hseed1 :
            (skm.keyDataFunc ((w.record .TimeNow).record .ProtoUnmarshal).keyCalls).length
              ≠ SeedSize := by simpa [World.record] using hseed
        simp [Manager.Validate, hU, Manager.verify, Manager.keyData, hseed1, hseed, World.record]
    · rw [validate_of_unmarshal_error ed skm now st w _ hU]
      exact ⟨[Call.TimeNow, Call.ProtoUnmarshal], rfl, by simp⟩

/-- C21 at the envelope `signedB`: the second `Validate` succeeds as the first does. -/
theorem validate_idempotent_witness :
    (∀ n, zeroManager.keyDataFunc n = List.replicate 32 0)
    ∧ (zeroManager.Validate toyEd25519 clock0 signedB World.init).1 = .ok ()
    ∧ (zeroManager.Validate toyEd25519 clock0 signedB
        (zeroManager.Validate toyEd25519 clock0 signedB World.init).2).1
      = (zeroManager.Validate toyEd25519 clock0 signedB World.init).1 :=
  ⟨fun _ => rfl, by decide,
    (validate_idempotent toyEd25519 zeroManager (List.replicate 32 0) clock0 signedB World.init
      (fun _ => rfl)).1⟩

/-! ## C22 -/

/-- C22 fails on the code at `New(d, WithSID(""))`: no option comes before `WithSID("")` and the
sid of the credential under construction is empty, yet `New` fails with `ErrOverwrite` wrapped
with `sid`, an error of kind `ErrOverwrite`. The sibling option `WithID("")` is rejected with
`id cannot be empty`, which is not of kind `ErrOverwrite`. -/
theorem new_empty_sid_reports_overwrite :
    Prototokens.New clock0 [107] oneHour [WithSID []] World.init
        = (.error (.wrap1 (.sentinel .ErrOverwrite) "sid"), World.init.record .TimeNow)
    ∧ (GoError.wrap1 (.sentinel .ErrOverwrite) "sid").Is .ErrOverwrite = true
    ∧ (GoError.wrap1 (.sentinel .ErrOverwrite) "sid").Error = "attempted overwrite of field: sid"
    ∧ (initialToken clock0 oneHour).GetSid = []
    ∧ Prototokens.New clock0 [107] oneHour [WithID []] World.init
        = (.error (.lib "id cannot be empty"), World.init.record .TimeNow)
    ∧ (GoError.lib "id cannot be empty").Is .ErrOverwrite = false := by
  decide

/-! ## C23 -/

/-- C23: for every envelope and every manager whose key accessor returns the same key on every
call: if `Validate` succeeds at the times `t1` and `t2`, it succeeds at every time that is not
before `t1` and not after `t2`; if it returns `ErrNoLongerValid` at a time, then at every time
that is not before it, it returns `ErrNoLongerValid` or `ErrNotYetValid` (in fact
`ErrNoLongerValid` again) and does not succeed; if it returns `ErrNotYetValid` at a time, it
returns `ErrNotYetValid` at every time that is not after it. -/
theorem validate_interval (ed : Ed25519) (skm : Manager) (key : Bytes) (st : SignedToken)
    (hkey : ∀ n, skm.keyDataFunc n = key) :
    (∀ (t1 t2 t : Time) (w1 w2 w : World),
        (skm.Validate ed t1 st w1).1 = .ok () → (skm.Validate ed t2 st w2).1 = .ok () →
        t.Before t1 = false → t.After t2 = false →
        (skm.Validate ed t st w).1 = .ok ())
      ∧ (∀ (t t1 : Time) (w w1 : World),
        (skm.Validate ed t st w).1 = .error (.sentinel .ErrNoLongerValid) →
        t1.Before t = false →
        ((skm.Validate ed t1 st w1).1 = .error (.sentinel .ErrNoLongerValid)
            ∨ (skm.Validate ed t1 st w1).1 = .error (.sentinel .ErrNotYetValid))
          ∧ (skm.Validate ed t1 st w1).1 ≠ .ok ()
          ∧ (skm.Validate ed t1 st w1).1 = .error (.sentinel .ErrNoLongerValid))
      ∧ (∀ (t t1 : Time) (w w1 : World),
        (skm.Validate ed t st w).1 = .error (.sentinel .ErrNotYetValid) →
        t1.After t = false →
        (skm.Validate ed t1 st w1).1 = .error (.sentinel .ErrNotYetValid)) := by
  refine ⟨?_, ?_, ?_⟩
  · intro t1 t2 t w1 w2 w h1 h2 hb ha
    obtain ⟨tok, hU, hseed, hv, hb1, _⟩ := (validate_ok_iff ed skm t1 st w1).mp h1
    obtain ⟨tok2, hU2, _, _, _, ha2⟩ := (validate_ok_iff ed skm t2 st w2).mp h2
    rw [hU] at hU2
    cases hU2
    rw [hkey] at hseed hv
    exact (validate_ok_iff ed skm t st w).mpr
      ⟨tok, hU, by rw [hkey]; exact hseed, by rw [hkey]; exact hv,
        not_before_trans t t1 _ hb hb1, not_after_trans t t2 _ ha ha2⟩
  · intro t t1 w w1 h hb
    obtain ⟨tok, hU, hseed, hv, hb0, ha0⟩ := (validate_noLongerValid_iff ed skm t st w).mp h
    rw [hkey] at hseed hv
    have hres : (skm.Validate ed t1 st w1).1 = .error (.sentinel .ErrNoLongerValid) :=
      (validate_noLongerValid_iff ed skm t1 st w1).mpr
        ⟨tok, hU, by rw [hkey]; exact hseed, by rw [hkey]; exact hv,
          not_before_trans t1 t _ hb hb0, after_of_not_before t1 t _ hb ha0⟩
    refine ⟨Or.inl hres, ?_, hres⟩
    rw [hres]
    intro hcontra
    cases hcontra
  · intro t t1 w w1 h ha
    obtain ⟨tok, hU, hseed, hv, hb0⟩ := (validate_notYetValid_iff ed skm t st w).mp h
    rw [hkey] at hseed hv
    exact (validate_notYetValid_iff ed skm t1 st w1).mpr
      ⟨tok, hU, by rw [hkey]; exact hseed, by rw [hkey]; exact hv,
        before_of_not_after t1 t _ ha hb0⟩

/-- C23 at the envelope `signedB`, valid at `clock0` and one hour later, hence half an hour
later. -/
theorem validate_interval_witness :
    (∀ n, zeroManager.keyDataFunc n = List.replicate 32 0)
    ∧ (zeroManager.Validate toyEd25519 clock0 signedB World.init).1 = .ok ()
    ∧ (zeroManager.Validate toyEd25519 (Time.Unix 1700003600 5) signedB World.init).1 = .ok ()
    ∧ (zeroManager.Validate toyEd25519 (Time.Unix 1700001800 0) signedB World.init).1 = .ok () :=
  ⟨fun _ => rfl, by decide, by decide,
    (validate_interval toyEd25519 zeroManager (List.replicate 32 0) signedB (fun _ => rfl)).1
      clock0 (Time.Unix 1700003600 5) (Time.Unix 1700001800 0) World.init World.init World.init
      (by decide) (by decide) (by decide) (by decide)⟩

/-! ## C24 -/

/-- C24 as stated fails. The credential `credNoNotBefore` has no not-valid-before, and the
envelope `Sign` makes for it is accepted at `clock0`, a time after the epoch and before its
not-valid-after: `Validate` succeeds and `GetValidatedToken` returns the credential. And the
credential `credNoNotAfter` has no not-valid-after and a not-valid-before later than `clock0`:
at `clock0` `Validate` fails for its envelope with `ErrNotYetValid`, not `ErrNoLongerValid`. -/
theorem missing_not_valid_before_accepted :
    (zeroManager.Sign toyEd25519 credNoNotBefore World.init).1 = .ok signedNoNotBefore
    ∧ GetNotValidBefore credNoNotBefore.GetTimestamps = none
    ∧ clock0.After (Time.Unix 0 0) = true
    ∧ (zeroManager.Validate toyEd25519 clock0 signedNoNotBefore World.init).1 = .ok ()
    ∧ (zeroManager.GetValidatedToken toyEd25519 clock0 signedNoNotBefore World.init).1
        = .ok credNoNotBefore
    ∧ (zeroManager.Sign toyEd25519 credNoNotAfter World.init).1 = .ok signedNoNotAfter
    ∧ GetNotValidAfter credNoNotAfter.GetTimestamps = none
    ∧ (zeroManager.Validate toyEd25519 clock0 signedNoNotAfter World.init).1
        = .error (.sentinel .ErrNotYetValid) := by
  decide

/-- C24, amended: for every envelope whose signature verifies over its payload under the 32-byte
key, and whose payload deserializes to a credential without not-valid-after (timestamps absent,
or present without this bound), and for every current time after the Unix epoch, `Validate`
fails: with `ErrNotYetValid` when the current time is before the not-valid-before of the
credential, and with `ErrNoLongerValid` otherwise, so always with `ErrNoLongerValid` when the
timestamps or the not-valid-before are absent as well (an absent bound is read as the epoch).
`GetValidatedToken` and `ValidFor` then fail with this error wrapped in `ErrNotValid`. -/
theorem validate_without_not_valid_after (ed : Ed25519) (skm : Manager) (now : Time)
    (st : SignedToken) (w : World) (tok : ProtoToken)
    (hpayload : UnmarshalProtoToken st.GetPrototoken = .ok tok)
    (hseed : (skm.keyDataFunc w.keyCalls).length = SeedSize)
    (hsig : ed.Verify (skm.keyDataFunc w.keyCalls) st.GetPrototoken st.GetSignature = true)
    (hnva : GetNotValidAfter tok.GetTimestamps = none)
    (hnow : now.After (Time.Unix 0 0) = true) :
    (skm.Validate ed now st w).1
        = .error (if now.Before (AsTime (GetNotValidBefore tok.GetTimestamps)) then
            .sentinel .ErrNotYetValid else .sentinel .ErrNoLongerValid)
      ∧ (tok.GetTimestamps = none →
          (skm.Validate ed now st w).1 = .error (.sentinel .ErrNoLongerValid))
      ∧ (GetNotValidBefore tok.GetTimestamps = none →
          (skm.Validate ed now st w).1 = .error (.sentinel .ErrNoLongerValid))
      ∧ ∃ e, (skm.Validate ed now st w).1 = .error e
          ∧ (e = .sentinel .ErrNotYetValid ∨ e = .sentinel .ErrNoLongerValid)
          ∧ (skm.GetValidatedToken ed now st w).1 = .error (.wrap2 (.sentinel .ErrNotValid) e)
          ∧ ∀ usage, (skm.ValidFor ed now st usage w).1
              = .error (.wrap2 (.sentinel .ErrNotValid) e) := by
  have hV : (skm.Validate ed now st w).1
      = .error (if now.Before (AsTime (GetNotValidBefore tok.GetTimestamps)) then
          .sentinel .ErrNotYetValid else .sentinel .ErrNoLongerValid) := by
    rw [validate_of_unmarshal_ok ed skm now st w tok hpayload hseed]
    simp only [hsig, if_true, hnva, asTime_nil, hnow]
    split <;> rfl
  have hepoch : now.Before (Time.Unix 0 0) = false := by
    simp only [Time.Before, Time.After, decide_eq_false_iff_not, decide_eq_true_eq] at *
    omega
  have hnone : GetNotValidBefore tok.GetTimestamps = none →
      (skm.Validate ed now st w).1 = .error (.sentinel .ErrNoLongerValid) := by
    intro h
    rw [hV, h, asTime_nil, hepoch]
    rfl
  refine ⟨hV, ?_, hnone, ?_⟩
  · intro h
    apply hnone
    rw [h]
    rfl
  · refine ⟨_, hV, ?_, ?_, ?_⟩
    · split
      · exact Or.inl rfl
      · exact Or.inr rfl
    · rw [getValidatedToken_of_validate_error ed skm now st w _ hV]
    · intro usage
      simp only [Manager.ValidFor, getValidatedToken_of_validate_error ed skm now st w _ hV]

/-- C24, amended, at the envelope `signedNoWindow`, whose credential has no timestamps. -/
theorem validate_without_not_valid_after_witness :
    UnmarshalProtoToken signedNoWindow.GetPrototoken = .ok { ProtoToken.zero with Id := [97] }
    ∧ (zeroManager.keyDataFunc World.init.keyCalls).length = SeedSize
    ∧ toyEd25519.Verify (zeroManager.keyDataFunc World.init.keyCalls)
        signedNoWindow.GetPrototoken signedNoWindow.GetSignature = true
    ∧ clock0.After (Time.Unix 0 0) = true
    ∧ (zeroManager.Validate toyEd25519 clock0 signedNoWindow World.init).1
        = .error (.sentinel .ErrNoLongerValid) :=
  ⟨by decide, by decide, by decide, by decide,
    (validate_without_not_valid_after toyEd25519 zeroManager clock0 signedNoWindow World.init
      { ProtoToken.zero with Id := [97] } (by decide) (by decide) (by decide) (by decide)
      (by decide)).2.1 (by decide)⟩

end ed25519url

end Prototokens
